import Mathlib

/-! A line-numbered BASIC interpreter: program store, statements and run driver.

Shallow embedding of `src/Basic/program.cpp`, `src/Basic/statement.cpp` and
`src/Basic/Basic.cpp`.

* A `std::map<int, V>` is a list of key/value pairs kept in strictly ascending
  key order (`IntMap.Sorted`); `find`, `operator[]=`, `erase`, `begin` and
  `upper_bound` are the list functions below.
* `error(msg)` throws; a throwing operation is modelled by returning the state
  reached at the throw together with `Outcome.error msg`.
* `std::cin` is the list of lines still to be read, `std::cout` the list of
  chunks written so far.
-/

deriving instance DecidableEq for Except

namespace Basic

/-! ## Ordered maps keyed by `int` -/

namespace IntMap

/-- The lookup `m.find(k)`: the value stored under `k`, if any. -/
def find {α : Type} : List (Int × α) → Int → Option α
  | [], _ => none
  | (k', v) :: rest, k => if k' = k then some v else find rest k

/-- The assignment `m[k] = v` (also `emplace` on an absent key and the
overwrite of `it->second`): the entry is put at its place in key order, an
entry with the same key is overwritten. -/
def insert {α : Type} (k : Int) (v : α) : List (Int × α) → List (Int × α)
  | [] => [(k, v)]
  | (k', v') :: rest =>
    if k < k' then (k, v) :: (k', v') :: rest
    else if k = k' then (k, v) :: rest
    else (k', v') :: insert k v rest

/-- The removal `m.erase(k)`; keys are unique, so at most one entry goes. -/
def erase {α : Type} (k : Int) (m : List (Int × α)) : List (Int × α) :=
  m.filter (fun e => decide (e.1 ≠ k))

/-- The iterator `m.upper_bound(k)`: the first entry whose key is greater than `k`. -/
def upperBound {α : Type} (m : List (Int × α)) (k : Int) : Option (Int × α) :=
  m.find? (fun e => decide (k < e.1))

/-- The keys of the map, in iteration order. -/
def keys {α : Type} (m : List (Int × α)) : List Int := m.map Prod.fst

/-- The representation invariant of `std::map`: keys strictly ascending. -/
def Sorted {α : Type} (m : List (Int × α)) : Prop := (keys m).Pairwise (· < ·)

instance {α : Type} (m : List (Int × α)) : Decidable (Sorted m) := by
  unfold Sorted; infer_instance

end IntMap

/-! ## Expressions and evaluation state (interfaces of `exp.hpp`, `evalstate.hpp`) -/

/-- Modelled from the spec: the expression tree of `exp.hpp`, which is not among
the sources. The spec's variants are integer constant, variable reference, binary
operation and assignment; as in the code's use of `getType()` and `getOp()`, an
assignment is the compound expression whose operator is `=`. -/
inductive Expression where
  | constant (value : Int)
  | identifier (name : String)
  | compound (op : String) (lhs rhs : Expression)
  deriving DecidableEq, Repr

/-- Modelled from the spec: the evaluation state of `evalstate.hpp`, a mapping
from variable name to integer value. -/
structure EvalState where
  bindings : List (String × Int)
  deriving DecidableEq, Repr

namespace EvalState

/-- Modelled from the spec: the state with no variable bound (`Clear`). -/
def empty : EvalState := ⟨[]⟩

/-- Modelled from the spec: `setValue(var, value)` binds or updates `var`. -/
def setValue (st : EvalState) (var : String) (value : Int) : EvalState :=
  ⟨(var, value) :: st.bindings.filter (fun b => decide (b.1 ≠ var))⟩

/-- Modelled from the spec: the value bound to `var`, if any. -/
def getValue (st : EvalState) (var : String) : Option Int :=
  (st.bindings.find? (fun b => decide (b.1 = var))).map Prod.snd

end EvalState

/-! ## Statements -/

/-- The seven statement classes of `statement.hpp` with their data members. -/
inductive Statement where
  | rem (comment : String)
  | letStmt (exp : Expression)
  | print (exp : Expression)
  | input (varName : String)
  | endStmt
  | goto (targetLine : Int)
  | ifStmt (lhsStr rhsStr op : String) (targetLine : Int)
  deriving DecidableEq, Repr

/-! ## The program store (`program.cpp`) -/

/-- The data members of `Program`. A `Statement *` is modelled by the statement
it points to, `nullptr` by `none`. Both containers are keyed by line number;
`sourceLinesByNumber` is iterated in key order (`begin`, `upper_bound`). -/
structure Program where
  sourceLinesByNumber : List (Int × String)
  parsedByNumber : List (Int × Statement)
  jumpPending : Bool
  jumpTarget : Int
  stopRequested : Bool
  deriving DecidableEq, Repr

/-- What a call does besides changing the state: it returns, throws
`ErrorException(msg)`, ends the process (`exit(0)`), or is cut off by the fuel
bound of the model. -/
inductive Outcome where
  | normal
  | error (msg : String)
  | quit
  | outOfFuel
  deriving DecidableEq, Repr

namespace Program

/-- Embeds `Program::clearPendingJump`. -/
def clearPendingJump (p : Program) : Program :=
  { p with jumpPending := false, jumpTarget := -1 }

/-- Embeds `Program::clearStop`. -/
def clearStop (p : Program) : Program :=
  { p with stopRequested := false }

/-- Embeds `Program::clear`. -/
def clear (p : Program) : Program :=
  clearStop (clearPendingJump { p with parsedByNumber := [], sourceLinesByNumber := [] })

/-- Modelled from the spec: the store of a freshly constructed `Program` (the
member initialisers are in `program.hpp`): both maps empty, no jump pending, no
stop requested, as after `clear`. -/
def empty : Program :=
  { sourceLinesByNumber := [], parsedByNumber := [], jumpPending := false,
    jumpTarget := -1, stopRequested := false }

/-- Embeds `Program::hasLine`. -/
def hasLine (p : Program) (lineNumber : Int) : Bool :=
  (IntMap.find p.sourceLinesByNumber lineNumber).isSome

/-- Embeds `Program::addSourceLine`. -/
def addSourceLine (p : Program) (lineNumber : Int) (line : String) : Program :=
  let p1 :=
    if (IntMap.find p.sourceLinesByNumber lineNumber).isSome then
      if (IntMap.find p.parsedByNumber lineNumber).isSome then
        { p with parsedByNumber := IntMap.erase lineNumber p.parsedByNumber }
      else p
    else p
  { p1 with sourceLinesByNumber := IntMap.insert lineNumber line p1.sourceLinesByNumber }

/-- Embeds `Program::removeSourceLine`. -/
def removeSourceLine (p : Program) (lineNumber : Int) : Program :=
  let p1 :=
    if (IntMap.find p.parsedByNumber lineNumber).isSome then
      { p with parsedByNumber := IntMap.erase lineNumber p.parsedByNumber }
    else p
  { p1 with sourceLinesByNumber := IntMap.erase lineNumber p1.sourceLinesByNumber }

/-- Embeds `Program::getSourceLine`. -/
def getSourceLine (p : Program) (lineNumber : Int) : String :=
  match IntMap.find p.sourceLinesByNumber lineNumber with
  | none => ""
  | some line => line

/-- Embeds `Program::setParsedStatement`: throws before touching the store when the
line has no source text. -/
def setParsedStatement (p : Program) (lineNumber : Int) (stmt : Statement) :
    Program × Outcome :=
  if (IntMap.find p.sourceLinesByNumber lineNumber).isNone then
    (p, Outcome.error "SYNTAX ERROR")
  else
    ({ p with parsedByNumber := IntMap.insert lineNumber stmt p.parsedByNumber },
      Outcome.normal)

/-- Embeds `Program::getParsedStatement`. -/
def getParsedStatement (p : Program) (lineNumber : Int) : Option Statement :=
  IntMap.find p.parsedByNumber lineNumber

/-- Embeds `Program::getFirstLineNumber`. -/
def getFirstLineNumber (p : Program) : Int :=
  match p.sourceLinesByNumber with
  | [] => -1
  | e :: _ => e.1

/-- Embeds `Program::getNextLineNumber`. -/
def getNextLineNumber (p : Program) (lineNumber : Int) : Int :=
  match IntMap.upperBound p.sourceLinesByNumber lineNumber with
  | none => -1
  | some e => e.1

/-- Embeds `Program::requestJump`. -/
def requestJump (p : Program) (lineNumber : Int) : Program :=
  { p with jumpPending := true, jumpTarget := lineNumber }

/-- Embeds `Program::hasPendingJump`. -/
def hasPendingJump (p : Program) : Bool := p.jumpPending

/-- Embeds `Program::getPendingJump`. -/
def getPendingJump (p : Program) : Int := p.jumpTarget

/-- Embeds `Program::requestStop`. -/
def requestStop (p : Program) : Program :=
  { p with stopRequested := true }

/-- Embeds `Program::shouldStop`. -/
def shouldStop (p : Program) : Bool := p.stopRequested

/-- The stored line numbers, in iteration order. -/
def lineNumbers (p : Program) : List Int := IntMap.keys p.sourceLinesByNumber

/-- The store is a well-formed `std::map` pair: keys strictly ascending. -/
def WF (p : Program) : Prop :=
  IntMap.Sorted p.sourceLinesByNumber ∧ IntMap.Sorted p.parsedByNumber

instance (p : Program) : Decidable (WF p) := by unfold WF; infer_instance

end Program

/-! ## Collaborators that are not among the sources -/

/-- Modelled from the spec: the token kinds of `Utils/tokenScanner.hpp` (the code
names `WORD` and `NUMBER`), with the end-of-input kind of the empty token. -/
inductive TokenType where
  | eof
  | separator
  | word
  | number
  | string
  | operator
  deriving DecidableEq, Repr

/-- The functions of `Utils/tokenScanner`, `Utils/strlib`, `parser` and `exp`
that the sources call but that are not among them. Every definition and theorem
below takes them as a parameter. -/
structure Lib where
  /-- The tokens `nextToken` yields for an input text, whitespace ignored and
  numbers scanned; a token is never the empty string. -/
  scanTokens : String → List String
  /-- Stands for `TokenScanner::getTokenType`. -/
  getTokenType : String → TokenType
  /-- Stands for `stringToInteger`, which throws on an ill-formed integer. -/
  stringToInteger : String → Except String Int
  /-- Stands for `toUpperCase`. -/
  toUpperCase : String → String
  /-- Stands for `trim`. -/
  trim : String → String
  /-- Stands for `parseExp(scanner)`: parses all remaining tokens as one expression. -/
  parseExp : List String → Except String Expression
  /-- Stands for `readE(scanner, 0)`: reads one expression from the front of the tokens. -/
  readE : List String → Except String Expression
  /-- Stands for `Expression::eval(state)`: the state it leaves and the value or the error. -/
  eval : Expression → EvalState → EvalState × Except String Int

/-- Everything a statement or command can read or change: the evaluation state,
the program store, the lines still on `std::cin`, the chunks written to
`std::cout`. -/
structure World where
  state : EvalState
  program : Program
  input : List String
  output : List String
  deriving DecidableEq, Repr

/-! ## Statement construction (`statement.cpp`) -/

/-- One round of `if (buf.tellp() > 0) buf << ' '; buf << tok;`. -/
def appendToken (buf tok : String) : String :=
  if buf.length > 0 then buf ++ " " ++ tok else buf ++ tok

/-- Embeds `isKeyword`. -/
def isKeyword (L : Lib) (tok : String) : Bool :=
  let up := L.toUpperCase tok
  up == "REM" || up == "LET" || up == "PRINT" || up == "INPUT" ||
    up == "END" || up == "GOTO" || up == "IF" || up == "THEN" ||
    up == "RUN" || up == "LIST" || up == "CLEAR" || up == "QUIT" || up == "HELP"

/-- Embeds `RemStatement::RemStatement`: the remaining tokens joined by blanks. -/
def mkRem (scanner : List String) : Except String Statement :=
  Except.ok (Statement.rem (scanner.foldl appendToken ""))

/-- Embeds `LetStatement::LetStatement`. -/
def mkLet (L : Lib) (scanner : List String) : Except String Statement :=
  match L.parseExp scanner with
  | Except.error m => Except.error m
  | Except.ok exp =>
    match exp with
    | Expression.compound op _ _ =>
      if op ≠ "=" then Except.error "SYNTAX ERROR" else Except.ok (Statement.letStmt exp)
    | _ => Except.error "SYNTAX ERROR"

/-- Embeds `PrintStatement::PrintStatement`. -/
def mkPrint (L : Lib) (scanner : List String) : Except String Statement :=
  match L.parseExp scanner with
  | Except.error m => Except.error m
  | Except.ok exp => Except.ok (Statement.print exp)

/-- Embeds `InputStatement::InputStatement`. -/
def mkInput (L : Lib) (scanner : List String) : Except String Statement :=
  let tok := scanner.headD ""
  let rest := scanner.tail
  if tok = "" then Except.error "SYNTAX ERROR"
  else if L.getTokenType tok ≠ TokenType.word ∧ L.getTokenType tok ≠ TokenType.number then
    Except.error "SYNTAX ERROR"
  else if isKeyword L tok then Except.error "SYNTAX ERROR"
  else if !rest.isEmpty then Except.error "SYNTAX ERROR"
  else Except.ok (Statement.input tok)

/-- The `END` branch of `processLine`. -/
def mkEnd (scanner : List String) : Except String Statement :=
  if !scanner.isEmpty then Except.error "SYNTAX ERROR" else Except.ok Statement.endStmt

/-- The tail shared by `GotoStatement::GotoStatement` and
`IfStatement::IfStatement`: one number token and nothing after it. -/
def readTarget (L : Lib) (scanner : List String) : Except String Int :=
  let tok := scanner.headD ""
  let rest := scanner.tail
  if L.getTokenType tok ≠ TokenType.number then Except.error "SYNTAX ERROR"
  else
    match L.stringToInteger tok with
    | Except.error m => Except.error m
    | Except.ok targetLine =>
      if !rest.isEmpty then Except.error "SYNTAX ERROR" else Except.ok targetLine

/-- Embeds `GotoStatement::GotoStatement`. -/
def mkGoto (L : Lib) (scanner : List String) : Except String Statement :=
  match readTarget L scanner with
  | Except.error m => Except.error m
  | Except.ok targetLine => Except.ok (Statement.goto targetLine)

/-- The first loop of `IfStatement::IfStatement`: collects the left operand up to
a relational token at depth zero; gives the text, the operator and the tokens
left, or `none` when `foundOp` stays false. -/
def collectLhs : List String → Int → String → Option (String × String × List String)
  | [], _, _ => none
  | tok :: rest, depth, lhsBuf =>
    let depth1 := if tok = "(" then depth + 1 else depth
    let depth2 := if tok = ")" then depth1 - 1 else depth1
    if depth2 = 0 ∧ (tok = "<" ∨ tok = ">" ∨ tok = "=") then some (lhsBuf, tok, rest)
    else collectLhs rest depth2 (appendToken lhsBuf tok)

/-- The second loop of `IfStatement::IfStatement`: collects the right operand up
to `THEN` at depth zero; `none` when `foundThen` stays false. -/
def collectRhs (L : Lib) : List String → Int → String → Option (String × List String)
  | [], _, _ => none
  | tok :: rest, depth, rhsBuf =>
    let depth1 := if tok = "(" then depth + 1 else depth
    let depth2 := if tok = ")" then depth1 - 1 else depth1
    if depth2 = 0 ∧ L.toUpperCase tok = "THEN" then some (rhsBuf, rest)
    else collectRhs L rest depth2 (appendToken rhsBuf tok)

/-- Embeds `IfStatement::IfStatement`. -/
def mkIf (L : Lib) (scanner : List String) : Except String Statement :=
  match collectLhs scanner 0 "" with
  | none => Except.error "SYNTAX ERROR"
  | some (lhsStr, op, rest) =>
    match collectRhs L rest 0 "" with
    | none => Except.error "SYNTAX ERROR"
    | some (rhsStr, rest2) =>
      match readTarget L rest2 with
      | Except.error m => Except.error m
      | Except.ok targetLine => Except.ok (Statement.ifStmt lhsStr rhsStr op targetLine)

/-! ## Statement execution (`statement.cpp`) -/

/-- Reduction of a `long long` result to 64 bits, two's complement. -/
def wrap64 (x : Int) : Int := (x + 2 ^ 63) % 2 ^ 64 - 2 ^ 63

/-- The digit loop of `tryParseInt`; `none` is `return false`. -/
def parseDigits : List Char → Int → Option Int
  | [], val => some val
  | c :: cs, val =>
    if c.toNat < 48 ∨ c.toNat > 57 then none
    else
      let val1 := wrap64 (val * 10 + ((c.toNat : Int) - 48))
      if val1 > 2147483648 then none else parseDigits cs val1

/-- Embeds `tryParseInt`: `some out` when it returns true, `none` when it returns false. -/
def tryParseInt (s : String) : Option Int :=
  match s.toList with
  | [] => none
  | c0 :: cs =>
    let neg := decide (c0 = '-')
    let body := if c0 = '+' ∨ c0 = '-' then cs else c0 :: cs
    if body.isEmpty then none
    else
      match parseDigits body 0 with
      | none => none
      | some val =>
        let val1 := if neg then wrap64 (-val) else val
        if val1 < -2147483648 ∨ val1 > 2147483647 then none else some val1

/-- The loop of `InputStatement::execute` over the lines left on `std::cin`:
the state, the lines left and the output when it returns. -/
def inputLoop (L : Lib) (varName : String) :
    List String → EvalState → List String → EvalState × List String × List String
  | [], st, out => (st.setValue varName 0, [], out ++ [" ? "])
  | line :: rest, st, out =>
    match tryParseInt (L.trim line) with
    | none => inputLoop L varName rest st (out ++ [" ? ", "INVALID NUMBER\n"])
    | some value => (st.setValue varName value, rest, out ++ [" ? "])

/-- The comparison of `IfStatement::execute`. -/
def ifCond (op : String) (lv rv : Int) : Bool :=
  if op = "=" then decide (lv = rv)
  else if op = "<" then decide (lv < rv)
  else if op = ">" then decide (lv > rv)
  else false

/-- The guarded jump `if (!program.hasLine(t)) error(...); program.requestJump(t);`
of `GotoStatement::execute` and `IfStatement::execute`. -/
def jumpTo (w : World) (targetLine : Int) : World × Outcome :=
  if !w.program.hasLine targetLine then (w, Outcome.error "LINE NUMBER ERROR")
  else ({ w with program := w.program.requestJump targetLine }, Outcome.normal)

/-- The `execute` method of the seven statement classes. -/
def execute (L : Lib) : Statement → World → World × Outcome
  | Statement.rem _, w => (w, Outcome.normal)
  | Statement.letStmt exp, w =>
    match L.eval exp w.state with
    | (st1, Except.error m) => ({ w with state := st1 }, Outcome.error m)
    | (st1, Except.ok _) => ({ w with state := st1 }, Outcome.normal)
  | Statement.print exp, w =>
    match L.eval exp w.state with
    | (st1, Except.error m) => ({ w with state := st1 }, Outcome.error m)
    | (st1, Except.ok value) =>
      ({ w with state := st1, output := w.output ++ [toString value ++ "\n"] }, Outcome.normal)
  | Statement.input varName, w =>
    match inputLoop L varName w.input w.state w.output with
    | (st1, rest, out) => ({ w with state := st1, input := rest, output := out }, Outcome.normal)
  | Statement.endStmt, w => ({ w with program := w.program.requestStop }, Outcome.normal)
  | Statement.goto targetLine, w => jumpTo w targetLine
  | Statement.ifStmt lhsStr rhsStr op targetLine, w =>
    match L.readE (L.scanTokens lhsStr) with
    | Except.error m => (w, Outcome.error m)
    | Except.ok l =>
      match L.readE (L.scanTokens rhsStr) with
      | Except.error m => (w, Outcome.error m)
      | Except.ok r =>
        match L.eval l w.state with
        | (st1, Except.error m) => ({ w with state := st1 }, Outcome.error m)
        | (st1, Except.ok lv) =>
          match L.eval r st1 with
          | (st2, Except.error m) => ({ w with state := st2 }, Outcome.error m)
          | (st2, Except.ok rv) =>
            if ifCond op lv rv then jumpTo { w with state := st2 } targetLine
            else ({ w with state := st2 }, Outcome.normal)

/-! ## The run driver and the command dispatch (`Basic.cpp`) -/

/-- What one round of the run loop leaves: the next current line, or the end of
the run (by `break` or by a throw). -/
inductive StepResult where
  | next (current : Int) (w : World)
  | stop (w : World) (o : Outcome)
  deriving DecidableEq, Repr

/-- The body of the `while (current != -1)` loop of the `RUN` branch of
`processLine`. -/
def driverStep (L : Lib) (current : Int) (w : World) : StepResult :=
  match w.program.getParsedStatement current with
  | none => StepResult.stop w (Outcome.error "SYNTAX ERROR")
  | some stmt =>
    match execute L stmt w with
    | (w1, Outcome.normal) =>
      if w1.program.shouldStop then StepResult.stop w1 Outcome.normal
      else if w1.program.hasPendingJump then
        StepResult.next w1.program.getPendingJump
          { w1 with program := w1.program.clearPendingJump }
      else StepResult.next (w1.program.getNextLineNumber current) w1
    | (w1, o) => StepResult.stop w1 o

/-- The `while (current != -1)` loop of the `RUN` branch of `processLine`, cut
off after `fuel` rounds. -/
def runLoop (L : Lib) : Nat → Int → World → World × Outcome
  | 0, current, w => if current = -1 then (w, Outcome.normal) else (w, Outcome.outOfFuel)
  | fuel + 1, current, w =>
    if current = -1 then (w, Outcome.normal)
    else
      match driverStep L current w with
      | StepResult.next current1 w1 => runLoop L fuel current1 w1
      | StepResult.stop w1 o => (w1, o)

/-- The `RUN` branch of `processLine`. -/
def run (L : Lib) (fuel : Nat) (w : World) : World × Outcome :=
  let current := w.program.getFirstLineNumber
  runLoop L fuel current { w with program := (w.program.clearPendingJump).clearStop }

/-- The `LIST` loop of `processLine`, cut off after `fuel` rounds. -/
def listLoop : Nat → Int → World → World × Outcome
  | 0, ln, w => if ln = -1 then (w, Outcome.normal) else (w, Outcome.outOfFuel)
  | fuel + 1, ln, w =>
    if ln = -1 then (w, Outcome.normal)
    else
      listLoop fuel (w.program.getNextLineNumber ln)
        { w with output := w.output ++ [w.program.getSourceLine ln ++ "\n"] }

/-- The statement constructor `processLine` picks for a keyword (upper-cased). -/
def buildStatement (L : Lib) (upper : String) (scanner : List String) :
    Except String Statement :=
  if upper = "REM" then mkRem scanner
  else if upper = "LET" then mkLet L scanner
  else if upper = "PRINT" then mkPrint L scanner
  else if upper = "INPUT" then mkInput L scanner
  else if upper = "END" then mkEnd scanner
  else if upper = "GOTO" then mkGoto L scanner
  else if upper = "IF" then mkIf L scanner
  else Except.error "SYNTAX ERROR"

/-- The immediate-mode `LET`, `PRINT` and `INPUT`: construct, execute, delete. -/
def immediate (L : Lib) (built : Except String Statement) (w : World) : World × Outcome :=
  match built with
  | Except.error m => (w, Outcome.error m)
  | Except.ok stmt => execute L stmt w

/-- Embeds `processLine`. The loops of `LIST` and `RUN` get `fuel` rounds. -/
def processLine (L : Lib) (fuel : Nat) (line : String) (w : World) : World × Outcome :=
  match L.scanTokens line with
  | [] => (w, Outcome.normal)
  | first :: scanner =>
    if first = "" then (w, Outcome.normal)
    else if L.getTokenType first = TokenType.number then
      match L.stringToInteger first with
      | Except.error m => (w, Outcome.error m)
      | Except.ok lineNumber =>
        match scanner with
        | [] => ({ w with program := w.program.removeSourceLine lineNumber }, Outcome.normal)
        | keyword :: scanner1 =>
          match buildStatement L (L.toUpperCase keyword) scanner1 with
          | Except.error m => (w, Outcome.error m)
          | Except.ok stmt =>
            match (w.program.addSourceLine lineNumber line).setParsedStatement lineNumber stmt with
            | (p2, o) => ({ w with program := p2 }, o)
    else
      let cmd := L.toUpperCase first
      if cmd = "REM" then (w, Outcome.normal)
      else if cmd = "LET" then immediate L (mkLet L scanner) w
      else if cmd = "PRINT" then immediate L (mkPrint L scanner) w
      else if cmd = "INPUT" then immediate L (mkInput L scanner) w
      else if cmd = "LIST" then listLoop fuel w.program.getFirstLineNumber w
      else if cmd = "CLEAR" then
        ({ w with program := w.program.clear, state := EvalState.empty }, Outcome.normal)
      else if cmd = "RUN" then run L fuel w
      else if cmd = "QUIT" then (w, Outcome.quit)
      else (w, Outcome.error "SYNTAX ERROR")

/-! ## A concrete instance of the collaborators, from the spec -/

/-- Modelled from the spec: the characters of a word token of `tokenScanner`. -/
def isWordChar (c : Char) : Bool := c.isAlphanum || c = '_'

/-- Modelled from the spec: the token extraction of `tokenScanner` with
whitespace ignored and numeric literals scanned: a run of digits is a number, a
run of word characters a word, any other character an operator of its own. -/
def scanChars : Nat → List Char → List String
  | 0, _ => []
  | _ + 1, [] => []
  | fuel + 1, c :: cs =>
    if c.isWhitespace then scanChars fuel cs
    else if c.isDigit then
      String.mk (c :: cs.takeWhile Char.isDigit) :: scanChars fuel (cs.dropWhile Char.isDigit)
    else if isWordChar c then
      String.mk (c :: cs.takeWhile isWordChar) :: scanChars fuel (cs.dropWhile isWordChar)
    else String.mk [c] :: scanChars fuel cs

/-- Modelled from the spec: token kind classification of `tokenScanner` (numeric
literal, word, operator or punctuation), by the first character. -/
def tokenKind (tok : String) : TokenType :=
  match tok.toList with
  | [] => TokenType.eof
  | c :: _ =>
    if c.isWhitespace then TokenType.separator
    else if c.isDigit then TokenType.number
    else if isWordChar c then TokenType.word
    else TokenType.operator

/-- Modelled from the spec: the value of a run of decimal digits. -/
def digitsValue (cs : List Char) : Int :=
  cs.foldl (fun acc c => acc * 10 + ((c.toNat : Int) - 48)) 0

/-- Modelled from the spec: `stringToInteger` of `strlib`: an optional minus sign
and decimal digits with a value in the range of `int`, an error otherwise. -/
def stringToIntegerSpec (s : String) : Except String Int :=
  let cs := s.toList
  let body := if cs.head? = some '-' then cs.tail else cs
  if body.isEmpty ∨ !body.all Char.isDigit then Except.error "SYNTAX ERROR"
  else
    let v := if cs.head? = some '-' then -digitsValue body else digitsValue body
    if v < -2147483648 ∨ v > 2147483647 then Except.error "SYNTAX ERROR" else Except.ok v

/-- Modelled from the spec: `trim` of `strlib`: whitespace removed at both ends. -/
def trimSpec (s : String) : String :=
  String.mk ((s.toList.dropWhile Char.isWhitespace).reverse.dropWhile Char.isWhitespace).reverse

/-- Modelled from the spec: reduction of an `int` result to 32 bits, two's
complement, the policy chosen where the spec leaves overflow of `+`, `-` and `*`
open. -/
def wrap32 (x : Int) : Int := (x + 2 ^ 31) % 2 ^ 32 - 2 ^ 31

/-- Modelled from the spec: evaluation of an expression (section 4.1): constants,
variable lookup (VARIABLE NOT DEFINED when unbound), assignment, and the four
binary operators with DIVIDE BY ZERO on a zero divisor. -/
def evalSpec : Expression → EvalState → EvalState × Except String Int
  | Expression.constant value, st => (st, Except.ok value)
  | Expression.identifier name, st =>
    match st.getValue name with
    | none => (st, Except.error "VARIABLE NOT DEFINED")
    | some v => (st, Except.ok v)
  | Expression.compound op lhs rhs, st =>
    if op = "=" then
      match lhs with
      | Expression.identifier name =>
        match evalSpec rhs st with
        | (st1, Except.error m) => (st1, Except.error m)
        | (st1, Except.ok v) => (st1.setValue name v, Except.ok v)
      | _ => (st, Except.error "SYNTAX ERROR")
    else
      match evalSpec lhs st with
      | (st1, Except.error m) => (st1, Except.error m)
      | (st1, Except.ok a) =>
        match evalSpec rhs st1 with
        | (st2, Except.error m) => (st2, Except.error m)
        | (st2, Except.ok b) =>
          if op = "+" then (st2, Except.ok (wrap32 (a + b)))
          else if op = "-" then (st2, Except.ok (wrap32 (a - b)))
          else if op = "*" then (st2, Except.ok (wrap32 (a * b)))
          else if op = "/" then
            if b = 0 then (st2, Except.error "DIVIDE BY ZERO")
            else (st2, Except.ok (wrap32 (Int.tdiv a b)))
          else (st2, Except.error "SYNTAX ERROR")

mutual

/-- Modelled from the spec: `Factor := '-' Factor | '(' Expr ')' | identifier |
integer-literal` of the grammar in section 4.1. -/
def parseFactor : Nat → List String → Except String (Expression × List String)
  | 0, _ => Except.error "SYNTAX ERROR"
  | _ + 1, [] => Except.error "SYNTAX ERROR"
  | fuel + 1, tok :: rest =>
    if tok = "-" then
      match parseFactor fuel rest with
      | Except.error m => Except.error m
      | Except.ok (e, r) => Except.ok (Expression.compound "-" (Expression.constant 0) e, r)
    else if tok = "(" then
      match parseExpr fuel rest with
      | Except.error m => Except.error m
      | Except.ok (e, r) =>
        match r with
        | [] => Except.error "SYNTAX ERROR"
        | close :: r1 => if close = ")" then Except.ok (e, r1) else Except.error "SYNTAX ERROR"
    else
      match tokenKind tok with
      | TokenType.number =>
        match stringToIntegerSpec tok with
        | Except.error m => Except.error m
        | Except.ok v => Except.ok (Expression.constant v, rest)
      | TokenType.word => Except.ok (Expression.identifier tok, rest)
      | _ => Except.error "SYNTAX ERROR"

/-- Modelled from the spec: the repetition `(('*'|'/') Factor)*`, left-associative. -/
def parseTermRest : Nat → Expression → List String → Except String (Expression × List String)
  | 0, _, _ => Except.error "SYNTAX ERROR"
  | _ + 1, lhs, [] => Except.ok (lhs, [])
  | fuel + 1, lhs, op :: rest =>
    if op = "*" ∨ op = "/" then
      match parseFactor fuel rest with
      | Except.error m => Except.error m
      | Except.ok (f, r) => parseTermRest fuel (Expression.compound op lhs f) r
    else Except.ok (lhs, op :: rest)

/-- Modelled from the spec: `Term := Factor (('*'|'/') Factor)*`. -/
def parseTerm : Nat → List String → Except String (Expression × List String)
  | 0, _ => Except.error "SYNTAX ERROR"
  | fuel + 1, toks =>
    match parseFactor fuel toks with
    | Except.error m => Except.error m
    | Except.ok (f, r) => parseTermRest fuel f r

/-- Modelled from the spec: the repetition `(('+'|'-') Term)*`, left-associative. -/
def parseExprRest : Nat → Expression → List String → Except String (Expression × List String)
  | 0, _, _ => Except.error "SYNTAX ERROR"
  | _ + 1, lhs, [] => Except.ok (lhs, [])
  | fuel + 1, lhs, op :: rest =>
    if op = "+" ∨ op = "-" then
      match parseTerm fuel rest with
      | Except.error m => Except.error m
      | Except.ok (t, r) => parseExprRest fuel (Expression.compound op lhs t) r
    else Except.ok (lhs, op :: rest)

/-- Modelled from the spec: `Expr := Term (('+'|'-') Term)*`. -/
def parseExpr : Nat → List String → Except String (Expression × List String)
  | 0, _ => Except.error "SYNTAX ERROR"
  | fuel + 1, toks =>
    match parseTerm fuel toks with
    | Except.error m => Except.error m
    | Except.ok (t, r) => parseExprRest fuel t r

end

/-- Modelled from the spec: `readE` of `parser`: one expression read from the
front of the tokens; what follows it is left to the caller. -/
def readESpec (toks : List String) : Except String Expression :=
  match parseExpr (4 * toks.length + 4) toks with
  | Except.error m => Except.error m
  | Except.ok (e, _) => Except.ok e

/-- Modelled from the spec: `parseExp` of `parser`: the whole token stream is one
expression, an assignment `identifier '=' Expr` being recognised at the top
level only; leftover tokens are a SYNTAX ERROR. -/
def parseExpSpec (toks : List String) : Except String Expression :=
  match toks with
  | name :: eq :: rest =>
    if eq = "=" ∧ tokenKind name = TokenType.word then
      match parseExpr (4 * rest.length + 4) rest with
      | Except.ok (e, []) => Except.ok (Expression.compound "=" (Expression.identifier name) e)
      | _ => Except.error "SYNTAX ERROR"
    else
      match parseExpr (4 * toks.length + 4) toks with
      | Except.ok (e, []) => Except.ok e
      | _ => Except.error "SYNTAX ERROR"
  | _ =>
    match parseExpr (4 * toks.length + 4) toks with
    | Except.ok (e, []) => Except.ok e
    | _ => Except.error "SYNTAX ERROR"

/-- Modelled from the spec: the collaborators as sections 4.1 and 6 describe them,
used where a property is evaluated on a concrete program. -/
def specLib : Lib :=
  { scanTokens := fun s => scanChars s.length s.toList
    getTokenType := tokenKind
    stringToInteger := stringToIntegerSpec
    toUpperCase := fun s => String.mk (s.toList.map Char.toUpper)
    trim := trimSpec
    parseExp := parseExpSpec
    readE := readESpec
    eval := evalSpec }

/-- The world before the first line is entered: nothing bound, nothing stored,
nothing written; `input` is what `std::cin` holds. -/
def World.initial (input : List String) : World :=
  { state := EvalState.empty, program := Program.empty, input := input, output := [] }

/-! ## Notions the properties are stated with -/

/-- The driver, started at line `c` in world `w`, comes to the top of its loop
at line `c1` in world `w1`. -/
inductive Reaches (L : Lib) : Int → World → Int → World → Prop where
  | refl (c : Int) (w : World) : Reaches L c w c w
  | step {c c1 c2 : Int} {w w1 w2 : World} (hc : c ≠ -1)
      (hstep : driverStep L c w = StepResult.next c1 w1) (hrest : Reaches L c1 w1 c2 w2) :
      Reaches L c w c2 w2

/-- The stores built from the empty one by the operations of `Program`. -/
inductive Reachable : Program → Prop where
  | empty : Reachable Program.empty
  | addSourceLine {p : Program} (n : Int) (t : String) (h : Reachable p) :
      Reachable (p.addSourceLine n t)
  | removeSourceLine {p : Program} (n : Int) (h : Reachable p) :
      Reachable (p.removeSourceLine n)
  | setParsedStatement {p : Program} (n : Int) (s : Statement) (h : Reachable p) :
      Reachable (p.setParsedStatement n s).1
  | clear {p : Program} (h : Reachable p) : Reachable p.clear
  | requestJump {p : Program} (n : Int) (h : Reachable p) : Reachable (p.requestJump n)
  | clearPendingJump {p : Program} (h : Reachable p) : Reachable p.clearPendingJump
  | requestStop {p : Program} (h : Reachable p) : Reachable p.requestStop
  | clearStop {p : Program} (h : Reachable p) : Reachable p.clearStop

/-- A jump statement: `GOTO` or `IF`. -/
def Statement.isJump : Statement → Bool
  | Statement.goto _ => true
  | Statement.ifStmt _ _ _ _ => true
  | _ => false

/-- The run of a jump-free program as the spec words it: the statements are
executed one after the other in the order given, up to and including the first
`END`; a statement that throws ends the run with its error. -/
def execInOrder (L : Lib) : List Statement → World → World × Outcome
  | [], w => (w, Outcome.normal)
  | stmt :: rest, w =>
    match execute L stmt w with
    | (w1, Outcome.normal) =>
      if stmt = Statement.endStmt then (w1, Outcome.normal) else execInOrder L rest w1
    | (w1, o) => (w1, o)

/-- The parsed statements of the stored lines, in ascending line order. -/
def Program.statementsInOrder (p : Program) : List Statement :=
  p.lineNumbers.filterMap p.getParsedStatement

/-- A store holding source text for lines 10, 20 and 30, entered out of order. -/
def sampleStore : Program :=
  ((Program.empty.addSourceLine 20 "20 PRINT X").addSourceLine 10 "10 LET X = 1").addSourceLine 30
    "30 END"

/-- The program `10 LET X = 1`, `20 PRINT X`, `30 END`, installed line by line. -/
def sampleProgram : Program :=
  (((sampleStore.setParsedStatement 10
      (Statement.letStmt
        (Expression.compound "=" (Expression.identifier "X") (Expression.constant 1)))).1.setParsedStatement
      20 (Statement.print (Expression.identifier "X"))).1.setParsedStatement 30
      Statement.endStmt).1

/-- A world around a store: nothing bound, nothing to read, nothing written. -/
def World.ofProgram (p : Program) : World :=
  { state := EvalState.empty, program := p, input := [], output := [] }

/-- What `InputStatement::execute` writes while it rejects `k` lines: a prompt and
the INVALID NUMBER notice for each. -/
def rejectionChunks : Nat → List String
  | 0 => []
  | k + 1 => " ? " :: "INVALID NUMBER\n" :: rejectionChunks k

/-- The comparison `lv op rv` for a relational operator `op`. -/
def relHolds (op : String) (lv rv : Int) : Prop :=
  (op = "<" ∧ lv < rv) ∨ (op = ">" ∧ lv > rv) ∨ (op = "=" ∧ lv = rv)

/-- A decimal digit, `'0'` (code 48) to `'9'` (code 57). -/
def isDecimalDigit (c : Char) : Bool := decide (48 ≤ c.toNat ∧ c.toNat ≤ 57)

/-- The leading sign of a text, if it has one, taken off: whether the sign is
`'-'`, and the rest. -/
def splitSign : List Char → Bool × List Char
  | [] => (false, [])
  | c0 :: rest =>
    if c0 = '+' then (false, rest) else if c0 = '-' then (true, rest) else (false, c0 :: rest)

/-- The integer a text denotes when it is an optional leading `'+'` or `'-'`
followed by one or more decimal digits; `none` for any other text. -/
def denotedInt (cs : List Char) : Option Int :=
  if (splitSign cs).2 ≠ [] ∧ (splitSign cs).2.all isDecimalDigit = true then
    some (if (splitSign cs).1 then -digitsValue (splitSign cs).2 else digitsValue (splitSign cs).2)
  else none

/-- The program `10 LET X = 1`, `20 PRINT Y`, whose second line reads a variable
that is never bound. -/
def failingProgram : Program :=
  (((Program.empty.addSourceLine 10 "10 LET X = 1").setParsedStatement 10
      (Statement.letStmt
        (Expression.compound "=" (Expression.identifier "X") (Expression.constant 1)))).1.addSourceLine
      20 "20 PRINT Y").setParsedStatement 20 (Statement.print (Expression.identifier "Y")) |>.1

/-- The traversal `ln = start; while (ln != -1) { visit(ln); ln =
getNextLineNumber(ln); }` of the `LIST` and `RUN` branches, cut off after `fuel`
rounds: the line numbers visited, in the order of the visits, or `none` when the
rounds do not suffice. -/
def traverse (p : Program) : Nat → Int → Option (List Int)
  | 0, ln => if ln = -1 then some [] else none
  | fuel + 1, ln =>
    if ln = -1 then some []
    else (traverse p fuel (p.getNextLineNumber ln)).map (fun visited => ln :: visited)

/-- The sample program with `GOTO 30` installed at line 10. -/
def jumpingProgram : Program :=
  (sampleProgram.setParsedStatement 10 (Statement.goto 30)).1

/-- What a token adds to the parenthesis nesting depth: `(` one, `)` minus one. -/
def parenDelta (tok : String) : Int :=
  (if tok = "(" then 1 else 0) - (if tok = ")" then 1 else 0)

/-- The parenthesis nesting depth after the tokens `toks`, counted from zero. -/
def parenDepth : List String → Int
  | [] => 0
  | tok :: rest => parenDelta tok + parenDepth rest

/-- A relational token: `<`, `>` or `=`. -/
def IsRelational (tok : String) : Prop := tok = "<" ∨ tok = ">" ∨ tok = "="

instance (tok : String) : Decidable (IsRelational tok) := by
  unfold IsRelational; infer_instance

/-- A token equal to `THEN` once upper-cased. -/
def IsThen (L : Lib) (tok : String) : Prop := L.toUpperCase tok = "THEN"

instance (L : Lib) (tok : String) : Decidable (IsThen L tok) := by
  unfold IsThen; infer_instance

/-- The token `d`, coming after the tokens `pre`, is the first delimiter at
depth zero when the depth starts at `d0`: it is a delimiter, the depth is zero
at it, and no token of `pre` is a delimiter with depth zero at it. -/
def FirstAtDepthZero (isDelim : String → Prop) (d0 : Int) (pre : List String) (d : String) :
    Prop :=
  isDelim d ∧ d0 + parenDepth (pre ++ [d]) = 0 ∧
    ∀ pre1 t post1, pre = pre1 ++ t :: post1 →
      ¬ (isDelim t ∧ d0 + parenDepth (pre1 ++ [t]) = 0)

/-- Tokens joined by single blanks. -/
def joinTokens (toks : List String) : String := String.intercalate " " toks

/-- The two loops of `IfStatement::IfStatement` with the test for the delimiter
as a parameter: the text collected, the delimiter and the tokens after it. -/
def scanTo (isDelim : String → Prop) [DecidablePred isDelim] :
    List String → Int → String → Option (String × String × List String)
  | [], _, _ => none
  | tok :: rest, depth, buf =>
    let depth1 := if tok = "(" then depth + 1 else depth
    let depth2 := if tok = ")" then depth1 - 1 else depth1
    if depth2 = 0 ∧ isDelim tok then some (buf, tok, rest)
    else scanTo isDelim rest depth2 (appendToken buf tok)

/-- The digit loop of `tryParseInt` with a record of its accumulator: next to the
result of the loop, the values `val * 10 + (s[idx] - '0')` of the rounds that
compute one, as integers before their reduction to 64 bits. -/
def parseDigitsTraced : List Char → Int → Option Int × List Int
  | [], val => (some val, [])
  | c :: cs, val =>
    if c.toNat < 48 ∨ c.toNat > 57 then (none, [])
    else if wrap64 (val * 10 + ((c.toNat : Int) - 48)) > 2147483648 then
      (none, [val * 10 + ((c.toNat : Int) - 48)])
    else
      ((parseDigitsTraced cs (wrap64 (val * 10 + ((c.toNat : Int) - 48)))).1,
        (val * 10 + ((c.toNat : Int) - 48)) ::
          (parseDigitsTraced cs (wrap64 (val * 10 + ((c.toNat : Int) - 48)))).2)

/-- An expression with no assignment in it: no compound node has the operator `=`. -/
def Expression.assignFree : Expression → Bool
  | Expression.constant _ => true
  | Expression.identifier _ => true
  | Expression.compound op lhs rhs => decide (op ≠ "=") && lhs.assignFree && rhs.assignFree

/-- An expression as the grammar of section 4.1 gives it: free of assignments, or
one assignment at the top whose value expression is free of them. -/
def Expression.topAssignOnly : Expression → Bool
  | Expression.compound op lhs rhs =>
    if op = "=" then
      (match lhs with
        | Expression.identifier _ => true
        | _ => false) && rhs.assignFree
    else (Expression.compound op lhs rhs).assignFree
  | e => e.assignFree

/-- A statement whose expression, if it has one, is as the grammar gives it. -/
def Statement.grammatical : Statement → Bool
  | Statement.letStmt exp => exp.topAssignOnly
  | Statement.print exp => exp.topAssignOnly
  | _ => true

/-! ## Lemmas on ordered maps -/

namespace IntMap

theorem find_isSome_iff {α : Type} (m : List (Int × α)) (k : Int) :
    (find m k).isSome = true ↔ k ∈ keys m := by
  induction m with
  | nil => simp [find, keys]
  | cons e rest ih =>
    obtain ⟨k', v⟩ := e
    by_cases h : k' = k
    · simp [find, keys, h]
    · have h' : ¬ k = k' := fun hk => h hk.symm
      simpa [find, keys, h, h'] using ih

theorem find_eq_none_iff {α : Type} (m : List (Int × α)) (k : Int) :
    find m k = none ↔ k ∉ keys m := by
  rw [← find_isSome_iff]
  cases find m k <;> simp

theorem find_insert_self {α : Type} (m : List (Int × α)) (k : Int) (v : α) :
    find (insert k v m) k = some v := by
  induction m with
  | nil => simp [insert, find]
  | cons e rest ih =>
    obtain ⟨k', v'⟩ := e
    by_cases h1 : k < k'
    · simp [insert, find, h1]
    · by_cases h2 : k = k'
      · simp [insert, find, h2]
      · have h3 : ¬ k' = k := fun hk => h2 hk.symm
        simp [insert, find, h1, h2, h3, ih]

theorem find_insert_of_ne {α : Type} (m : List (Int × α)) (k j : Int) (v : α) (hj : j ≠ k) :
    find (insert k v m) j = find m j := by
  have hk : ¬ k = j := fun h => hj h.symm
  induction m with
  | nil => simp [insert, find, hk]
  | cons e rest ih =>
    obtain ⟨k', v'⟩ := e
    by_cases h1 : k < k'
    · simp [insert, find, h1, hk]
    · by_cases h2 : k = k'
      · subst h2
        simp [insert, find, hk]
      · by_cases h3 : k' = j
        · subst h3
          simp [insert, find, h1, h2]
        · simp [insert, find, h1, h2, h3, ih]

theorem find_erase_self {α : Type} (m : List (Int × α)) (k : Int) :
    find (erase k m) k = none := by
  induction m with
  | nil => simp [erase, find]
  | cons e rest ih =>
    obtain ⟨k', v'⟩ := e
    by_cases h : k' = k
    · simpa [erase, List.filter_cons, h] using ih
    · simpa [erase, List.filter_cons, h, find] using ih

theorem find_erase_of_ne {α : Type} (m : List (Int × α)) (k j : Int) (hj : j ≠ k) :
    find (erase k m) j = find m j := by
  induction m with
  | nil => simp [erase, find]
  | cons e rest ih =>
    obtain ⟨k', v'⟩ := e
    by_cases h : k' = k
    · subst h
      have h3 : ¬ k' = j := fun hk => hj hk.symm
      simpa [erase, List.filter_cons, find, h3] using ih
    · by_cases h3 : k' = j
      · subst h3
        simp [erase, List.filter_cons, h, find]
      · simpa [erase, List.filter_cons, h, find, h3] using ih

theorem mem_keys_erase {α : Type} (m : List (Int × α)) (k j : Int) :
    j ∈ keys (erase k m) ↔ j ∈ keys m ∧ j ≠ k := by
  rw [← find_isSome_iff, ← find_isSome_iff]
  by_cases h : j = k
  · subst h
    simp [find_erase_self]
  · simp [find_erase_of_ne m k j h, h]

theorem mem_keys_insert {α : Type} (m : List (Int × α)) (k j : Int) (v : α) :
    j ∈ keys (insert k v m) ↔ j = k ∨ j ∈ keys m := by
  rw [← find_isSome_iff, ← find_isSome_iff]
  by_cases h : j = k
  · subst h
    simp [find_insert_self]
  · simp [find_insert_of_ne m k j v h, h]

theorem sorted_cons {α : Type} (e : Int × α) (m : List (Int × α)) :
    Sorted (e :: m) ↔ (∀ j ∈ keys m, e.1 < j) ∧ Sorted m := by
  simp [Sorted, keys, List.pairwise_cons]

theorem sorted_erase {α : Type} (m : List (Int × α)) (k : Int) (h : Sorted m) :
    Sorted (erase k m) := by
  unfold Sorted keys erase at *
  exact (List.Pairwise.sublist (List.Sublist.map _ (List.filter_sublist _)) h)

theorem sorted_insert {α : Type} (m : List (Int × α)) (k : Int) (v : α) (h : Sorted m) :
    Sorted (insert k v m) := by
  induction m with
  | nil => simp [insert, Sorted, keys]
  | cons e rest ih =>
    obtain ⟨k', v'⟩ := e
    rw [sorted_cons] at h
    by_cases h1 : k < k'
    · simp only [insert, h1, if_true]
      rw [sorted_cons, sorted_cons]
      refine ⟨?_, h⟩
      intro j hj
      simp only [keys, List.map_cons, List.mem_cons] at hj
      rcases hj with hj | hj
      · simpa [hj] using h1
      · exact lt_trans h1 (h.1 j hj)
    · by_cases h2 : k = k'
      · subst h2
        simp only [insert, h1, if_false, if_true]
        rw [sorted_cons]
        exact h
      · simp only [insert, h1, h2, if_false]
        rw [sorted_cons]
        refine ⟨?_, ih h.2⟩
        intro j hj
        rw [mem_keys_insert] at hj
        rcases hj with hj | hj
        · subst hj
          exact lt_of_le_of_ne (not_lt.mp h1) (fun hk => h2 hk.symm)
        · exact h.1 j hj

/-- On a sorted map `upper_bound` finds the least key above `k`. -/
theorem upperBound_some {α : Type} (m : List (Int × α)) (k : Int) (e : Int × α)
    (h : Sorted m) (he : upperBound m k = some e) :
    e.1 ∈ keys m ∧ k < e.1 ∧ ∀ j ∈ keys m, k < j → e.1 ≤ j := by
  induction m with
  | nil => simp [upperBound] at he
  | cons e0 rest ih =>
    rw [sorted_cons] at h
    by_cases h1 : k < e0.1
    · have : e = e0 := by
        simpa [upperBound, List.find?_cons, h1] using he.symm
      subst this
      refine ⟨by simp [keys], h1, ?_⟩
      intro j hj _
      simp only [keys, List.map_cons, List.mem_cons] at hj
      rcases hj with hj | hj
      · exact le_of_eq hj.symm
      · exact le_of_lt (h.1 j hj)
    · have he' : upperBound rest k = some e := by
        simpa [upperBound, List.find?_cons, h1] using he
      obtain ⟨a, b, c⟩ := ih h.2 he'
      refine ⟨by simp [keys] at a ⊢; exact Or.inr a, b, ?_⟩
      intro j hj hkj
      simp only [keys, List.map_cons, List.mem_cons] at hj
      rcases hj with hj | hj
      · exact absurd (hj ▸ hkj) h1
      · exact c j hj hkj

theorem upperBound_none {α : Type} (m : List (Int × α)) (k : Int)
    (he : upperBound m k = none) : ∀ j ∈ keys m, ¬ k < j := by
  intro j hj
  simp only [upperBound, List.find?_eq_none] at he
  simp only [keys, List.mem_map] at hj
  obtain ⟨e, hem, rfl⟩ := hj
  simpa using he e hem

theorem upperBound_mem {α : Type} (m : List (Int × α)) (k : Int) (e : Int × α)
    (he : upperBound m k = some e) : e.1 ∈ keys m ∧ k < e.1 := by
  unfold upperBound at he
  have h1 := List.mem_of_find?_eq_some he
  have h2 := List.find?_some he
  exact ⟨List.mem_map_of_mem _ h1, by simpa using h2⟩

end IntMap

/-! ## The program store: line lookup -/

theorem hasLine_iff (p : Program) (n : Int) :
    p.hasLine n = true ↔ n ∈ p.lineNumbers :=
  IntMap.find_isSome_iff p.sourceLinesByNumber n

theorem hasLine_eq_false_iff (p : Program) (n : Int) :
    p.hasLine n = false ↔ n ∉ p.lineNumbers := by
  rw [← hasLine_iff]; simp

/-- C1: on a store whose source map is in key order, `getNextLineNumber n` is
the least stored line number greater than `n`, and `-1` when no stored number is
greater; `getFirstLineNumber` is the least stored line number, and `-1` on the
empty store. With lines 10, 20 and 30 stored, the successor of 10 is 20 and the
successor of 30 is `-1`. -/
theorem C1_first_and_next_line_number (p : Program)
    (hs : IntMap.Sorted p.sourceLinesByNumber) (n : Int) :
    ((∃ m, p.hasLine m = true ∧ n < m) →
        p.hasLine (p.getNextLineNumber n) = true ∧ n < p.getNextLineNumber n ∧
          ∀ m, p.hasLine m = true → n < m → p.getNextLineNumber n ≤ m) ∧
    ((∀ m, p.hasLine m = true → ¬ n < m) → p.getNextLineNumber n = -1) ∧
    ((∃ m, p.hasLine m = true) →
        p.hasLine p.getFirstLineNumber = true ∧
          ∀ m, p.hasLine m = true → p.getFirstLineNumber ≤ m) ∧
    ((∀ m, p.hasLine m = false) → p.getFirstLineNumber = -1) ∧
    (∀ a b c : String,
        (((Program.empty.addSourceLine 10 a).addSourceLine 20 b).addSourceLine 30 c).getNextLineNumber 10
            = 20 ∧
        (((Program.empty.addSourceLine 10 a).addSourceLine 20 b).addSourceLine 30 c).getNextLineNumber 30
            = -1) := by
  refine ⟨?_, ?_, ?_, ?_, ?_⟩
  · rintro ⟨m, hm, hnm⟩
    unfold Program.getNextLineNumber
    cases hu : IntMap.upperBound p.sourceLinesByNumber n with
    | none =>
      exact absurd hnm (IntMap.upperBound_none _ _ hu m ((hasLine_iff p m).mp hm))
    | some e =>
      obtain ⟨h1, h2, h3⟩ := IntMap.upperBound_some _ _ _ hs hu
      exact ⟨(hasLine_iff p _).mpr h1, h2, fun j hj hnj => h3 j ((hasLine_iff p j).mp hj) hnj⟩
  · intro hall
    unfold Program.getNextLineNumber
    cases hu : IntMap.upperBound p.sourceLinesByNumber n with
    | none => rfl
    | some e =>
      obtain ⟨h1, h2⟩ := IntMap.upperBound_mem _ _ _ hu
      exact absurd h2 (hall _ ((hasLine_iff p _).mpr h1))
  · rintro ⟨m, hm⟩
    rw [hasLine_iff] at hm
    unfold Program.getFirstLineNumber
    cases hl : p.sourceLinesByNumber with
    | nil => simp [Program.lineNumbers, IntMap.keys, hl] at hm
    | cons e rest =>
      rw [hl, IntMap.sorted_cons] at hs
      refine ⟨?_, ?_⟩
      · rw [hasLine_iff]
        simp [Program.lineNumbers, IntMap.keys, hl]
      · intro j hj
        rw [hasLine_iff] at hj
        simp only [Program.lineNumbers, IntMap.keys, hl, List.map_cons, List.mem_cons] at hj
        rcases hj with hj | hj
        · exact le_of_eq hj.symm
        · exact le_of_lt (hs.1 j hj)
  · intro hall
    unfold Program.getFirstLineNumber
    cases hl : p.sourceLinesByNumber with
    | nil => rfl
    | cons e rest =>
      have := hall e.1
      rw [hasLine_eq_false_iff] at this
      simp [Program.lineNumbers, IntMap.keys, hl] at this
  · intro a b c
    exact ⟨rfl, rfl⟩

/-- C1 at a concrete store: lines 10, 20 and 30, queried at 15. -/
theorem C1_first_and_next_line_number_witness :
    IntMap.Sorted sampleStore.sourceLinesByNumber ∧
      (sampleStore.hasLine (sampleStore.getNextLineNumber 15) = true ∧
        15 < sampleStore.getNextLineNumber 15 ∧
        ∀ m, sampleStore.hasLine m = true → 15 < m → sampleStore.getNextLineNumber 15 ≤ m) :=
  ⟨by decide,
    (C1_first_and_next_line_number sampleStore (by decide) 15).1 ⟨20, by decide, by decide⟩⟩

/-- C2: for a line number `n` other than the sentinel `-1`, after
`addSourceLine n t` and then `removeSourceLine n` the store has no line `n`:
`hasLine n` is false, `getSourceLine n` is empty, `getParsedStatement n` is null,
and neither `getFirstLineNumber` nor `getNextLineNumber` returns `n`. -/
theorem C2_add_then_remove (p : Program) (n : Int) (t : String) (hn : n ≠ -1) :
    ((p.addSourceLine n t).removeSourceLine n).hasLine n = false ∧
    ((p.addSourceLine n t).removeSourceLine n).getSourceLine n = "" ∧
    ((p.addSourceLine n t).removeSourceLine n).getParsedStatement n = none ∧
    ((p.addSourceLine n t).removeSourceLine n).getFirstLineNumber ≠ n ∧
    ∀ m, ((p.addSourceLine n t).removeSourceLine n).getNextLineNumber m ≠ n := by
  generalize p.addSourceLine n t = q
  have hsrc : (q.removeSourceLine n).sourceLinesByNumber = IntMap.erase n q.sourceLinesByNumber := by
    unfold Program.removeSourceLine
    split <;> rfl
  have hpar : (q.removeSourceLine n).getParsedStatement n = none := by
    unfold Program.removeSourceLine Program.getParsedStatement
    split
    · exact IntMap.find_erase_self _ _
    · rename_i h
      simpa using h
  have hno : n ∉ (q.removeSourceLine n).lineNumbers := by
    unfold Program.lineNumbers
    rw [hsrc, IntMap.mem_keys_erase]
    simp
  refine ⟨(hasLine_eq_false_iff _ _).mpr hno, ?_, hpar, ?_, ?_⟩
  · unfold Program.getSourceLine
    rw [hsrc, IntMap.find_erase_self]
  · intro hf
    unfold Program.getFirstLineNumber at hf
    cases hl : (q.removeSourceLine n).sourceLinesByNumber with
    | nil =>
      rw [hl] at hf
      exact hn hf.symm
    | cons e rest =>
      rw [hl] at hf
      apply hno
      simp only [Program.lineNumbers, IntMap.keys, hl, List.map_cons, List.mem_cons]
      exact Or.inl hf.symm
  · intro m hf
    unfold Program.getNextLineNumber at hf
    cases hu : IntMap.upperBound (q.removeSourceLine n).sourceLinesByNumber m with
    | none =>
      rw [hu] at hf
      exact hn hf.symm
    | some e =>
      rw [hu] at hf
      obtain ⟨h1, _⟩ := IntMap.upperBound_mem _ _ _ hu
      exact hno (hf ▸ h1)

/-- C2 at a concrete store: line 10 added to the empty store, then removed. -/
theorem C2_add_then_remove_witness :
    (10 : Int) ≠ -1 ∧
      ((Program.empty.addSourceLine 10 "10 REM").removeSourceLine 10).hasLine 10 = false ∧
      ((Program.empty.addSourceLine 10 "10 REM").removeSourceLine 10).getFirstLineNumber ≠ 10 :=
  ⟨by decide,
    (C2_add_then_remove Program.empty 10 "10 REM" (by decide)).1,
    (C2_add_then_remove Program.empty 10 "10 REM" (by decide)).2.2.2.1⟩

/-! ## Statement execution and the driver: what is left untouched -/

theorem jumpTo_maps (w : World) (t : Int) :
    (jumpTo w t).1.program.sourceLinesByNumber = w.program.sourceLinesByNumber ∧
    (jumpTo w t).1.program.parsedByNumber = w.program.parsedByNumber := by
  unfold jumpTo
  split <;> simp [Program.requestJump]

theorem jumpTo_outcome (w : World) (t : Int) :
    (jumpTo w t).2 = Outcome.normal ∨ ∃ m, (jumpTo w t).2 = Outcome.error m := by
  unfold jumpTo
  split <;> simp

/-- No statement changes the stored lines or the installed statements. -/
theorem execute_maps (L : Lib) (s : Statement) (w : World) :
    (execute L s w).1.program.sourceLinesByNumber = w.program.sourceLinesByNumber ∧
    (execute L s w).1.program.parsedByNumber = w.program.parsedByNumber := by
  cases s with
  | rem c => simp [execute]
  | letStmt e =>
    simp only [execute]
    split <;> simp
  | print e =>
    simp only [execute]
    split <;> simp
  | input v => simp [execute]
  | endStmt => simp [execute, Program.requestStop]
  | goto t => exact jumpTo_maps w t
  | ifStmt l r op t =>
    simp only [execute]
    split
    · simp
    · split
      · simp
      · split
        · simp
        · split
          · simp
          · split
            · exact jumpTo_maps _ t
            · simp

/-- A statement returns or throws. -/
theorem execute_outcome (L : Lib) (s : Statement) (w : World) :
    (execute L s w).2 = Outcome.normal ∨ ∃ m, (execute L s w).2 = Outcome.error m := by
  cases s with
  | rem c => simp [execute]
  | letStmt e =>
    simp only [execute]
    split <;> simp
  | print e =>
    simp only [execute]
    split <;> simp
  | input v => simp [execute]
  | endStmt => simp [execute]
  | goto t => exact jumpTo_outcome w t
  | ifStmt l r op t =>
    simp only [execute]
    split
    · simp
    · split
      · simp
      · split
        · simp
        · split
          · simp
          · split
            · exact jumpTo_outcome _ t
            · simp

theorem driverStep_next_maps (L : Lib) (c c1 : Int) (w w1 : World)
    (h : driverStep L c w = StepResult.next c1 w1) :
    w1.program.sourceLinesByNumber = w.program.sourceLinesByNumber ∧
    w1.program.parsedByNumber = w.program.parsedByNumber := by
  unfold driverStep at h
  cases hp : w.program.getParsedStatement c with
  | none => simp [hp] at h
  | some stmt =>
    have hm := execute_maps L stmt w
    rw [hp] at h
    simp only at h
    cases he : execute L stmt w with
    | mk w2 o =>
      rw [he] at h hm
      cases o with
      | normal =>
        simp only at h
        split at h
        · simp at h
        · split at h
          · injection h with h1 h2
            subst h2
            simpa [Program.clearPendingJump] using hm
          · injection h with h1 h2
            subst h2
            exact hm
      | error m => simp at h
      | quit => simp at h
      | outOfFuel => simp at h

theorem reaches_maps (L : Lib) (c c1 : Int) (w w1 : World) (h : Reaches L c w c1 w1) :
    w1.program.sourceLinesByNumber = w.program.sourceLinesByNumber ∧
    w1.program.parsedByNumber = w.program.parsedByNumber := by
  induction h with
  | refl c w => exact ⟨rfl, rfl⟩
  | step hc hstep _ ih =>
    have hm := driverStep_next_maps L _ _ _ _ hstep
    exact ⟨ih.1.trans hm.1, ih.2.trans hm.2⟩

/-- A run that comes to line `c1` in world `w1` ends as the loop started there ends. -/
theorem runLoop_of_reaches (L : Lib) (c c1 : Int) (w w1 : World) (h : Reaches L c w c1 w1)
    (fuel : Nat) : ∃ fuel0, runLoop L fuel0 c w = runLoop L fuel c1 w1 := by
  induction h with
  | refl c w => exact ⟨fuel, rfl⟩
  | step hc hstep _ ih =>
    obtain ⟨f, hf⟩ := ih
    refine ⟨f + 1, ?_⟩
    rw [← hf]
    simp [runLoop, hc, hstep]

theorem runLoop_no_statement (L : Lib) (fuel : Nat) (n : Int) (w : World) (hn : n ≠ -1)
    (h : w.program.getParsedStatement n = none) :
    runLoop L (fuel + 1) n w = (w, Outcome.error "SYNTAX ERROR") := by
  simp [runLoop, hn, driverStep, h]

/-! ## Replacing the text of a line -/

theorem addSourceLine_source (p : Program) (n : Int) (t : String) :
    (p.addSourceLine n t).sourceLinesByNumber = IntMap.insert n t p.sourceLinesByNumber := by
  unfold Program.addSourceLine
  split
  · split <;> rfl
  · rfl

theorem addSourceLine_parsed_of_hasLine (p : Program) (n : Int) (t : String)
    (h : p.hasLine n = true) :
    (p.addSourceLine n t).getParsedStatement n = none := by
  unfold Program.hasLine at h
  unfold Program.addSourceLine Program.getParsedStatement
  rw [if_pos h]
  split
  · exact IntMap.find_erase_self _ _
  · rename_i h2
    simpa using h2

/-- C3: when line `n` (not the sentinel `-1`) is installed with a parsed
statement, `addSourceLine n t` makes `t` the text of `n` and leaves `n` without a
parsed statement; a run of that store which comes to line `n` ends there with
SYNTAX ERROR. -/
theorem C3_replaced_line_needs_reparse (L : Lib) (p : Program) (n : Int) (t : String)
    (s : Statement) (hline : p.hasLine n = true) (_hstmt : p.getParsedStatement n = some s)
    (hn : n ≠ -1) :
    (p.addSourceLine n t).getSourceLine n = t ∧
    (p.addSourceLine n t).getParsedStatement n = none ∧
    ∀ w0 w : World, w0.program = p.addSourceLine n t →
      Reaches L w0.program.getFirstLineNumber
        { w0 with program := (w0.program.clearPendingJump).clearStop } n w →
      ∃ fuel, run L fuel w0 = (w, Outcome.error "SYNTAX ERROR") := by
  have hnone := addSourceLine_parsed_of_hasLine p n t hline
  refine ⟨?_, hnone, ?_⟩
  · unfold Program.getSourceLine
    rw [addSourceLine_source, IntMap.find_insert_self]
  · intro w0 w hw0 hreach
    have hm := (reaches_maps L _ _ _ _ hreach).2
    have hw : w.program.getParsedStatement n = none := by
      unfold Program.getParsedStatement at hnone ⊢
      rw [hm]
      simpa [Program.clearStop, Program.clearPendingJump, hw0] using hnone
    obtain ⟨f, hf⟩ := runLoop_of_reaches L _ _ _ _ hreach 1
    refine ⟨f, ?_⟩
    unfold run
    rw [hf]
    exact runLoop_no_statement L 0 n w hn hw

/-- C3 at a concrete store: line 20 of the sample program gets a new text, and
the next run stops at line 20 after line 10 has bound `X`. -/
theorem C3_replaced_line_needs_reparse_witness :
    sampleProgram.hasLine 20 = true ∧
      sampleProgram.getParsedStatement 20 = some (Statement.print (Expression.identifier "X")) ∧
      (20 : Int) ≠ -1 ∧
      (sampleProgram.addSourceLine 20 "20 PRINT Y").getSourceLine 20 = "20 PRINT Y" ∧
      (sampleProgram.addSourceLine 20 "20 PRINT Y").getParsedStatement 20 = none ∧
      ∃ fuel, run specLib fuel (World.ofProgram (sampleProgram.addSourceLine 20 "20 PRINT Y")) =
        ({ World.ofProgram (sampleProgram.addSourceLine 20 "20 PRINT Y") with
            state := EvalState.empty.setValue "X" 1 },
          Outcome.error "SYNTAX ERROR") :=
  ⟨by decide, by decide, by decide,
    (C3_replaced_line_needs_reparse specLib sampleProgram 20 "20 PRINT Y"
      (Statement.print (Expression.identifier "X")) (by decide) (by decide) (by decide)).1,
    (C3_replaced_line_needs_reparse specLib sampleProgram 20 "20 PRINT Y"
      (Statement.print (Expression.identifier "X")) (by decide) (by decide) (by decide)).2.1,
    (C3_replaced_line_needs_reparse specLib sampleProgram 20 "20 PRINT Y"
      (Statement.print (Expression.identifier "X")) (by decide) (by decide) (by decide)).2.2
      (World.ofProgram (sampleProgram.addSourceLine 20 "20 PRINT Y"))
      { World.ofProgram (sampleProgram.addSourceLine 20 "20 PRINT Y") with
        state := EvalState.empty.setValue "X" 1 }
      rfl
      (Reaches.step (by decide) (by decide) (Reaches.refl _ _))⟩

/-! ## Jumps -/

/-- C4, as the code has it: `requestJump` itself checks nothing and sets the
pending jump to any `n`; the check is made by the jump statement: executing
`GOTO n` for a line `n` that is not stored signals LINE NUMBER ERROR and leaves
the world, the pending-jump state included, as it was. -/
theorem C4_jump_to_missing_line (L : Lib) (w : World) (n : Int)
    (h : w.program.hasLine n = false) :
    execute L (Statement.goto n) w = (w, Outcome.error "LINE NUMBER ERROR") ∧
    (w.program.requestJump n).hasPendingJump = true ∧
    (w.program.requestJump n).getPendingJump = n := by
  refine ⟨?_, rfl, rfl⟩
  simp [execute, jumpTo, h]

/-- C4 at a concrete store: `GOTO 15` on the sample store. -/
theorem C4_jump_to_missing_line_witness :
    (World.ofProgram sampleStore).program.hasLine 15 = false ∧
      execute specLib (Statement.goto 15) (World.ofProgram sampleStore) =
        (World.ofProgram sampleStore, Outcome.error "LINE NUMBER ERROR") :=
  ⟨by decide, (C4_jump_to_missing_line specLib (World.ofProgram sampleStore) 15 (by decide)).1⟩

/-- C4 as stated fails: on the sample store, where line 15 is not stored and no
jump is pending, `requestJump 15` sets the pending jump to 15; it has no way to
signal an error. -/
theorem C4_requestJump_counterexample :
    sampleStore.hasLine 15 = false ∧ sampleStore.hasPendingJump = false ∧
      (sampleStore.requestJump 15).hasPendingJump = true ∧
      (sampleStore.requestJump 15).getPendingJump = 15 := by
  decide

theorem ifCond_iff (op : String) (lv rv : Int) (hop : op = "<" ∨ op = ">" ∨ op = "=") :
    ifCond op lv rv = true ↔ relHolds op lv rv := by
  unfold ifCond relHolds
  rcases hop with h | h | h <;> subst h <;> simp

/-- C5: a conditional jump whose operand texts parse and evaluate to `lv` and
`rv`: when `lv op rv` holds and the target is stored, the pending jump is set to
the target; when it holds and the target is not stored, LINE NUMBER ERROR is
signalled and the store is unchanged; when it does not hold, the store is
unchanged and there is no error, whether the target exists or not. With line 10
stored, `1 < 2 THEN 10` sets the pending jump to 10 and `2 < 1 THEN 10` sets none. -/
theorem C5_conditional_jump (L : Lib) (w : World) (lhsStr rhsStr op : String) (t : Int)
    (l r : Expression) (st1 st2 : EvalState) (lv rv : Int)
    (hop : op = "<" ∨ op = ">" ∨ op = "=")
    (hl : L.readE (L.scanTokens lhsStr) = Except.ok l)
    (hr : L.readE (L.scanTokens rhsStr) = Except.ok r)
    (hlv : L.eval l w.state = (st1, Except.ok lv))
    (hrv : L.eval r st1 = (st2, Except.ok rv)) :
    (relHolds op lv rv → w.program.hasLine t = true →
        execute L (Statement.ifStmt lhsStr rhsStr op t) w =
          ({ w with state := st2, program := w.program.requestJump t }, Outcome.normal)) ∧
    (relHolds op lv rv → w.program.hasLine t = false →
        execute L (Statement.ifStmt lhsStr rhsStr op t) w =
          ({ w with state := st2 }, Outcome.error "LINE NUMBER ERROR")) ∧
    (¬ relHolds op lv rv →
        execute L (Statement.ifStmt lhsStr rhsStr op t) w =
          ({ w with state := st2 }, Outcome.normal)) ∧
    (mkIf specLib ["1", "<", "2", "THEN", "10"] = Except.ok (Statement.ifStmt "1" "2" "<" 10) ∧
      (execute specLib (Statement.ifStmt "1" "2" "<" 10)
          (World.ofProgram sampleStore)).1.program.hasPendingJump = true ∧
      (execute specLib (Statement.ifStmt "1" "2" "<" 10)
          (World.ofProgram sampleStore)).1.program.getPendingJump = 10 ∧
      execute specLib (Statement.ifStmt "2" "1" "<" 10) (World.ofProgram sampleStore) =
        (World.ofProgram sampleStore, Outcome.normal)) := by
  refine ⟨?_, ?_, ?_, by decide⟩
  · intro hc ht
    have hc' := (ifCond_iff op lv rv hop).mpr hc
    simp [execute, hl, hr, hlv, hrv, hc', jumpTo, ht]
  · intro hc ht
    have hc' := (ifCond_iff op lv rv hop).mpr hc
    simp [execute, hl, hr, hlv, hrv, hc', jumpTo, ht]
  · intro hc
    have hc' : ifCond op lv rv = false := by
      rw [← Bool.not_eq_true, ifCond_iff op lv rv hop]
      exact hc
    simp [execute, hl, hr, hlv, hrv, hc']

/-- C5 at a concrete statement: `IF X > 0 THEN 30` with `X` bound to 4 and line 30
stored. -/
theorem C5_conditional_jump_witness :
    execute specLib (Statement.ifStmt "X" "0" ">" 30)
        { World.ofProgram sampleStore with state := EvalState.empty.setValue "X" 4 } =
      ({ World.ofProgram sampleStore with
          state := EvalState.empty.setValue "X" 4
          program := sampleStore.requestJump 30 },
        Outcome.normal) :=
  (C5_conditional_jump specLib
    { World.ofProgram sampleStore with state := EvalState.empty.setValue "X" 4 }
    "X" "0" ">" 30 (Expression.identifier "X") (Expression.constant 0)
    (EvalState.empty.setValue "X" 4) (EvalState.empty.setValue "X" 4) 4 0
    (by decide) (by decide) (by decide) (by decide) (by decide)).1
    (by unfold relHolds; decide) (by decide)

/-! ## The input request -/

theorem getValue_setValue (st : EvalState) (v : String) (x : Int) :
    (st.setValue v x).getValue v = some x := by
  simp [EvalState.setValue, EvalState.getValue]

theorem inputLoop_accept (L : Lib) (v : String) (bad : List String) (good : String)
    (rest : List String) (val : Int) (st : EvalState) (out : List String)
    (hbad : ∀ l ∈ bad, tryParseInt (L.trim l) = none)
    (hgood : tryParseInt (L.trim good) = some val) :
    inputLoop L v (bad ++ good :: rest) st out =
      (st.setValue v val, rest, out ++ rejectionChunks bad.length ++ [" ? "]) := by
  induction bad generalizing out with
  | nil => simp [inputLoop, hgood, rejectionChunks]
  | cons b bs ih =>
    have hb : tryParseInt (L.trim b) = none := hbad b (List.mem_cons_self _ _)
    have hbs : ∀ l ∈ bs, tryParseInt (L.trim l) = none :=
      fun l hl => hbad l (List.mem_cons_of_mem _ hl)
    have h := ih (out ++ [" ? ", "INVALID NUMBER\n"]) hbs
    simpa [inputLoop, hb, rejectionChunks] using h

theorem inputLoop_end_of_input (L : Lib) (v : String) (bad : List String) (st : EvalState)
    (out : List String) (hbad : ∀ l ∈ bad, tryParseInt (L.trim l) = none) :
    inputLoop L v bad st out =
      (st.setValue v 0, [], out ++ rejectionChunks bad.length ++ [" ? "]) := by
  induction bad generalizing out with
  | nil => simp [inputLoop, rejectionChunks]
  | cons b bs ih =>
    have hb : tryParseInt (L.trim b) = none := hbad b (List.mem_cons_self _ _)
    have hbs : ∀ l ∈ bs, tryParseInt (L.trim l) = none :=
      fun l hl => hbad l (List.mem_cons_of_mem _ hl)
    have h := ih (out ++ [" ? ", "INVALID NUMBER\n"]) hbs
    simpa [inputLoop, hb, rejectionChunks] using h

theorem count_prompt_rejectionChunks (k : Nat) :
    (rejectionChunks k).count " ? " = k ∧ (rejectionChunks k).count "INVALID NUMBER\n" = k := by
  induction k with
  | zero => simp [rejectionChunks]
  | succ k ih =>
    have h1 : ("INVALID NUMBER\n" == " ? ") = false := by decide
    have h2 : (" ? " == "INVALID NUMBER\n") = false := by decide
    simp [rejectionChunks, List.count_cons, ih.1, ih.2, h1, h2]

/-- C6: executing an input request for `v`. When the lines on the input are
`bad ++ good :: rest` with every line of `bad` rejected and `good` accepted with
value `val`, it consumes `bad` and `good`, writes for each rejected line a prompt
and the INVALID NUMBER notice and then one more prompt (so one prompt for each
consumed line), binds `v` to `val` and returns without error. When every line
left is rejected, it consumes them all, binds `v` to 0 and returns without
error. On the input `abc`, `5` it prompts, rejects, prompts once more and binds
`v` to 5. -/
theorem C6_input_request (L : Lib) (v : String) (w : World) :
    (∀ (bad : List String) (good : String) (rest : List String) (val : Int),
        w.input = bad ++ good :: rest →
        (∀ l ∈ bad, tryParseInt (L.trim l) = none) →
        tryParseInt (L.trim good) = some val →
        execute L (Statement.input v) w =
            ({ w with
                state := w.state.setValue v val
                input := rest
                output := w.output ++ rejectionChunks bad.length ++ [" ? "] },
              Outcome.normal) ∧
          (w.state.setValue v val).getValue v = some val ∧
          (rejectionChunks bad.length ++ [" ? "]).count " ? " = (bad ++ [good]).length ∧
          (rejectionChunks bad.length ++ [" ? "]).count "INVALID NUMBER\n" = bad.length) ∧
    ((∀ l ∈ w.input, tryParseInt (L.trim l) = none) →
        execute L (Statement.input v) w =
            ({ w with
                state := w.state.setValue v 0
                input := []
                output := w.output ++ rejectionChunks w.input.length ++ [" ? "] },
              Outcome.normal) ∧
          (w.state.setValue v 0).getValue v = some 0) ∧
    execute specLib (Statement.input "V") (World.initial ["abc", "5"]) =
      ({ World.initial ["abc", "5"] with
          state := EvalState.empty.setValue "V" 5
          input := []
          output := [" ? ", "INVALID NUMBER\n", " ? "] },
        Outcome.normal) := by
  refine ⟨?_, ?_, by decide⟩
  · intro bad good rest val hin hbad hgood
    refine ⟨?_, getValue_setValue _ _ _, ?_, ?_⟩
    · simp only [execute]
      rw [hin, inputLoop_accept L v bad good rest val _ _ hbad hgood]
    · have h := (count_prompt_rejectionChunks bad.length).1
      simp [List.count_append, h]
    · have h := (count_prompt_rejectionChunks bad.length).2
      have h1 : (" ? " == "INVALID NUMBER\n") = false := by decide
      simp [List.count_append, h, List.count_cons, h1]
  · intro hbad
    refine ⟨?_, getValue_setValue _ _ _⟩
    simp only [execute]
    rw [inputLoop_end_of_input L v w.input _ _ hbad]

/-- C6 at a concrete input: two rejected lines, then `-12`, then a line that is
left on the input. -/
theorem C6_input_request_witness :
    execute specLib (Statement.input "V") (World.initial ["x1", "", " -12 ", "7"]) =
      ({ World.initial ["x1", "", " -12 ", "7"] with
          state := EvalState.empty.setValue "V" (-12)
          input := ["7"]
          output := [" ? ", "INVALID NUMBER\n", " ? ", "INVALID NUMBER\n", " ? "] },
        Outcome.normal) :=
  ((C6_input_request specLib "V" (World.initial ["x1", "", " -12 ", "7"])).1
    ["x1", ""] " -12 " ["7"] (-12) rfl (by decide) (by decide)).1

/-! ## Installing statements -/

theorem setParsedStatement_of_hasLine (p : Program) (n : Int) (s : Statement)
    (h : p.hasLine n = true) :
    p.setParsedStatement n s =
      ({ p with parsedByNumber := IntMap.insert n s p.parsedByNumber }, Outcome.normal) := by
  unfold Program.hasLine at h
  unfold Program.setParsedStatement
  cases hf : IntMap.find p.sourceLinesByNumber n with
  | none => simp [hf] at h
  | some x => rfl

theorem setParsedStatement_of_not_hasLine (p : Program) (n : Int) (s : Statement)
    (h : p.hasLine n = false) :
    p.setParsedStatement n s = (p, Outcome.error "SYNTAX ERROR") := by
  unfold Program.hasLine at h
  unfold Program.setParsedStatement
  cases hf : IntMap.find p.sourceLinesByNumber n with
  | none => rfl
  | some x => simp [hf] at h

/-- C8: `setParsedStatement n s` signals SYNTAX ERROR exactly when `n` has no
source text, and then the store is unchanged; when `n` has source text it
returns normally, `getParsedStatement n` is `s` afterwards, the statement of
every other line, the source lines and the jump and stop flags are unchanged. -/
theorem C8_setParsedStatement (p : Program) (n : Int) (s : Statement) :
    ((p.setParsedStatement n s).2 = Outcome.error "SYNTAX ERROR" ↔ p.hasLine n = false) ∧
    (p.hasLine n = false → (p.setParsedStatement n s).1 = p) ∧
    (p.hasLine n = true →
      (p.setParsedStatement n s).2 = Outcome.normal ∧
      (p.setParsedStatement n s).1.getParsedStatement n = some s ∧
      (∀ m, m ≠ n →
        (p.setParsedStatement n s).1.getParsedStatement m = p.getParsedStatement m) ∧
      (∀ m, (p.setParsedStatement n s).1.getSourceLine m = p.getSourceLine m) ∧
      (p.setParsedStatement n s).1.sourceLinesByNumber = p.sourceLinesByNumber ∧
      (p.setParsedStatement n s).1.jumpPending = p.jumpPending ∧
      (p.setParsedStatement n s).1.jumpTarget = p.jumpTarget ∧
      (p.setParsedStatement n s).1.stopRequested = p.stopRequested) := by
  refine ⟨?_, ?_, ?_⟩
  · constructor
    · intro h
      by_contra hc
      rw [Bool.not_eq_false] at hc
      rw [setParsedStatement_of_hasLine p n s hc] at h
      simp at h
    · intro h
      rw [setParsedStatement_of_not_hasLine p n s h]
  · intro h
    rw [setParsedStatement_of_not_hasLine p n s h]
  · intro h
    rw [setParsedStatement_of_hasLine p n s h]
    refine ⟨rfl, ?_, ?_, fun m => rfl, rfl, rfl, rfl, rfl⟩
    · exact IntMap.find_insert_self _ _ _
    · intro m hm
      exact IntMap.find_insert_of_ne _ _ _ _ hm

/-- C8 at a concrete store: on the sample store line 15 has no text and line 20
has; installing `END` for 15 is refused, for 20 it is installed. -/
theorem C8_setParsedStatement_witness :
    sampleStore.hasLine 15 = false ∧ sampleStore.hasLine 20 = true ∧
      (sampleStore.setParsedStatement 15 Statement.endStmt).1 = sampleStore ∧
      (sampleStore.setParsedStatement 20 Statement.endStmt).1.getParsedStatement 20 =
        some Statement.endStmt :=
  ⟨by decide, by decide,
    (C8_setParsedStatement sampleStore 15 Statement.endStmt).2.1 (by decide),
    ((C8_setParsedStatement sampleStore 20 Statement.endStmt).2.2 (by decide)).2.1⟩

/-! ## The store invariant -/

theorem parsed_has_source_step_erase (p : Program) (n : Int)
    (h : ∀ k, k ∈ IntMap.keys p.parsedByNumber → k ∈ IntMap.keys p.sourceLinesByNumber) :
    ∀ k, k ∈ IntMap.keys (p.removeSourceLine n).parsedByNumber →
      k ∈ IntMap.keys (p.removeSourceLine n).sourceLinesByNumber := by
  intro k hk
  unfold Program.removeSourceLine at hk ⊢
  split at hk
  · rename_i hf
    simp only [hf, if_true]
    simp only at hk
    rw [IntMap.mem_keys_erase] at hk ⊢
    exact ⟨h k hk.1, hk.2⟩
  · rename_i hf
    simp only [hf]
    simp only at hk
    rw [IntMap.mem_keys_erase]
    refine ⟨h k hk, ?_⟩
    intro hkn
    subst hkn
    exact hf ((IntMap.find_isSome_iff _ _).mpr hk)

theorem parsed_has_source_step_add (p : Program) (n : Int) (t : String)
    (h : ∀ k, k ∈ IntMap.keys p.parsedByNumber → k ∈ IntMap.keys p.sourceLinesByNumber) :
    ∀ k, k ∈ IntMap.keys (p.addSourceLine n t).parsedByNumber →
      k ∈ IntMap.keys (p.addSourceLine n t).sourceLinesByNumber := by
  intro k hk
  rw [addSourceLine_source, IntMap.mem_keys_insert]
  right
  apply h
  unfold Program.addSourceLine at hk
  split at hk
  · split at hk
    · simp only at hk
      rw [IntMap.mem_keys_erase] at hk
      exact hk.1
    · exact hk
  · exact hk

theorem parsed_has_source_step_set (p : Program) (n : Int) (s : Statement)
    (h : ∀ k, k ∈ IntMap.keys p.parsedByNumber → k ∈ IntMap.keys p.sourceLinesByNumber) :
    ∀ k, k ∈ IntMap.keys (p.setParsedStatement n s).1.parsedByNumber →
      k ∈ IntMap.keys (p.setParsedStatement n s).1.sourceLinesByNumber := by
  intro k hk
  cases hl : p.hasLine n with
  | false =>
    rw [setParsedStatement_of_not_hasLine p n s hl] at hk ⊢
    exact h k hk
  | true =>
    rw [setParsedStatement_of_hasLine p n s hl] at hk ⊢
    simp only at hk ⊢
    rw [IntMap.mem_keys_insert] at hk
    rcases hk with hk | hk
    · subst hk
      exact (hasLine_iff p k).mp hl
    · exact h k hk

theorem reachable_parsed_has_source (p : Program) (h : Reachable p) :
    ∀ k, k ∈ IntMap.keys p.parsedByNumber → k ∈ IntMap.keys p.sourceLinesByNumber := by
  induction h with
  | empty => intro k hk; simp [Program.empty, IntMap.keys] at hk
  | addSourceLine n t _ ih => exact parsed_has_source_step_add _ n t ih
  | removeSourceLine n _ ih => exact parsed_has_source_step_erase _ n ih
  | setParsedStatement n s _ ih => exact parsed_has_source_step_set _ n s ih
  | clear _ _ =>
    intro k hk
    simp [Program.clear, Program.clearStop, Program.clearPendingJump, IntMap.keys] at hk
  | requestJump n _ ih => exact ih
  | clearPendingJump _ ih => exact ih
  | requestStop _ ih => exact ih
  | clearStop _ ih => exact ih

/-- C9: in every store built from the empty one by `addSourceLine`,
`removeSourceLine`, `setParsedStatement` (succeeding or failing), `clear` and
the operations on the jump and stop flags, a line number with a parsed statement
has source text. -/
theorem C9_parsed_statement_has_source (p : Program) (h : Reachable p) (n : Int)
    (hs : (p.getParsedStatement n).isSome = true) : p.hasLine n = true := by
  rw [hasLine_iff]
  exact reachable_parsed_has_source p h n ((IntMap.find_isSome_iff _ _).mp hs)

/-- C9 at a concrete store: the sample program, line 20. -/
theorem C9_parsed_statement_has_source_witness :
    (sampleProgram.getParsedStatement 20).isSome = true ∧ sampleProgram.hasLine 20 = true :=
  ⟨by decide,
    C9_parsed_statement_has_source sampleProgram
      (Reachable.setParsedStatement 30 _
        (Reachable.setParsedStatement 20 _
          (Reachable.setParsedStatement 10 _
            (Reachable.addSourceLine 30 _
              (Reachable.addSourceLine 10 _
                (Reachable.addSourceLine 20 _ Reachable.empty))))))
      20 (by decide)⟩

/-! ## Entering a numbered line -/

/-- C10: `processLine` on a numbered line with a keyword. When the keyword is
unknown or the construction of the statement fails, the error is signalled and
the world, the program store included, is exactly as before. When the
construction succeeds, the store afterwards holds the whole input line as the
text of that number and the statement just built, and nothing else of the world
has changed. -/
theorem C10_line_install_all_or_nothing (L : Lib) (fuel : Nat) (line : String) (w : World)
    (first keyword : String) (scanner1 : List String) (lineNumber : Int)
    (htok : L.scanTokens line = first :: keyword :: scanner1) (hfirst : first ≠ "")
    (hnum : L.getTokenType first = TokenType.number)
    (hint : L.stringToInteger first = Except.ok lineNumber) :
    (L.toUpperCase keyword ∉ ["REM", "LET", "PRINT", "INPUT", "END", "GOTO", "IF"] →
        processLine L fuel line w = (w, Outcome.error "SYNTAX ERROR")) ∧
    (∀ m, buildStatement L (L.toUpperCase keyword) scanner1 = Except.error m →
        processLine L fuel line w = (w, Outcome.error m)) ∧
    (∀ stmt, buildStatement L (L.toUpperCase keyword) scanner1 = Except.ok stmt →
        processLine L fuel line w =
            ({ w with
                program :=
                  { w.program.addSourceLine lineNumber line with
                    parsedByNumber :=
                      IntMap.insert lineNumber stmt
                        (w.program.addSourceLine lineNumber line).parsedByNumber } },
              Outcome.normal) ∧
          (processLine L fuel line w).1.program.getSourceLine lineNumber = line ∧
          (processLine L fuel line w).1.program.getParsedStatement lineNumber = some stmt) := by
  have hbuild : ∀ m, buildStatement L (L.toUpperCase keyword) scanner1 = Except.error m →
      processLine L fuel line w = (w, Outcome.error m) := by
    intro m hm
    simp [processLine, htok, hfirst, hnum, hint, hm]
  refine ⟨?_, hbuild, ?_⟩
  · intro hk
    apply hbuild
    simp only [List.mem_cons, List.mem_singleton, List.not_mem_nil, or_false, not_or] at hk
    obtain ⟨h1, h2, h3, h4, h5, h6, h7⟩ := hk
    simp [buildStatement, h1, h2, h3, h4, h5, h6, h7]
  · intro stmt hstmt
    have hhas : (w.program.addSourceLine lineNumber line).hasLine lineNumber = true := by
      rw [hasLine_iff]
      unfold Program.lineNumbers
      rw [addSourceLine_source, IntMap.mem_keys_insert]
      exact Or.inl rfl
    have hset := setParsedStatement_of_hasLine _ lineNumber stmt hhas
    have hrun : processLine L fuel line w =
        ({ w with
            program :=
              { w.program.addSourceLine lineNumber line with
                parsedByNumber :=
                  IntMap.insert lineNumber stmt
                    (w.program.addSourceLine lineNumber line).parsedByNumber } },
          Outcome.normal) := by
      simp [processLine, htok, hfirst, hnum, hint, hstmt, hset]
    refine ⟨hrun, ?_, ?_⟩
    · rw [hrun]
      simp only [Program.getSourceLine]
      rw [addSourceLine_source, IntMap.find_insert_self]
    · rw [hrun]
      exact IntMap.find_insert_self _ _ _

/-- C10 at concrete lines: on the sample program, `20 PRINT` (no expression) and
`20 FOO` are refused and leave everything as it was, `20 PRINT X + 1` replaces
text and statement of line 20. -/
theorem C10_line_install_all_or_nothing_witness :
    processLine specLib 0 "20 PRINT" (World.ofProgram sampleProgram) =
        (World.ofProgram sampleProgram, Outcome.error "SYNTAX ERROR") ∧
      processLine specLib 0 "20 FOO" (World.ofProgram sampleProgram) =
        (World.ofProgram sampleProgram, Outcome.error "SYNTAX ERROR") ∧
      (processLine specLib 0 "20 PRINT X + 1"
          (World.ofProgram sampleProgram)).1.program.getSourceLine 20 = "20 PRINT X + 1" ∧
      (processLine specLib 0 "20 PRINT X + 1"
          (World.ofProgram sampleProgram)).1.program.getParsedStatement 20 =
        some (Statement.print
          (Expression.compound "+" (Expression.identifier "X") (Expression.constant 1))) :=
  ⟨(C10_line_install_all_or_nothing specLib 0 "20 PRINT" (World.ofProgram sampleProgram)
      "20" "PRINT" [] 20 (by decide) (by decide) (by decide) (by decide)).2.1
      "SYNTAX ERROR" (by decide),
    (C10_line_install_all_or_nothing specLib 0 "20 FOO" (World.ofProgram sampleProgram)
      "20" "FOO" [] 20 (by decide) (by decide) (by decide) (by decide)).1 (by decide),
    ((C10_line_install_all_or_nothing specLib 0 "20 PRINT X + 1" (World.ofProgram sampleProgram)
      "20" "PRINT" ["X", "+", "1"] 20 (by decide) (by decide) (by decide) (by decide)).2.2
      (Statement.print
        (Expression.compound "+" (Expression.identifier "X") (Expression.constant 1)))
      (by decide)).2.1,
    ((C10_line_install_all_or_nothing specLib 0 "20 PRINT X + 1" (World.ofProgram sampleProgram)
      "20" "PRINT" ["X", "+", "1"] 20 (by decide) (by decide) (by decide) (by decide)).2.2
      (Statement.print
        (Expression.compound "+" (Expression.identifier "X") (Expression.constant 1)))
      (by decide)).2.2⟩

/-! ## The run of a jump-free program -/

theorem getNextLineNumber_eq_find (p : Program) (k : Int) :
    p.getNextLineNumber k = ((p.lineNumbers.find? (fun j => decide (k < j))).getD (-1)) := by
  unfold Program.getNextLineNumber Program.lineNumbers IntMap.upperBound IntMap.keys
  induction p.sourceLinesByNumber with
  | nil => rfl
  | cons e rest ih =>
    by_cases h : k < e.1
    · simp [List.find?_cons, h]
    · simpa [List.find?_cons, h] using ih

theorem getFirstLineNumber_eq_head (p : Program) :
    p.getFirstLineNumber = p.lineNumbers.headD (-1) := by
  unfold Program.getFirstLineNumber Program.lineNumbers IntMap.keys
  cases p.sourceLinesByNumber <;> rfl

theorem find_successor_of_sorted (pre : List Int) (k : Int) (ks : List Int)
    (h : (pre ++ k :: ks).Pairwise (· < ·)) :
    ((pre ++ k :: ks).find? (fun j => decide (k < j))).getD (-1) = ks.headD (-1) := by
  induction pre with
  | nil =>
    simp only [List.nil_append, List.pairwise_cons] at h
    cases ks with
    | nil => simp [List.find?_cons]
    | cons j js =>
      have hj : k < j := h.1 j (List.mem_cons_self _ _)
      simp [List.find?_cons, hj]
  | cons a pre ih =>
    simp only [List.cons_append, List.pairwise_cons] at h
    have ha : ¬ k < a := not_lt.mpr (le_of_lt (h.1 k (by simp)))
    simpa [List.find?_cons, ha] using ih h.2

theorem execute_program_of_plain (L : Lib) (s : Statement) (w : World)
    (hj : s.isJump = false) (he : s ≠ Statement.endStmt) :
    (execute L s w).1.program = w.program := by
  cases s with
  | rem c => rfl
  | letStmt e =>
    simp only [execute]
    split <;> rfl
  | print e =>
    simp only [execute]
    split <;> rfl
  | input v => rfl
  | endStmt => exact absurd rfl he
  | goto t => simp [Statement.isJump] at hj
  | ifStmt l r op t => simp [Statement.isJump] at hj

theorem execute_end (L : Lib) (w : World) :
    execute L Statement.endStmt w =
      ({ w with program := w.program.requestStop }, Outcome.normal) := rfl

/-- The loop, standing at the head of a suffix `ks` of the stored line numbers
with no stop and no jump pending, does what `execInOrder` does on the statements
of `ks`. -/
theorem runLoop_eq_execInOrder (L : Lib) (p : Program)
    (hs : IntMap.Sorted p.sourceLinesByNumber) (hstop : p.stopRequested = false)
    (hjump : p.jumpPending = false)
    (hne : ∀ k ∈ p.lineNumbers, k ≠ -1)
    (hall : ∀ k ∈ p.lineNumbers, ∃ s, p.getParsedStatement k = some s ∧ s.isJump = false)
    (ks : List Int) :
    ∀ (pre : List Int) (w : World) (fuel : Nat), p.lineNumbers = pre ++ ks → w.program = p →
      ks.length ≤ fuel →
      runLoop L fuel (ks.headD (-1)) w = execInOrder L (ks.filterMap p.getParsedStatement) w := by
  induction ks with
  | nil =>
    intro pre w fuel _ _ _
    cases fuel <;> simp [runLoop, execInOrder]
  | cons k ks ih =>
    intro pre w fuel hpre hw hfuel
    obtain ⟨f, rfl⟩ : ∃ f, fuel = f + 1 := ⟨fuel - 1, by simp at hfuel; omega⟩
    have hk : k ∈ p.lineNumbers := by rw [hpre]; simp
    have hk1 : k ≠ -1 := hne k hk
    obtain ⟨s, hps, hsj⟩ := hall k hk
    have hnext : p.getNextLineNumber k = ks.headD (-1) := by
      rw [getNextLineNumber_eq_find, hpre]
      apply find_successor_of_sorted
      rw [← hpre]
      exact hs
    have hfm : (k :: ks).filterMap p.getParsedStatement =
        s :: ks.filterMap p.getParsedStatement := by
      simp [List.filterMap_cons, hps]
    rw [hfm]
    simp only [List.headD_cons, runLoop, hk1, if_false, driverStep, hw, hps, execInOrder]
    by_cases hend : s = Statement.endStmt
    · subst hend
      rw [execute_end]
      simp [Program.requestStop, Program.shouldStop, hw]
    · have hprog := execute_program_of_plain L s w hsj hend
      cases hex : execute L s w with
      | mk w1 o =>
        rw [hex] at hprog
        simp only at hprog
        have hw1 : w1.program = p := hprog.trans hw
        cases o with
        | normal =>
          simp only [hend, if_false, hw1, Program.shouldStop, hstop, Program.hasPendingJump,
            hjump, Bool.false_eq_true]
          rw [hnext]
          exact ih (pre ++ [k]) w1 f (by simp [hpre]) hw1 (by simp at hfuel; omega)
        | error m => rfl
        | quit => rfl
        | outOfFuel => rfl

theorem execInOrder_outcome (L : Lib) (stmts : List Statement) (w : World) :
    (execInOrder L stmts w).2 = Outcome.normal ∨
      ∃ m, (execInOrder L stmts w).2 = Outcome.error m := by
  induction stmts generalizing w with
  | nil => exact Or.inl rfl
  | cons s rest ih =>
    have ho := execute_outcome L s w
    simp only [execInOrder]
    cases hex : execute L s w with
    | mk w1 o =>
      rw [hex] at ho
      cases o with
      | normal =>
        simp only
        split
        · exact Or.inl rfl
        · exact ih w1
      | error m => exact Or.inr ⟨m, rfl⟩
      | quit => simp at ho
      | outOfFuel => simp at ho

theorem execInOrder_normal (L : Lib) (stmts : List Statement) (w : World)
    (h : ∀ s ∈ stmts, ∀ w1, (execute L s w1).2 = Outcome.normal) :
    (execInOrder L stmts w).2 = Outcome.normal := by
  induction stmts generalizing w with
  | nil => rfl
  | cons s rest ih =>
    have ho := h s (List.mem_cons_self _ _) w
    simp only [execInOrder]
    cases hex : execute L s w with
    | mk w1 o =>
      rw [hex] at ho
      simp only at ho
      subst ho
      simp only
      split
      · rfl
      · exact ih w1 (fun s1 hs1 => h s1 (List.mem_cons_of_mem _ hs1))

theorem filterMap_map_some {α β : Type} (f : α → Option β) (l : List α)
    (h : ∀ k ∈ l, ∃ s, f k = some s) : (l.filterMap f).map some = l.map f := by
  induction l with
  | nil => rfl
  | cons k ks ih =>
    obtain ⟨s, hps⟩ := h k (List.mem_cons_self _ _)
    have ih1 := ih (fun j hj => h j (List.mem_cons_of_mem _ hj))
    simp [List.filterMap_cons, hps, ih1]

theorem statementsInOrder_complete (p : Program)
    (hall : ∀ k ∈ p.lineNumbers, ∃ s, p.getParsedStatement k = some s ∧ s.isJump = false) :
    p.statementsInOrder.map some = p.lineNumbers.map p.getParsedStatement :=
  filterMap_map_some p.getParsedStatement p.lineNumbers
    (fun k hk => (hall k hk).imp (fun _ h => h.1))

/-- C7: a stored program whose source map is in key order, whose line numbers
differ from the sentinel `-1`, and in which every line has a parsed statement
that is no jump. Its statements, one per line in ascending line order, are
`statementsInOrder`; a run with at least as many rounds as there are lines does
exactly what executing these in order up to and including the first `END` does
(`execInOrder`), so it terminates, and it ends without error when no statement
raises one. The program `10 LET X = 1`, `20 PRINT X`, `30 END` writes the line
`1`, leaves `X` bound to 1 and ends without error. -/
theorem C7_jump_free_run (L : Lib) (w : World)
    (hs : IntMap.Sorted w.program.sourceLinesByNumber)
    (hne : ∀ k ∈ w.program.lineNumbers, k ≠ -1)
    (hall : ∀ k ∈ w.program.lineNumbers,
      ∃ s, w.program.getParsedStatement k = some s ∧ s.isJump = false) :
    w.program.statementsInOrder.map some =
        w.program.lineNumbers.map w.program.getParsedStatement ∧
    (∀ fuel, w.program.lineNumbers.length ≤ fuel →
      run L fuel w =
          execInOrder L w.program.statementsInOrder
            { w with program := (w.program.clearPendingJump).clearStop } ∧
        (run L fuel w).2 ≠ Outcome.outOfFuel ∧
        ((∀ s ∈ w.program.statementsInOrder, ∀ w1, (execute L s w1).2 = Outcome.normal) →
          (run L fuel w).2 = Outcome.normal)) ∧
    run specLib 3 (World.ofProgram sampleProgram) =
      ({ World.ofProgram sampleProgram with
          state := EvalState.empty.setValue "X" 1
          program := sampleProgram.requestStop
          output := ["1\n"] },
        Outcome.normal) := by
  refine ⟨statementsInOrder_complete w.program hall, ?_, by decide⟩
  intro fuel hfuel
  have hrun : run L fuel w =
      execInOrder L w.program.statementsInOrder
        { w with program := (w.program.clearPendingJump).clearStop } := by
    unfold run
    simp only []
    rw [getFirstLineNumber_eq_head]
    exact runLoop_eq_execInOrder L ((w.program.clearPendingJump).clearStop) hs rfl rfl hne hall
      w.program.lineNumbers [] _ fuel rfl rfl hfuel
  refine ⟨hrun, ?_, ?_⟩
  · rw [hrun]
    rcases execInOrder_outcome L w.program.statementsInOrder
      { w with program := (w.program.clearPendingJump).clearStop } with h | ⟨m, h⟩ <;>
      rw [h] <;> simp
  · intro hok
    rw [hrun]
    exact execInOrder_normal L _ _ hok

/-- C7 at a concrete program: `10 LET X = 1`, `20 PRINT X`, `30 END`, entered
line by line and run. -/
theorem C7_jump_free_run_witness :
    (processLine specLib 0 "30 END"
        (processLine specLib 0 "10 LET X = 1"
          (processLine specLib 0 "20 PRINT X" (World.initial [])).1).1).1 =
      World.ofProgram sampleProgram ∧
    sampleProgram.statementsInOrder =
      [Statement.letStmt
          (Expression.compound "=" (Expression.identifier "X") (Expression.constant 1)),
        Statement.print (Expression.identifier "X"), Statement.endStmt] ∧
    run specLib 3 (World.ofProgram sampleProgram) =
      execInOrder specLib sampleProgram.statementsInOrder
        { World.ofProgram sampleProgram with
          program := (sampleProgram.clearPendingJump).clearStop } :=
  ⟨by decide, by decide,
    ((C7_jump_free_run specLib (World.ofProgram sampleProgram) (by decide) (by decide)
      (by decide)).2.1 3 (by decide)).1⟩

/-! ## The transient signals -/

theorem driverStep_next_flags (L : Lib) (c c1 : Int) (w w1 : World)
    (h : driverStep L c w = StepResult.next c1 w1) :
    w1.program.hasPendingJump = false ∧ w1.program.shouldStop = false := by
  unfold driverStep at h
  cases hp : w.program.getParsedStatement c with
  | none => simp [hp] at h
  | some stmt =>
    rw [hp] at h
    simp only at h
    cases he : execute L stmt w with
    | mk w2 o =>
      rw [he] at h
      cases o with
      | normal =>
        simp only at h
        by_cases hstop : w2.program.shouldStop = true
        · simp [hstop] at h
        · by_cases hjump : w2.program.hasPendingJump = true
          · simp only [hstop, hjump, if_true, Bool.false_eq_true, if_false] at h
            injection h with h1 h2
            subst h2
            refine ⟨rfl, ?_⟩
            simpa [Program.clearPendingJump, Program.shouldStop] using hstop
          · simp only [hstop, hjump, Bool.false_eq_true, if_false] at h
            injection h with h1 h2
            subst h2
            exact ⟨by simpa using hjump, by simpa using hstop⟩
      | error m => simp at h
      | quit => simp at h
      | outOfFuel => simp at h

theorem driverStep_stop_normal (L : Lib) (c : Int) (w w1 : World)
    (h : driverStep L c w = StepResult.stop w1 Outcome.normal) :
    w1.program.shouldStop = true := by
  unfold driverStep at h
  cases hp : w.program.getParsedStatement c with
  | none => simp [hp] at h
  | some stmt =>
    rw [hp] at h
    simp only at h
    cases he : execute L stmt w with
    | mk w2 o =>
      rw [he] at h
      cases o with
      | normal =>
        simp only at h
        by_cases hstop : w2.program.shouldStop = true
        · simp only [hstop, if_true] at h
          injection h with h1 h2
          subst h1
          exact hstop
        · by_cases hjump : w2.program.hasPendingJump = true
          · simp [hstop, hjump] at h
          · simp [hstop, hjump] at h
      | error m => simp at h
      | quit => simp at h
      | outOfFuel => simp at h

theorem runLoop_stop (L : Lib) (fuel : Nat) (c : Int) (w w1 : World) (o : Outcome)
    (hc : c ≠ -1) (h : driverStep L c w = StepResult.stop w1 o) :
    runLoop L (fuel + 1) c w = (w1, o) := by
  simp [runLoop, hc, h]

/-- C11, as the code has it: a run starts its loop with no jump pending and the
stop flag unset; whenever the driver goes on to a next line, no jump is pending
(a consumed jump has been cleared) and the stop flag is unset; but when the
driver ends a run because a stop signal was raised, the run returns with the
stop flag still set: it is reset only at the start of the next run. -/
theorem C11_transient_signals (L : Lib) (w : World) :
    (∀ fuel, run L fuel w =
        runLoop L fuel w.program.getFirstLineNumber
          { w with program := (w.program.clearPendingJump).clearStop }) ∧
    ((w.program.clearPendingJump).clearStop).hasPendingJump = false ∧
    ((w.program.clearPendingJump).clearStop).shouldStop = false ∧
    (∀ c c1 w1 w2, driverStep L c w1 = StepResult.next c1 w2 →
        w2.program.hasPendingJump = false ∧ w2.program.shouldStop = false) ∧
    (∀ c w1 w2,
        Reaches L w.program.getFirstLineNumber
          { w with program := (w.program.clearPendingJump).clearStop } c w1 →
        c ≠ -1 → driverStep L c w1 = StepResult.stop w2 Outcome.normal →
        (∃ fuel, run L fuel w = (w2, Outcome.normal)) ∧ w2.program.shouldStop = true) := by
  refine ⟨fun fuel => rfl, rfl, rfl, ?_, ?_⟩
  · intro c c1 w1 w2 h
    exact driverStep_next_flags L c c1 w1 w2 h
  · intro c w1 w2 hreach hc hstep
    refine ⟨?_, driverStep_stop_normal L c w1 w2 hstep⟩
    obtain ⟨f, hf⟩ := runLoop_of_reaches L _ _ _ _ hreach 1
    refine ⟨f, ?_⟩
    unfold run
    rw [hf]
    exact runLoop_stop L 0 c w1 w2 _ hc hstep

/-- C11 at a concrete run: the sample program comes to line 30 with `X` bound
and `1` written, `END` stops it there, and the run returns with the stop flag set. -/
theorem C11_transient_signals_witness :
    (∃ fuel, run specLib fuel (World.ofProgram sampleProgram) =
        ({ World.ofProgram sampleProgram with
            state := EvalState.empty.setValue "X" 1
            program := sampleProgram.requestStop
            output := ["1\n"] },
          Outcome.normal)) ∧
      (sampleProgram.requestStop).shouldStop = true :=
  (C11_transient_signals specLib (World.ofProgram sampleProgram)).2.2.2.2 30
    { World.ofProgram sampleProgram with
      state := EvalState.empty.setValue "X" 1
      output := ["1\n"] }
    { World.ofProgram sampleProgram with
      state := EvalState.empty.setValue "X" 1
      program := sampleProgram.requestStop
      output := ["1\n"] }
    (@Reaches.step specLib 10 20 30 _
      { World.ofProgram sampleProgram with state := EvalState.empty.setValue "X" 1 } _
      (by decide) (by decide)
      (@Reaches.step specLib 20 30 30 _ _ _ (by decide) (by decide) (Reaches.refl _ _)))
    (by decide) (by decide)

/-- C11 as stated fails: the run of `10 LET X = 1`, `20 PRINT X`, `30 END` ends
because `END` raised the stop signal, without error, and `shouldStop` is true
once it has ended. -/
theorem C11_stop_flag_counterexample :
    (run specLib 3 (World.ofProgram sampleProgram)).2 = Outcome.normal ∧
      (World.ofProgram sampleProgram).program.shouldStop = false ∧
      (run specLib 3 (World.ofProgram sampleProgram)).1.program.shouldStop = true := by
  decide

/-! ## The unconditional jump -/

/-- C12: executing `GOTO t` signals LINE NUMBER ERROR exactly when `t` is not a
stored line. When it does, the world (the pending-jump state included) is
unchanged; when it does not, it returns normally, the pending jump is set to
exactly `t`, and the stored lines, the installed statements, the stop flag, the
evaluation state, the input and the output are unchanged. -/
theorem C12_unconditional_jump (L : Lib) (w : World) (t : Int) :
    ((execute L (Statement.goto t) w).2 = Outcome.error "LINE NUMBER ERROR" ↔
        w.program.hasLine t = false) ∧
    (w.program.hasLine t = false → (execute L (Statement.goto t) w).1 = w) ∧
    (w.program.hasLine t = true →
      (execute L (Statement.goto t) w).2 = Outcome.normal ∧
      (execute L (Statement.goto t) w).1.program.hasPendingJump = true ∧
      (execute L (Statement.goto t) w).1.program.getPendingJump = t ∧
      (execute L (Statement.goto t) w).1.program.sourceLinesByNumber =
        w.program.sourceLinesByNumber ∧
      (execute L (Statement.goto t) w).1.program.parsedByNumber = w.program.parsedByNumber ∧
      (execute L (Statement.goto t) w).1.program.stopRequested = w.program.stopRequested ∧
      (execute L (Statement.goto t) w).1.state = w.state ∧
      (execute L (Statement.goto t) w).1.input = w.input ∧
      (execute L (Statement.goto t) w).1.output = w.output) := by
  cases h : w.program.hasLine t with
  | false => simp [execute, jumpTo, h]
  | true =>
    simp [execute, jumpTo, h, Program.requestJump, Program.hasPendingJump,
      Program.getPendingJump]

/-- C12 at concrete targets: on the sample store `GOTO 30` sets the pending jump
to 30 and `GOTO 31` is refused. -/
theorem C12_unconditional_jump_witness :
    (execute specLib (Statement.goto 30) (World.ofProgram sampleStore)).1.program.getPendingJump
        = 30 ∧
      (execute specLib (Statement.goto 31) (World.ofProgram sampleStore)).1 =
        World.ofProgram sampleStore :=
  ⟨((C12_unconditional_jump specLib (World.ofProgram sampleStore) 30).2.2 (by decide)).2.2.1,
    (C12_unconditional_jump specLib (World.ofProgram sampleStore) 31).2.1 (by decide)⟩

/-! ## Construction of the input request -/

/-- C13, as the code has it: construction of an input request succeeds exactly
when the remaining token stream is one single token whose kind is word or number
and which is no reserved keyword (compared after `toUpperCase`); the statement
built holds that token as the variable name. Every failure is a SYNTAX ERROR:
an empty stream, a token of another kind, a reserved keyword, or a token
following the first. -/
theorem C13_input_construction (L : Lib) (scanner : List String) :
    (∀ s, mkInput L scanner = Except.ok s ↔
      ∃ tok, scanner = [tok] ∧ tok ≠ "" ∧
        (L.getTokenType tok = TokenType.word ∨ L.getTokenType tok = TokenType.number) ∧
        isKeyword L tok = false ∧ s = Statement.input tok) ∧
    (∀ m, mkInput L scanner = Except.error m → m = "SYNTAX ERROR") ∧
    (scanner = [] → mkInput L scanner = Except.error "SYNTAX ERROR") ∧
    (∀ tok rest, scanner = tok :: rest → isKeyword L tok = true →
      mkInput L scanner = Except.error "SYNTAX ERROR") ∧
    (∀ tok rest, scanner = tok :: rest → L.getTokenType tok ≠ TokenType.word →
      L.getTokenType tok ≠ TokenType.number →
      mkInput L scanner = Except.error "SYNTAX ERROR") ∧
    (∀ tok next rest, scanner = tok :: next :: rest →
      mkInput L scanner = Except.error "SYNTAX ERROR") := by
  refine ⟨?_, ?_, ?_, ?_, ?_, ?_⟩
  · intro s
    cases scanner with
    | nil => simp [mkInput]
    | cons tok rest =>
      simp only [mkInput, List.headD_cons, List.tail_cons]
      by_cases h1 : tok = ""
      · simp [h1]
      · by_cases h2 : L.getTokenType tok ≠ TokenType.word ∧ L.getTokenType tok ≠ TokenType.number
        · have h2' : ¬ (L.getTokenType tok = TokenType.word ∨
              L.getTokenType tok = TokenType.number) := by
            rintro (h | h)
            · exact h2.1 h
            · exact h2.2 h
          simp [h1, h2, h2']
        · have h2' : L.getTokenType tok = TokenType.word ∨
              L.getTokenType tok = TokenType.number := by
            by_contra hc
            exact h2 ⟨fun h => hc (Or.inl h), fun h => hc (Or.inr h)⟩
          by_cases h3 : isKeyword L tok = true
          · simp [h1, h2, h3]
          · have h3' : isKeyword L tok = false := by simpa using h3
            cases rest with
            | nil =>
              simp only [h1, h2, h3', if_false, List.isEmpty_nil, Bool.not_true,
                Bool.false_eq_true, Except.ok.injEq]
              constructor
              · intro hs
                exact ⟨tok, rfl, h1, h2', h3', hs.symm⟩
              · rintro ⟨tok1, ht, _, _, _, hs⟩
                have : tok = tok1 := by simpa using ht
                rw [hs, this]
            | cons next rest1 => simp [h1, h2, h3']
  · intro m hm
    unfold mkInput at hm
    simp only at hm
    split at hm
    · injection hm with hm; exact hm.symm
    · split at hm
      · injection hm with hm; exact hm.symm
      · split at hm
        · injection hm with hm; exact hm.symm
        · split at hm
          · injection hm with hm; exact hm.symm
          · cases hm
  · intro h
    subst h
    simp [mkInput]
  · intro tok rest h hk
    subst h
    simp only [mkInput, List.headD_cons, List.tail_cons, hk, if_true]
    split
    · rfl
    · split <;> rfl
  · intro tok rest h hw hn
    subst h
    simp only [mkInput, List.headD_cons, List.tail_cons]
    split
    · rfl
    · simp [hw, hn]
  · intro tok next rest h
    subst h
    simp only [mkInput, List.headD_cons, List.tail_cons]
    split
    · rfl
    · split
      · rfl
      · split
        · rfl
        · simp

/-- C13 at concrete streams: `INPUT X` is built, `INPUT PRINT`, `INPUT X Y` and
`INPUT +` are refused. -/
theorem C13_input_construction_witness :
    mkInput specLib ["X"] = Except.ok (Statement.input "X") ∧
      mkInput specLib ["print"] = Except.error "SYNTAX ERROR" ∧
      mkInput specLib ["X", "Y"] = Except.error "SYNTAX ERROR" ∧
      mkInput specLib ["+"] = Except.error "SYNTAX ERROR" :=
  ⟨((C13_input_construction specLib ["X"]).1 (Statement.input "X")).mpr
      ⟨"X", rfl, by decide, by decide, by decide, rfl⟩,
    (C13_input_construction specLib ["print"]).2.2.2.1 "print" [] rfl (by decide),
    (C13_input_construction specLib ["X", "Y"]).2.2.2.2.2 "X" "Y" [] rfl,
    (C13_input_construction specLib ["+"]).2.2.2.2.1 "+" [] rfl (by decide) (by decide)⟩

/-- C13 as stated fails: the single token `5` is a numeric literal, not an
identifier, and the construction succeeds; the line `10 INPUT 5` is installed. -/
theorem C13_numeric_token_counterexample :
    specLib.getTokenType "5" = TokenType.number ∧
      mkInput specLib ["5"] = Except.ok (Statement.input "5") ∧
      (processLine specLib 0 "10 INPUT 5" (World.initial [])).2 = Outcome.normal ∧
      (processLine specLib 0 "10 INPUT 5" (World.initial [])).1.program.getParsedStatement 10 =
        some (Statement.input "5") := by
  decide

/-! ## Reading an integer -/

theorem wrap64_eq (x : Int) (h1 : -9223372036854775808 ≤ x) (h2 : x < 9223372036854775808) :
    wrap64 x = x := by
  unfold wrap64
  omega

/-- The step of the digit loop, as a function. -/
theorem digit_bounds (c : Char) (h : isDecimalDigit c = true) :
    0 ≤ ((c.toNat : Int) - 48) ∧ ((c.toNat : Int) - 48) ≤ 9 := by
  simp only [isDecimalDigit, decide_eq_true_eq] at h
  omega

theorem foldl_digits_ge (cs : List Char) (acc : Int) (h0 : 0 ≤ acc)
    (hall : cs.all isDecimalDigit = true) :
    acc ≤ cs.foldl (fun a c => a * 10 + ((c.toNat : Int) - 48)) acc := by
  induction cs generalizing acc with
  | nil => simp
  | cons c cs ih =>
    simp only [List.all_cons, Bool.and_eq_true] at hall
    have hd := digit_bounds c hall.1
    have := ih (acc * 10 + ((c.toNat : Int) - 48)) (by omega) hall.2
    simp only [List.foldl_cons]
    omega

/-- The digit loop of `tryParseInt`, started on a value within its guard: it
returns the value of the digits when every character is a digit and that value
does not exceed 2147483648, and gives up otherwise; the 64-bit reduction never
changes a value. -/
theorem parseDigits_eq (cs : List Char) (acc : Int) (h0 : 0 ≤ acc) (h1 : acc ≤ 2147483648) :
    parseDigits cs acc =
      if cs.all isDecimalDigit = true ∧
          cs.foldl (fun a c => a * 10 + ((c.toNat : Int) - 48)) acc ≤ 2147483648 then
        some (cs.foldl (fun a c => a * 10 + ((c.toNat : Int) - 48)) acc)
      else none := by
  induction cs generalizing acc with
  | nil => simp [parseDigits, h1]
  | cons c cs ih =>
    by_cases hd : isDecimalDigit c = true
    · have hb := digit_bounds c hd
      have hnot : ¬ (c.toNat < 48 ∨ c.toNat > 57) := by
        simp only [isDecimalDigit, decide_eq_true_eq] at hd
        omega
      have hw : wrap64 (acc * 10 + ((c.toNat : Int) - 48)) = acc * 10 + ((c.toNat : Int) - 48) :=
        wrap64_eq _ (by omega) (by omega)
      simp only [parseDigits, hnot, if_false, hw, List.all_cons, hd, Bool.true_and,
        List.foldl_cons]
      by_cases hbig : acc * 10 + ((c.toNat : Int) - 48) > 2147483648
      · simp only [hbig, if_true]
        rw [if_neg]
        rintro ⟨hall, hle⟩
        have := foldl_digits_ge cs (acc * 10 + ((c.toNat : Int) - 48)) (by omega) hall
        omega
      · simp only [hbig, if_false]
        exact ih _ (by omega) (by omega)
    · have hnot : c.toNat < 48 ∨ c.toNat > 57 := by
        simp only [isDecimalDigit, decide_eq_true_eq] at hd
        omega
      simp [parseDigits, hnot, hd]

theorem digitsValue_nonneg (cs : List Char) (hall : cs.all isDecimalDigit = true) :
    0 ≤ digitsValue cs :=
  foldl_digits_ge cs 0 (le_refl 0) hall

/-- The part of `tryParseInt` after the sign has been taken off. -/
theorem tryParseInt_core (neg : Bool) (ds : List Char) :
    (if ds.isEmpty = true then none
      else
        match parseDigits ds 0 with
        | none => none
        | some val =>
          if (if neg = true then wrap64 (-val) else val) < -2147483648 ∨
              (if neg = true then wrap64 (-val) else val) > 2147483647 then none
          else some (if neg = true then wrap64 (-val) else val)) =
      match
        (if ds ≠ [] ∧ ds.all isDecimalDigit = true then
          some (if neg = true then -digitsValue ds else digitsValue ds)
        else none : Option Int) with
      | some v => if -2147483648 ≤ v ∧ v ≤ 2147483647 then some v else none
      | none => none := by
  cases ds with
  | nil => simp
  | cons d ds =>
    rw [parseDigits_eq (d :: ds) 0 (le_refl 0) (by norm_num)]
    simp only [List.isEmpty_cons, Bool.false_eq_true, if_false]
    by_cases hall : (d :: ds).all isDecimalDigit = true
    · have hnn := digitsValue_nonneg (d :: ds) hall
      unfold digitsValue at hnn
      simp only [hall, true_and, ne_eq, reduceCtorEq, not_false_eq_true, and_self, if_true,
        digitsValue]
      generalize List.foldl (fun a c => a * 10 + ((c.toNat : Int) - 48)) 0 (d :: ds) = v at hnn ⊢
      by_cases hv : v ≤ 2147483648
      · simp only [hv, if_true]
        cases neg with
        | true =>
          have hw : wrap64 (-v) = -v := wrap64_eq _ (by omega) (by omega)
          simp only [if_true, hw]
          have h1 : ¬ (-v < -2147483648 ∨ -v > 2147483647) := by omega
          have h2 : -2147483648 ≤ -v ∧ -v ≤ 2147483647 := by omega
          simp only [h1, h2, if_true, if_false, and_self]
        | false =>
          simp only [Bool.false_eq_true, if_false]
          by_cases hr : v ≤ 2147483647
          · have h1 : ¬ (v < -2147483648 ∨ v > 2147483647) := by omega
            have h2 : -2147483648 ≤ v ∧ v ≤ 2147483647 := by omega
            simp only [h1, h2, if_true, if_false, and_self]
          · have h1 : v < -2147483648 ∨ v > 2147483647 := by omega
            have h2 : ¬ (-2147483648 ≤ v ∧ v ≤ 2147483647) := by omega
            simp only [h1, h2, if_true, if_false]
      · simp only [hv, if_false]
        cases neg with
        | true =>
          have h2 : ¬ (-2147483648 ≤ -v ∧ -v ≤ 2147483647) := by omega
          simp only [if_true, h2, if_false]
        | false =>
          have h2 : ¬ (-2147483648 ≤ v ∧ v ≤ 2147483647) := by omega
          simp only [Bool.false_eq_true, if_false, h2]
    · simp [hall]

/-- What `tryParseInt` computes: the integer the text denotes, when the text is
a sign-and-digits text and the integer is in the range of `int`. -/
theorem tryParseInt_eq (s : String) :
    tryParseInt s =
      match denotedInt s.toList with
      | some v => if -2147483648 ≤ v ∧ v ≤ 2147483647 then some v else none
      | none => none := by
  unfold tryParseInt denotedInt
  cases hs : s.toList with
  | nil => simp [splitSign]
  | cons c0 cs =>
    have hbody : (if c0 = '+' ∨ c0 = '-' then cs else c0 :: cs) = (splitSign (c0 :: cs)).2 := by
      unfold splitSign
      by_cases hp : c0 = '+'
      · simp [hp]
      · by_cases hm : c0 = '-'
        · simp [hm]
        · simp [hp, hm]
    have hneg : decide (c0 = '-') = (splitSign (c0 :: cs)).1 := by
      unfold splitSign
      by_cases hp : c0 = '+'
      · have : ¬ c0 = '-' := by rw [hp]; decide
        simp [hp]
      · by_cases hm : c0 = '-'
        · simp [hm]
        · simp [hp, hm]
    simp only [hbody, hneg]
    exact tryParseInt_core _ _

/-- C14, as the code has it: the input request accepts the trimmed line exactly
when it is an optional leading `'+'` or `'-'` followed by one or more decimal
digits and the integer it denotes lies in the range of `int`, from -2147483648
to 2147483647; the value bound is then that integer. Every other line (empty,
sign only, a character that is no digit, or a value out of range) is rejected
with the INVALID NUMBER notice and the next line is asked for. -/
theorem C14_input_line_acceptance (L : Lib) (var line : String) (rest : List String)
    (st : EvalState) (out : List String) :
    (∀ v, tryParseInt (L.trim line) = some v ↔
      denotedInt (L.trim line).toList = some v ∧ -2147483648 ≤ v ∧ v ≤ 2147483647) ∧
    (tryParseInt (L.trim line) = none ↔
      denotedInt (L.trim line).toList = none ∨
        ∃ v, denotedInt (L.trim line).toList = some v ∧ (v < -2147483648 ∨ 2147483647 < v)) ∧
    (∀ v, tryParseInt (L.trim line) = some v →
      inputLoop L var (line :: rest) st out = (st.setValue var v, rest, out ++ [" ? "])) ∧
    (tryParseInt (L.trim line) = none →
      inputLoop L var (line :: rest) st out =
        inputLoop L var rest st (out ++ [" ? ", "INVALID NUMBER\n"])) := by
  refine ⟨?_, ?_, ?_, ?_⟩
  · intro v
    rw [tryParseInt_eq]
    cases hd : denotedInt (L.trim line).toList with
    | none => simp
    | some u =>
      by_cases hr : -2147483648 ≤ u ∧ u ≤ 2147483647
      · simp only [hr, and_self, if_true, Option.some.injEq]
        constructor
        · intro h
          subst h
          exact ⟨rfl, hr.1, hr.2⟩
        · intro h
          exact h.1
      · simp only [hr, if_false, Option.some.injEq]
        constructor
        · intro h
          cases h
        · rintro ⟨h1, h2, h3⟩
          subst h1
          exact absurd ⟨h2, h3⟩ hr
  · rw [tryParseInt_eq]
    cases hd : denotedInt (L.trim line).toList with
    | none => simp
    | some u =>
      by_cases hr : -2147483648 ≤ u ∧ u ≤ 2147483647
      · simp only [hr, and_self, if_true, reduceCtorEq, Option.some.injEq, false_or, false_iff,
          not_exists, not_and]
        intro v hv
        subst hv
        omega
      · simp only [hr, if_false, reduceCtorEq, Option.some.injEq, false_or, true_iff]
        exact ⟨u, rfl, by omega⟩
  · intro v hv
    simp [inputLoop, hv]
  · intro hn
    simp [inputLoop, hn]

/-- C14 at concrete lines: ` -12 ` is accepted with value -12, `+` is rejected. -/
theorem C14_input_line_acceptance_witness :
    tryParseInt (specLib.trim " -12 ") = some (-12) ∧
      inputLoop specLib "V" ["+", "7"] EvalState.empty [] =
        inputLoop specLib "V" ["7"] EvalState.empty [" ? ", "INVALID NUMBER\n"] :=
  ⟨((C14_input_line_acceptance specLib "V" " -12 " [] EvalState.empty []).1 (-12)).mpr
      (by decide),
    (C14_input_line_acceptance specLib "V" "+" ["7"] EvalState.empty []).2.2.2 (by decide)⟩

/-- C14 as stated fails: the line `2147483648` is made of decimal digits only and
denotes 2147483648, and the input request rejects it with the INVALID NUMBER
notice. -/
theorem C14_out_of_range_counterexample :
    denotedInt (specLib.trim "2147483648").toList = some 2147483648 ∧
      tryParseInt (specLib.trim "2147483648") = none ∧
      execute specLib (Statement.input "V") (World.initial ["2147483648", "1"]) =
        ({ World.initial ["2147483648", "1"] with
            state := EvalState.empty.setValue "V" 1
            input := []
            output := [" ? ", "INVALID NUMBER\n", " ? "] },
          Outcome.normal) := by
  decide

/-! ## Removing a line -/

theorem IntMap.erase_of_not_mem {α : Type} (m : List (Int × α)) (k : Int)
    (h : k ∉ IntMap.keys m) : IntMap.erase k m = m := by
  unfold IntMap.erase
  rw [List.filter_eq_self]
  intro e he
  have : e.1 ≠ k := fun hk => h (hk ▸ List.mem_map_of_mem Prod.fst he)
  simpa using this

theorem removeSourceLine_source (p : Program) (n : Int) :
    (p.removeSourceLine n).sourceLinesByNumber = IntMap.erase n p.sourceLinesByNumber := by
  unfold Program.removeSourceLine
  split <;> rfl

theorem removeSourceLine_parsed (p : Program) (n : Int) :
    (p.removeSourceLine n).parsedByNumber = IntMap.erase n p.parsedByNumber := by
  unfold Program.removeSourceLine
  split
  · rfl
  · rename_i h
    simp only
    rw [IntMap.erase_of_not_mem]
    rw [← IntMap.find_isSome_iff]
    exact h

theorem removeSourceLine_of_absent (p : Program) (n : Int) (h1 : p.hasLine n = false)
    (h2 : p.getParsedStatement n = none) : p.removeSourceLine n = p := by
  have hs := removeSourceLine_source p n
  have hp := removeSourceLine_parsed p n
  rw [IntMap.erase_of_not_mem _ _ ((hasLine_eq_false_iff p n).mp h1)] at hs
  rw [IntMap.erase_of_not_mem _ _ ((IntMap.find_eq_none_iff _ _).mp h2)] at hp
  have hj : (p.removeSourceLine n).jumpPending = p.jumpPending := by
    unfold Program.removeSourceLine; split <;> rfl
  have ht : (p.removeSourceLine n).jumpTarget = p.jumpTarget := by
    unfold Program.removeSourceLine; split <;> rfl
  have hst : (p.removeSourceLine n).stopRequested = p.stopRequested := by
    unfold Program.removeSourceLine; split <;> rfl
  cases hq : p.removeSourceLine n with
  | mk a b c d e =>
    rw [hq] at hs hp hj ht hst
    cases p with
    | mk a1 b1 c1 d1 e1 =>
      simp only at hs hp hj ht hst
      rw [hs, hp, hj, ht, hst]

/-- C15: `removeSourceLine n` leaves line `n` without text and without parsed
statement, and leaves text and statement of every other line and the jump and
stop flags as they were. When `n` is not stored (and, as in every store built by
the operations of `Program`, has no parsed statement either) the store is
unchanged; no error is raised in any case. Entering a line that is only a
number `n` changes the world by `removeSourceLine n` and nothing else. -/
theorem C15_removeSourceLine (L : Lib) (p : Program) (n : Int) :
    (p.removeSourceLine n).hasLine n = false ∧
    (p.removeSourceLine n).getSourceLine n = "" ∧
    (p.removeSourceLine n).getParsedStatement n = none ∧
    (∀ m, m ≠ n →
      (p.removeSourceLine n).hasLine m = p.hasLine m ∧
      (p.removeSourceLine n).getSourceLine m = p.getSourceLine m ∧
      (p.removeSourceLine n).getParsedStatement m = p.getParsedStatement m) ∧
    ((p.removeSourceLine n).jumpPending = p.jumpPending ∧
      (p.removeSourceLine n).jumpTarget = p.jumpTarget ∧
      (p.removeSourceLine n).stopRequested = p.stopRequested) ∧
    (p.hasLine n = false → p.getParsedStatement n = none → p.removeSourceLine n = p) ∧
    (Reachable p → p.hasLine n = false → p.removeSourceLine n = p) ∧
    (∀ (fuel : Nat) (line first : String) (w : World), w.program = p →
      L.scanTokens line = [first] → first ≠ "" → L.getTokenType first = TokenType.number →
      L.stringToInteger first = Except.ok n →
      processLine L fuel line w =
        ({ w with program := p.removeSourceLine n }, Outcome.normal)) := by
  have hs := removeSourceLine_source p n
  have hp := removeSourceLine_parsed p n
  refine ⟨?_, ?_, ?_, ?_, ?_, ?_, ?_, ?_⟩
  · unfold Program.hasLine
    rw [hs, IntMap.find_erase_self]
    rfl
  · unfold Program.getSourceLine
    rw [hs, IntMap.find_erase_self]
  · unfold Program.getParsedStatement
    rw [hp, IntMap.find_erase_self]
  · intro m hm
    unfold Program.hasLine Program.getSourceLine Program.getParsedStatement
    rw [hs, hp, IntMap.find_erase_of_ne _ _ _ hm, IntMap.find_erase_of_ne _ _ _ hm]
    exact ⟨rfl, rfl, rfl⟩
  · unfold Program.removeSourceLine
    split <;> exact ⟨rfl, rfl, rfl⟩
  · exact removeSourceLine_of_absent p n
  · intro hr h1
    apply removeSourceLine_of_absent p n h1
    rw [Program.getParsedStatement, IntMap.find_eq_none_iff]
    intro hk
    have := reachable_parsed_has_source p hr n hk
    exact (hasLine_eq_false_iff p n).mp h1 this
  · intro fuel line first w hw htok hfirst hnum hint
    subst hw
    simp [processLine, htok, hfirst, hnum, hint]

/-- C15 at concrete lines: entering `20` on the sample program deletes line 20
and keeps line 10; entering `15`, which is not stored, changes nothing. -/
theorem C15_removeSourceLine_witness :
    (processLine specLib 0 "20" (World.ofProgram sampleProgram)).1.program.hasLine 20 = false ∧
      (processLine specLib 0 "20" (World.ofProgram sampleProgram)).1.program.getSourceLine 10 =
        "10 LET X = 1" ∧
      sampleProgram.removeSourceLine 15 = sampleProgram := by
  have h := (C15_removeSourceLine specLib sampleProgram 20).2.2.2.2.2.2.2 0 "20" "20"
    (World.ofProgram sampleProgram) rfl (by decide) (by decide) (by decide) (by decide)
  refine ⟨?_, ?_, ?_⟩
  · rw [h]
    exact (C15_removeSourceLine specLib sampleProgram 20).1
  · rw [h]
    decide
  · exact (C15_removeSourceLine specLib sampleProgram 15).2.2.2.2.2.1 (by decide) (by decide)

/-! ## What a run leaves behind -/

theorem driverStep_stop_maps (L : Lib) (c : Int) (w w1 : World) (o : Outcome)
    (h : driverStep L c w = StepResult.stop w1 o) :
    w1.program.sourceLinesByNumber = w.program.sourceLinesByNumber ∧
    w1.program.parsedByNumber = w.program.parsedByNumber := by
  unfold driverStep at h
  cases hp : w.program.getParsedStatement c with
  | none =>
    rw [hp] at h
    simp only at h
    injection h with h1 h2
    subst h1
    exact ⟨rfl, rfl⟩
  | some stmt =>
    have hm := execute_maps L stmt w
    rw [hp] at h
    simp only at h
    cases he : execute L stmt w with
    | mk w2 o2 =>
      rw [he] at h hm
      cases o2 with
      | normal =>
        simp only at h
        split at h
        · injection h with h1 h2
          subst h1
          exact hm
        · split at h <;> cases h
      | error m =>
        simp only at h
        injection h with h1 h2
        subst h1
        exact hm
      | quit =>
        simp only at h
        injection h with h1 h2
        subst h1
        exact hm
      | outOfFuel =>
        simp only at h
        injection h with h1 h2
        subst h1
        exact hm

/-- The loop never changes the stored lines or the installed statements. -/
theorem runLoop_maps (L : Lib) (fuel : Nat) :
    ∀ (c : Int) (w : World),
      (runLoop L fuel c w).1.program.sourceLinesByNumber = w.program.sourceLinesByNumber ∧
      (runLoop L fuel c w).1.program.parsedByNumber = w.program.parsedByNumber := by
  induction fuel with
  | zero =>
    intro c w
    simp only [runLoop]
    split <;> exact ⟨rfl, rfl⟩
  | succ f ih =>
    intro c w
    simp only [runLoop]
    split
    · exact ⟨rfl, rfl⟩
    · cases hd : driverStep L c w with
      | next c1 w1 =>
        have h1 := driverStep_next_maps L c c1 w w1 hd
        have h2 := ih c1 w1
        exact ⟨h2.1.trans h1.1, h2.2.trans h1.2⟩
      | stop w1 o => exact driverStep_stop_maps L c w w1 o hd

/-- The spec-modelled evaluator leaves the state as it was on an expression
without assignment. -/
theorem evalSpec_assignFree (e : Expression) (st : EvalState) (h : e.assignFree = true) :
    (evalSpec e st).1 = st := by
  induction e generalizing st with
  | constant v => rfl
  | identifier name =>
    simp only [evalSpec]
    split <;> rfl
  | compound op lhs rhs ihl ihr =>
    simp only [Expression.assignFree, Bool.and_eq_true, decide_eq_true_eq] at h
    obtain ⟨⟨hop, hl⟩, hr⟩ := h
    have h1 := ihl st hl
    simp only [evalSpec, hop, if_false]
    cases hel : evalSpec lhs st with
    | mk st1 r1 =>
      rw [hel] at h1
      simp only at h1
      subst h1
      cases r1 with
      | error m => rfl
      | ok a =>
        simp only
        have h2 := ihr st1 hr
        cases her : evalSpec rhs st1 with
        | mk st2 r2 =>
          rw [her] at h2
          simp only at h2
          subst h2
          cases r2 with
          | error m => rfl
          | ok b =>
            simp only
            split
            · rfl
            · split
              · rfl
              · split
                · rfl
                · split
                  · split <;> rfl
                  · rfl

/-- The spec-modelled evaluator, when it fails on an expression of the grammar,
leaves the state as it was. -/
theorem evalSpec_error_state (e : Expression) (st st1 : EvalState) (m : String)
    (h : e.topAssignOnly = true) (he : evalSpec e st = (st1, Except.error m)) : st1 = st := by
  cases e with
  | constant v =>
    have := evalSpec_assignFree (Expression.constant v) st rfl
    rw [he] at this
    exact this
  | identifier name =>
    have := evalSpec_assignFree (Expression.identifier name) st rfl
    rw [he] at this
    exact this
  | compound op lhs rhs =>
    by_cases hop : op = "="
    · subst hop
      simp only [Expression.topAssignOnly, if_true, Bool.and_eq_true] at h
      obtain ⟨hl, hr⟩ := h
      cases lhs with
      | constant v => simp at hl
      | compound o a b => simp at hl
      | identifier name =>
        have h2 := evalSpec_assignFree rhs st hr
        simp only [evalSpec, if_true] at he
        cases her : evalSpec rhs st with
        | mk st2 r2 =>
          rw [her] at he h2
          simp only at h2
          subst h2
          cases r2 with
          | error m2 =>
            simp only at he
            injection he with he1 he2
            exact he1.symm
          | ok v =>
            simp only at he
            injection he with he1 he2
            cases he2
    · simp only [Expression.topAssignOnly, hop, if_false] at h
      have := evalSpec_assignFree (Expression.compound op lhs rhs) st h
      rw [he] at this
      exact this

/-- The spec-modelled parser of expressions builds no assignment. -/
theorem parse_assignFree (fuel : Nat) :
    (∀ toks e r, parseFactor fuel toks = Except.ok (e, r) → e.assignFree = true) ∧
    (∀ lhs toks e r, lhs.assignFree = true →
      parseTermRest fuel lhs toks = Except.ok (e, r) → e.assignFree = true) ∧
    (∀ toks e r, parseTerm fuel toks = Except.ok (e, r) → e.assignFree = true) ∧
    (∀ lhs toks e r, lhs.assignFree = true →
      parseExprRest fuel lhs toks = Except.ok (e, r) → e.assignFree = true) ∧
    (∀ toks e r, parseExpr fuel toks = Except.ok (e, r) → e.assignFree = true) := by
  induction fuel with
  | zero =>
    refine ⟨?_, ?_, ?_, ?_, ?_⟩
    · intro toks e r h
      simp [parseFactor] at h
    · intro lhs toks e r _ h
      simp [parseTermRest] at h
    · intro toks e r h
      simp [parseTerm] at h
    · intro lhs toks e r _ h
      simp [parseExprRest] at h
    · intro toks e r h
      simp [parseExpr] at h
  | succ f ih =>
    obtain ⟨ihF, ihTR, ihT, ihER, ihE⟩ := ih
    refine ⟨?_, ?_, ?_, ?_, ?_⟩
    · intro toks e r h
      cases toks with
      | nil => simp [parseFactor] at h
      | cons tok rest =>
        simp only [parseFactor] at h
        split at h
        · cases hp : parseFactor f rest with
          | error m => simp [hp] at h
          | ok v =>
            obtain ⟨e1, r1⟩ := v
            rw [hp] at h
            simp only [Except.ok.injEq, Prod.mk.injEq] at h
            obtain ⟨h1, _⟩ := h
            subst h1
            have := ihF rest e1 r1 hp
            simp [Expression.assignFree, this]
        · split at h
          · cases hp : parseExpr f rest with
            | error m => simp [hp] at h
            | ok v =>
              obtain ⟨e1, r1⟩ := v
              rw [hp] at h
              simp only at h
              cases r1 with
              | nil => simp at h
              | cons close r2 =>
                simp only at h
                split at h
                · simp only [Except.ok.injEq, Prod.mk.injEq] at h
                  obtain ⟨h1, _⟩ := h
                  subst h1
                  exact ihE rest e1 (close :: r2) hp
                · simp at h
          · split at h
            · split at h
              · simp at h
              · simp only [Except.ok.injEq, Prod.mk.injEq] at h
                obtain ⟨h1, _⟩ := h
                subst h1
                rfl
            · simp only [Except.ok.injEq, Prod.mk.injEq] at h
              obtain ⟨h1, _⟩ := h
              subst h1
              rfl
            · simp at h
    · intro lhs toks e r hl h
      cases toks with
      | nil =>
        simp only [parseTermRest, Except.ok.injEq, Prod.mk.injEq] at h
        obtain ⟨h1, _⟩ := h
        subst h1
        exact hl
      | cons op rest =>
        simp only [parseTermRest] at h
        split at h
        · rename_i hop
          cases hp : parseFactor f rest with
          | error m => simp [hp] at h
          | ok v =>
            obtain ⟨e1, r1⟩ := v
            rw [hp] at h
            simp only at h
            have h1 := ihF rest e1 r1 hp
            have hne : op ≠ "=" := by
              rcases hop with hop | hop <;> rw [hop] <;> decide
            exact ihTR (Expression.compound op lhs e1) r1 e r
              (by simp [Expression.assignFree, hne, hl, h1]) h
        · simp only [Except.ok.injEq, Prod.mk.injEq] at h
          obtain ⟨h1, _⟩ := h
          subst h1
          exact hl
    · intro toks e r h
      simp only [parseTerm] at h
      cases hp : parseFactor f toks with
      | error m => simp [hp] at h
      | ok v =>
        obtain ⟨e1, r1⟩ := v
        rw [hp] at h
        simp only at h
        exact ihTR e1 r1 e r (ihF toks e1 r1 hp) h
    · intro lhs toks e r hl h
      cases toks with
      | nil =>
        simp only [parseExprRest, Except.ok.injEq, Prod.mk.injEq] at h
        obtain ⟨h1, _⟩ := h
        subst h1
        exact hl
      | cons op rest =>
        simp only [parseExprRest] at h
        split at h
        · rename_i hop
          cases hp : parseTerm f rest with
          | error m => simp [hp] at h
          | ok v =>
            obtain ⟨e1, r1⟩ := v
            rw [hp] at h
            simp only at h
            have h1 := ihT rest e1 r1 hp
            have hne : op ≠ "=" := by
              rcases hop with hop | hop <;> rw [hop] <;> decide
            exact ihER (Expression.compound op lhs e1) r1 e r
              (by simp [Expression.assignFree, hne, hl, h1]) h
        · simp only [Except.ok.injEq, Prod.mk.injEq] at h
          obtain ⟨h1, _⟩ := h
          subst h1
          exact hl
    · intro toks e r h
      simp only [parseExpr] at h
      cases hp : parseTerm f toks with
      | error m => simp [hp] at h
      | ok v =>
        obtain ⟨e1, r1⟩ := v
        rw [hp] at h
        simp only at h
        exact ihER e1 r1 e r (ihT toks e1 r1 hp) h

theorem readESpec_assignFree (toks : List String) (e : Expression)
    (h : readESpec toks = Except.ok e) : e.assignFree = true := by
  unfold readESpec at h
  cases hp : parseExpr (4 * toks.length + 4) toks with
  | error m => simp [hp] at h
  | ok v =>
    obtain ⟨e1, r1⟩ := v
    rw [hp] at h
    simp only [Except.ok.injEq] at h
    subst h
    exact (parse_assignFree _).2.2.2.2 toks e1 r1 hp

theorem topAssignOnly_of_assignFree (e : Expression) (h : e.assignFree = true) :
    e.topAssignOnly = true := by
  cases e with
  | constant v => rfl
  | identifier name => rfl
  | compound op lhs rhs =>
    have h' := h
    simp only [Expression.assignFree, Bool.and_eq_true, decide_eq_true_eq] at h'
    simp only [Expression.topAssignOnly, h'.1.1, if_false]
    exact h

theorem parseExpr_all_topAssignOnly (toks : List String) (e : Expression)
    (h : (match parseExpr (4 * toks.length + 4) toks with
      | Except.ok (e, []) => Except.ok e
      | _ => Except.error "SYNTAX ERROR" : Except String Expression) = Except.ok e) :
    e.topAssignOnly = true := by
  cases hp : parseExpr (4 * toks.length + 4) toks with
  | error m => simp [hp] at h
  | ok v =>
    obtain ⟨e1, r1⟩ := v
    rw [hp] at h
    cases r1 with
    | nil =>
      simp only [Except.ok.injEq] at h
      subst h
      exact topAssignOnly_of_assignFree _ ((parse_assignFree _).2.2.2.2 toks e1 [] hp)
    | cons x xs => simp at h

/-- The spec-modelled `parseExp` builds an expression of the grammar. -/
theorem parseExpSpec_topAssignOnly (toks : List String) (e : Expression)
    (h : parseExpSpec toks = Except.ok e) : e.topAssignOnly = true := by
  unfold parseExpSpec at h
  split at h
  · rename_i name eq rest
    split at h
    · cases hp : parseExpr (4 * rest.length + 4) rest with
      | error m => simp [hp] at h
      | ok v =>
        obtain ⟨e1, r1⟩ := v
        rw [hp] at h
        cases r1 with
        | nil =>
          simp only [Except.ok.injEq] at h
          subst h
          have := (parse_assignFree _).2.2.2.2 rest e1 [] hp
          simp [Expression.topAssignOnly, this]
        | cons x xs => simp at h
    · exact parseExpr_all_topAssignOnly _ e h
  · exact parseExpr_all_topAssignOnly _ e h

/-- Every statement the constructors build with the spec-modelled parser is
grammatical. -/
theorem buildStatement_grammatical (upper : String) (scanner : List String) (stmt : Statement)
    (h : buildStatement specLib upper scanner = Except.ok stmt) : stmt.grammatical = true := by
  unfold buildStatement at h
  split at h
  · simp only [mkRem, Except.ok.injEq] at h
    subst h
    rfl
  · split at h
    · unfold mkLet at h
      cases hp : specLib.parseExp scanner with
      | error m => simp [hp] at h
      | ok e =>
        rw [hp] at h
        simp only at h
        have he := parseExpSpec_topAssignOnly scanner e hp
        split at h
        · split at h
          · cases h
          · simp only [Except.ok.injEq] at h
            subst h
            exact he
        · cases h
    · split at h
      · unfold mkPrint at h
        cases hp : specLib.parseExp scanner with
        | error m => simp [hp] at h
        | ok e =>
          rw [hp] at h
          simp only [Except.ok.injEq] at h
          subst h
          exact parseExpSpec_topAssignOnly scanner e hp
      · split at h
        · unfold mkInput at h
          simp only at h
          split at h
          · cases h
          · split at h
            · cases h
            · split at h
              · cases h
              · split at h
                · cases h
                · simp only [Except.ok.injEq] at h
                  subst h
                  rfl
        · split at h
          · unfold mkEnd at h
            split at h
            · cases h
            · simp only [Except.ok.injEq] at h
              subst h
              rfl
          · split at h
            · unfold mkGoto at h
              split at h
              · cases h
              · simp only [Except.ok.injEq] at h
                subst h
                rfl
            · split at h
              · unfold mkIf at h
                split at h
                · cases h
                · split at h
                  · cases h
                  · split at h
                    · cases h
                    · simp only [Except.ok.injEq] at h
                      subst h
                      rfl
              · cases h

theorem jumpTo_error (w w2 : World) (t : Int) (m : String)
    (h : jumpTo w t = (w2, Outcome.error m)) : w2 = w := by
  unfold jumpTo at h
  split at h
  · injection h with h1 _
    exact h1.symm
  · injection h with _ h2
    cases h2

/-- A statement that throws leaves the program store, the input and the output as
they were, and the evaluation state as the evaluator left it: whatever holds of
the state before and is kept by every evaluation holds of it after. -/
theorem execute_error_frame (L : Lib) (stmt : Statement) (w w2 : World) (m : String)
    (h : execute L stmt w = (w2, Outcome.error m)) :
    w2.program = w.program ∧ w2.input = w.input ∧ w2.output = w.output ∧
      ∀ P : EvalState → Prop, (∀ e st, P st → P (L.eval e st).1) → P w.state → P w2.state := by
  cases stmt with
  | rem c =>
    simp only [execute] at h
    injection h with _ h2
    cases h2
  | letStmt e =>
    simp only [execute] at h
    cases he : L.eval e w.state with
    | mk st1 r =>
      rw [he] at h
      cases r with
      | error m1 =>
        simp only at h
        injection h with h1 _
        subst h1
        refine ⟨rfl, rfl, rfl, ?_⟩
        intro P hP hw
        have := hP e w.state hw
        rw [he] at this
        exact this
      | ok v =>
        simp only at h
        injection h with _ h2
        cases h2
  | print e =>
    simp only [execute] at h
    cases he : L.eval e w.state with
    | mk st1 r =>
      rw [he] at h
      cases r with
      | error m1 =>
        simp only at h
        injection h with h1 _
        subst h1
        refine ⟨rfl, rfl, rfl, ?_⟩
        intro P hP hw
        have := hP e w.state hw
        rw [he] at this
        exact this
      | ok v =>
        simp only at h
        injection h with _ h2
        cases h2
  | input v =>
    simp only [execute] at h
    injection h with _ h2
    cases h2
  | endStmt =>
    simp only [execute] at h
    injection h with _ h2
    cases h2
  | goto t =>
    have := jumpTo_error w w2 t m h
    subst this
    exact ⟨rfl, rfl, rfl, fun _ _ hw => hw⟩
  | ifStmt l r op t =>
    simp only [execute] at h
    cases hl : L.readE (L.scanTokens l) with
    | error m1 =>
      rw [hl] at h
      simp only at h
      injection h with h1 _
      subst h1
      exact ⟨rfl, rfl, rfl, fun _ _ hw => hw⟩
    | ok le =>
      rw [hl] at h
      simp only at h
      cases hr : L.readE (L.scanTokens r) with
      | error m1 =>
        rw [hr] at h
        simp only at h
        injection h with h1 _
        subst h1
        exact ⟨rfl, rfl, rfl, fun _ _ hw => hw⟩
      | ok re =>
        rw [hr] at h
        simp only at h
        cases h1e : L.eval le w.state with
        | mk st1 r1 =>
          rw [h1e] at h
          have hP1 : ∀ P : EvalState → Prop, (∀ e st, P st → P (L.eval e st).1) →
              P w.state → P st1 := by
            intro P hP hw
            have := hP le w.state hw
            rw [h1e] at this
            exact this
          cases r1 with
          | error m1 =>
            simp only at h
            injection h with h1 _
            subst h1
            exact ⟨rfl, rfl, rfl, hP1⟩
          | ok lv =>
            simp only at h
            cases h2e : L.eval re st1 with
            | mk st2 r2 =>
              rw [h2e] at h
              have hP2 : ∀ P : EvalState → Prop, (∀ e st, P st → P (L.eval e st).1) →
                  P w.state → P st2 := by
                intro P hP hw
                have := hP re st1 (hP1 P hP hw)
                rw [h2e] at this
                exact this
              cases r2 with
              | error m1 =>
                simp only at h
                injection h with h1 _
                subst h1
                exact ⟨rfl, rfl, rfl, hP2⟩
              | ok rv =>
                simp only at h
                split at h
                · have := jumpTo_error _ w2 t m h
                  subst this
                  exact ⟨rfl, rfl, rfl, hP2⟩
                · injection h with _ h2
                  cases h2

theorem world_state_self (w : World) : { w with state := w.state } = w := by
  cases w
  rfl

/-- With the spec-modelled parser and evaluator, a grammatical statement that
throws leaves the whole world as it was. -/
theorem execute_specLib_error (stmt : Statement) (w w2 : World) (m : String)
    (hg : stmt.grammatical = true)
    (h : execute specLib stmt w = (w2, Outcome.error m)) : w2 = w := by
  cases stmt with
  | rem c =>
    simp only [execute] at h
    injection h with _ h2
    cases h2
  | letStmt e =>
    simp only [execute] at h
    cases he : specLib.eval e w.state with
    | mk st1 r =>
      rw [he] at h
      cases r with
      | error m1 =>
        simp only at h
        injection h with h1 _
        subst h1
        have := evalSpec_error_state e w.state st1 m1 hg he
        subst this
        exact world_state_self w
      | ok v =>
        simp only at h
        injection h with _ h2
        cases h2
  | print e =>
    simp only [execute] at h
    cases he : specLib.eval e w.state with
    | mk st1 r =>
      rw [he] at h
      cases r with
      | error m1 =>
        simp only at h
        injection h with h1 _
        subst h1
        have := evalSpec_error_state e w.state st1 m1 hg he
        subst this
        exact world_state_self w
      | ok v =>
        simp only at h
        injection h with _ h2
        cases h2
  | input v =>
    simp only [execute] at h
    injection h with _ h2
    cases h2
  | endStmt =>
    simp only [execute] at h
    injection h with _ h2
    cases h2
  | goto t => exact jumpTo_error w w2 t m h
  | ifStmt l r op t =>
    simp only [execute] at h
    cases hl : specLib.readE (specLib.scanTokens l) with
    | error m1 =>
      rw [hl] at h
      simp only at h
      injection h with h1 _
      exact h1.symm
    | ok le =>
      rw [hl] at h
      simp only at h
      cases hr : specLib.readE (specLib.scanTokens r) with
      | error m1 =>
        rw [hr] at h
        simp only at h
        injection h with h1 _
        exact h1.symm
      | ok re =>
        rw [hr] at h
        simp only at h
        have hle : le.assignFree = true := readESpec_assignFree _ le hl
        have hre : re.assignFree = true := readESpec_assignFree _ re hr
        have h1s := evalSpec_assignFree le w.state hle
        cases h1e : specLib.eval le w.state with
        | mk st1 r1 =>
          have h1e' : evalSpec le w.state = (st1, r1) := h1e
          rw [h1e'] at h1s
          simp only at h1s
          subst h1s
          rw [h1e] at h
          cases r1 with
          | error m1 =>
            simp only at h
            injection h with h1 _
            subst h1
            exact world_state_self w
          | ok lv =>
            simp only at h
            have h2s := evalSpec_assignFree re w.state hre
            cases h2e : specLib.eval re w.state with
            | mk st2 r2 =>
              have h2e' : evalSpec re w.state = (st2, r2) := h2e
              rw [h2e'] at h2s
              simp only at h2s
              subst h2s
              rw [h2e] at h
              cases r2 with
              | error m1 =>
                simp only at h
                injection h with h1 _
                subst h1
                exact world_state_self w
              | ok rv =>
                simp only at h
                split at h
                · have := jumpTo_error _ w2 t m h
                  rw [this]
                · injection h with _ h2
                  cases h2

/-- A round that ends the run with an error: the statement is missing and the
world is as it was, or the statement found there threw. -/
theorem driverStep_error_cases (L : Lib) (c : Int) (w w2 : World) (m : String)
    (h : driverStep L c w = StepResult.stop w2 (Outcome.error m)) :
    (w.program.getParsedStatement c = none ∧ w2 = w) ∨
      ∃ stmt, w.program.getParsedStatement c = some stmt ∧
        execute L stmt w = (w2, Outcome.error m) := by
  unfold driverStep at h
  cases hp : w.program.getParsedStatement c with
  | none =>
    rw [hp] at h
    simp only at h
    injection h with h1 _
    exact Or.inl ⟨rfl, h1.symm⟩
  | some stmt =>
    rw [hp] at h
    simp only at h
    right
    refine ⟨stmt, rfl, ?_⟩
    cases he : execute L stmt w with
    | mk w3 o =>
      rw [he] at h
      cases o with
      | normal =>
        simp only at h
        split at h
        · injection h with _ h2
          cases h2
        · split at h <;> cases h
      | error m1 =>
        simp only at h
        injection h with h1 h2
        rw [h1, h2]
      | quit =>
        simp only at h
        injection h with _ h2
        cases h2
      | outOfFuel =>
        simp only at h
        injection h with _ h2
        cases h2

/-- C16: a run, however it ends, leaves the stored lines with their texts and the
installed statements as they were before it. When the driver has come to line
`c` in world `w1` and the statement there throws, leaving world `w2`, the run
ends with that error in world `w2`, and `w2` is `w1` but for what the evaluator
did to the state while the statement ran: store, input and output are those of
`w1`, and whatever holds of the state of `w1` and is kept by every evaluation
(a variable being bound, say) holds of the state of `w2`. When the statement is
missing or is a jump to a line that is not stored, `w2` is `w1` itself; when a
`LET` or `PRINT` fails, the state of `w2` is the one its evaluation left. With
the spec-modelled parser and evaluator, a failing statement built by the
constructors leaves `w1` exactly as it was, every binding with its value. The
program `10 LET X = 1`, `20 PRINT Y` ends with VARIABLE NOT DEFINED and `X`
bound to 1. -/
theorem C16_run_keeps_store_no_rollback (L : Lib) (w : World) :
    (∀ fuel,
      (run L fuel w).1.program.sourceLinesByNumber = w.program.sourceLinesByNumber ∧
      (run L fuel w).1.program.parsedByNumber = w.program.parsedByNumber ∧
      (run L fuel w).1.program.lineNumbers = w.program.lineNumbers ∧
      (∀ n, (run L fuel w).1.program.getSourceLine n = w.program.getSourceLine n) ∧
      (∀ n, (run L fuel w).1.program.getParsedStatement n = w.program.getParsedStatement n)) ∧
    (∀ c w1 w2 m,
      Reaches L w.program.getFirstLineNumber
        { w with program := (w.program.clearPendingJump).clearStop } c w1 →
      c ≠ -1 → driverStep L c w1 = StepResult.stop w2 (Outcome.error m) →
      (∃ fuel, run L fuel w = (w2, Outcome.error m)) ∧
        w2.program = w1.program ∧ w2.input = w1.input ∧ w2.output = w1.output ∧
        ∀ P : EvalState → Prop, (∀ e st, P st → P (L.eval e st).1) →
          P w1.state → P w2.state) ∧
    (∀ c w1, w1.program.getParsedStatement c = none →
      driverStep L c w1 = StepResult.stop w1 (Outcome.error "SYNTAX ERROR")) ∧
    (∀ c w1 t, w1.program.getParsedStatement c = some (Statement.goto t) →
      w1.program.hasLine t = false →
      driverStep L c w1 = StepResult.stop w1 (Outcome.error "LINE NUMBER ERROR")) ∧
    (∀ c w1 e st1 m,
      (w1.program.getParsedStatement c = some (Statement.letStmt e) ∨
        w1.program.getParsedStatement c = some (Statement.print e)) →
      L.eval e w1.state = (st1, Except.error m) →
      driverStep L c w1 = StepResult.stop { w1 with state := st1 } (Outcome.error m)) ∧
    (∀ w0 c w1 w2 m,
      Reaches specLib w0.program.getFirstLineNumber
        { w0 with program := (w0.program.clearPendingJump).clearStop } c w1 →
      c ≠ -1 →
      (∀ stmt, w1.program.getParsedStatement c = some stmt →
        ∃ upper scanner, buildStatement specLib upper scanner = Except.ok stmt) →
      driverStep specLib c w1 = StepResult.stop w2 (Outcome.error m) →
      w2 = w1 ∧ ∃ fuel, run specLib fuel w0 = (w1, Outcome.error m)) ∧
    run specLib 2 (World.ofProgram failingProgram) =
      ({ World.ofProgram failingProgram with state := EvalState.empty.setValue "X" 1 },
        Outcome.error "VARIABLE NOT DEFINED") := by
  refine ⟨?_, ?_, ?_, ?_, ?_, ?_, by decide⟩
  · intro fuel
    have h := runLoop_maps L fuel w.program.getFirstLineNumber
      { w with program := (w.program.clearPendingJump).clearStop }
    have h1 : (run L fuel w).1.program.sourceLinesByNumber = w.program.sourceLinesByNumber :=
      h.1
    have h2 : (run L fuel w).1.program.parsedByNumber = w.program.parsedByNumber := h.2
    refine ⟨h1, h2, ?_, ?_, ?_⟩
    · unfold Program.lineNumbers
      rw [h1]
    · intro n
      unfold Program.getSourceLine
      rw [h1]
    · intro n
      unfold Program.getParsedStatement
      rw [h2]
  · intro c w1 w2 m hreach hc hstep
    refine ⟨?_, ?_⟩
    · obtain ⟨f, hf⟩ := runLoop_of_reaches L _ _ _ _ hreach 1
      refine ⟨f, ?_⟩
      unfold run
      rw [hf]
      exact runLoop_stop L 0 c w1 w2 _ hc hstep
    · rcases driverStep_error_cases L c w1 w2 m hstep with ⟨_, h2⟩ | ⟨stmt, _, hex⟩
      · subst h2
        exact ⟨rfl, rfl, rfl, fun _ _ hw => hw⟩
      · exact execute_error_frame L stmt w1 w2 m hex
  · intro c w1 h
    simp [driverStep, h]
  · intro c w1 t h ht
    simp [driverStep, h, execute, jumpTo, ht]
  · intro c w1 e st1 m hstmt he
    rcases hstmt with h | h
    · simp [driverStep, h, execute, he]
    · simp [driverStep, h, execute, he]
  · intro w0 c w1 w2 m hreach hc hbuilt hstep
    have hw : w2 = w1 := by
      rcases driverStep_error_cases specLib c w1 w2 m hstep with ⟨_, h2⟩ | ⟨stmt, hs, hex⟩
      · exact h2
      · obtain ⟨upper, scanner, hb⟩ := hbuilt stmt hs
        exact execute_specLib_error stmt w1 w2 m (buildStatement_grammatical upper scanner stmt hb)
          hex
    refine ⟨hw, ?_⟩
    subst hw
    obtain ⟨f, hf⟩ := runLoop_of_reaches specLib _ _ _ _ hreach 1
    refine ⟨f, ?_⟩
    unfold run
    rw [hf]
    exact runLoop_stop specLib 0 c w2 w2 _ hc hstep

/-- C16 at a concrete run: the failing program comes to line 20 with `X` bound,
`PRINT Y` throws there, and the run ends in that very world: `X` is still bound
to 1. -/
theorem C16_run_keeps_store_no_rollback_witness :
    (∃ fuel, run specLib fuel (World.ofProgram failingProgram) =
      ({ World.ofProgram failingProgram with state := EvalState.empty.setValue "X" 1 },
        Outcome.error "VARIABLE NOT DEFINED")) ∧
      (EvalState.empty.setValue "X" 1).getValue "X" = some 1 :=
  ⟨((C16_run_keeps_store_no_rollback specLib (World.ofProgram failingProgram)).2.2.2.2.2.1
      (World.ofProgram failingProgram) 20
      { World.ofProgram failingProgram with state := EvalState.empty.setValue "X" 1 }
      { World.ofProgram failingProgram with state := EvalState.empty.setValue "X" 1 }
      "VARIABLE NOT DEFINED"
      (@Reaches.step specLib 10 20 20 _ _ _ (by decide) (by decide) (Reaches.refl _ _))
      (by decide)
      (fun stmt hs =>
        ⟨"PRINT", ["Y"], by
          have h20 : (World.ofProgram failingProgram).program.getParsedStatement 20 =
              some (Statement.print (Expression.identifier "Y")) := by decide
          have hs' : (World.ofProgram failingProgram).program.getParsedStatement 20 =
              some stmt := hs
          rw [h20] at hs'
          injection hs' with hs'
          subst hs'
          decide⟩)
      (by decide)).2,
    by decide⟩

/-! ## One round of the driver -/

/-- C17: one round of the driver at line `c`, whose statement `stmt` executed
without error and left world `w1`. When the stop flag is set, the round ends the
run. Otherwise, when a jump is pending, the next current line is its target and
no jump is pending afterwards; when none is pending, the next current line is
`getNextLineNumber c`. The loop ends between rounds exactly when the current
line is `-1`: with current line `-1` it returns at once, with any other current
line it goes into another round. -/
theorem C17_driver_step (L : Lib) (c : Int) (w w1 : World) (stmt : Statement)
    (hstmt : w.program.getParsedStatement c = some stmt)
    (hexec : execute L stmt w = (w1, Outcome.normal)) :
    (w1.program.shouldStop = true →
      driverStep L c w = StepResult.stop w1 Outcome.normal ∧
      (c ≠ -1 → ∀ fuel, runLoop L (fuel + 1) c w = (w1, Outcome.normal))) ∧
    (w1.program.shouldStop = false → w1.program.hasPendingJump = true →
      driverStep L c w =
          StepResult.next w1.program.getPendingJump
            { w1 with program := w1.program.clearPendingJump } ∧
        (w1.program.clearPendingJump).hasPendingJump = false ∧
        (c ≠ -1 → ∀ fuel, runLoop L (fuel + 1) c w =
          runLoop L fuel w1.program.getPendingJump
            { w1 with program := w1.program.clearPendingJump })) ∧
    (w1.program.shouldStop = false → w1.program.hasPendingJump = false →
      driverStep L c w = StepResult.next (w1.program.getNextLineNumber c) w1 ∧
        (c ≠ -1 → ∀ fuel, runLoop L (fuel + 1) c w =
          runLoop L fuel (w1.program.getNextLineNumber c) w1)) ∧
    (∀ fuel w2, runLoop L fuel (-1) w2 = (w2, Outcome.normal)) ∧
    (∀ c2 w2, (runLoop L 0 c2 w2).2 = Outcome.normal ↔ c2 = -1) ∧
    (∀ fuel c2 w2, c2 ≠ -1 →
      runLoop L (fuel + 1) c2 w2 =
        match driverStep L c2 w2 with
        | StepResult.next c3 w3 => runLoop L fuel c3 w3
        | StepResult.stop w3 o => (w3, o)) := by
  refine ⟨?_, ?_, ?_, ?_, ?_, ?_⟩
  · intro hstop
    have hd : driverStep L c w = StepResult.stop w1 Outcome.normal := by
      simp [driverStep, hstmt, hexec, hstop]
    exact ⟨hd, fun hc fuel => runLoop_stop L fuel c w w1 _ hc hd⟩
  · intro hstop hjump
    have hd : driverStep L c w =
        StepResult.next w1.program.getPendingJump
          { w1 with program := w1.program.clearPendingJump } := by
      simp [driverStep, hstmt, hexec, hstop, hjump]
    refine ⟨hd, rfl, ?_⟩
    intro hc fuel
    simp [runLoop, hc, hd]
  · intro hstop hjump
    have hd : driverStep L c w = StepResult.next (w1.program.getNextLineNumber c) w1 := by
      simp [driverStep, hstmt, hexec, hstop, hjump]
    refine ⟨hd, ?_⟩
    intro hc fuel
    simp [runLoop, hc, hd]
  · intro fuel w2
    cases fuel <;> simp [runLoop]
  · intro c2 w2
    by_cases h : c2 = -1
    · simp [runLoop, h]
    · simp [runLoop, h]
  · intro fuel c2 w2 hc
    simp [runLoop, hc]

/-- C17 at concrete rounds: on the sample program, the round at line 10 goes on
to line 20; with `GOTO 30` installed at line 10 it goes on to line 30 and no jump
is pending afterwards. -/
theorem C17_driver_step_witness :
    driverStep specLib 10 (World.ofProgram sampleProgram) =
        StepResult.next 20
          { World.ofProgram sampleProgram with state := EvalState.empty.setValue "X" 1 } ∧
      driverStep specLib 10
          (World.ofProgram (sampleProgram.setParsedStatement 10 (Statement.goto 30)).1) =
        StepResult.next 30
          (World.ofProgram (sampleProgram.setParsedStatement 10 (Statement.goto 30)).1) :=
  ⟨((C17_driver_step specLib 10 (World.ofProgram sampleProgram)
      { World.ofProgram sampleProgram with state := EvalState.empty.setValue "X" 1 }
      (Statement.letStmt
        (Expression.compound "=" (Expression.identifier "X") (Expression.constant 1)))
      (by decide) (by decide)).2.2.1 (by decide) (by decide)).1,
    ((C17_driver_step specLib 10
      (World.ofProgram (sampleProgram.setParsedStatement 10 (Statement.goto 30)).1)
      { World.ofProgram (sampleProgram.setParsedStatement 10 (Statement.goto 30)).1 with
        program := ((sampleProgram.setParsedStatement 10 (Statement.goto 30)).1).requestJump 30 }
      (Statement.goto 30) (by decide) (by decide)).2.1 (by decide) (by decide)).1⟩

/-! ## Traversal of the stored lines -/

theorem traverse_suffix (p : Program) (hs : IntMap.Sorted p.sourceLinesByNumber)
    (hne : ∀ k ∈ p.lineNumbers, k ≠ -1) (ks : List Int) :
    ∀ (pre : List Int) (fuel : Nat), p.lineNumbers = pre ++ ks → ks.length ≤ fuel →
      traverse p fuel (ks.headD (-1)) = some ks := by
  induction ks with
  | nil =>
    intro pre fuel _ _
    cases fuel <;> simp [traverse]
  | cons k ks ih =>
    intro pre fuel hpre hfuel
    obtain ⟨f, rfl⟩ : ∃ f, fuel = f + 1 := ⟨fuel - 1, by simp at hfuel; omega⟩
    have hk : k ∈ p.lineNumbers := by rw [hpre]; simp
    have hk1 : k ≠ -1 := hne k hk
    have hnext : p.getNextLineNumber k = ks.headD (-1) := by
      rw [getNextLineNumber_eq_find, hpre]
      apply find_successor_of_sorted
      rw [← hpre]
      exact hs
    simp only [List.headD_cons, traverse, hk1, if_false, hnext]
    rw [ih (pre ++ [k]) f (by simp [hpre]) (by simp at hfuel; omega)]
    rfl

theorem listLoop_suffix (p : Program) (hs : IntMap.Sorted p.sourceLinesByNumber)
    (hne : ∀ k ∈ p.lineNumbers, k ≠ -1) (ks : List Int) :
    ∀ (pre : List Int) (fuel : Nat) (w : World), p.lineNumbers = pre ++ ks → w.program = p →
      ks.length ≤ fuel →
      listLoop fuel (ks.headD (-1)) w =
        ({ w with output := w.output ++ ks.map (fun n => p.getSourceLine n ++ "\n") },
          Outcome.normal) := by
  induction ks with
  | nil =>
    intro pre fuel w _ _ _
    cases fuel <;> simp [listLoop]
  | cons k ks ih =>
    intro pre fuel w hpre hw hfuel
    obtain ⟨f, rfl⟩ : ∃ f, fuel = f + 1 := ⟨fuel - 1, by simp at hfuel; omega⟩
    have hk : k ∈ p.lineNumbers := by rw [hpre]; simp
    have hk1 : k ≠ -1 := hne k hk
    have hnext : p.getNextLineNumber k = ks.headD (-1) := by
      rw [getNextLineNumber_eq_find, hpre]
      apply find_successor_of_sorted
      rw [← hpre]
      exact hs
    simp only [List.headD_cons, listLoop, hk1, if_false, hw, hnext]
    rw [ih (pre ++ [k]) f _ (by simp [hpre]) rfl (by simp at hfuel; omega)]
    simp

/-- C19: on a store whose source map is in key order and whose line numbers are
all non-negative, the traversal from `getFirstLineNumber` along
`getNextLineNumber` ends after as many rounds as there are lines and visits
exactly the stored line numbers, each once, in strictly ascending order; the
`LIST` loop writes the source texts in that order. -/
theorem C19_traversal_visits_all_once (p : Program)
    (hs : IntMap.Sorted p.sourceLinesByNumber) (hnn : ∀ k, p.hasLine k = true → 0 ≤ k) :
    (∀ fuel, p.lineNumbers.length ≤ fuel →
      traverse p fuel p.getFirstLineNumber = some p.lineNumbers) ∧
    (∀ n, n ∈ p.lineNumbers ↔ p.hasLine n = true) ∧
    p.lineNumbers.Pairwise (· < ·) ∧
    p.lineNumbers.Nodup ∧
    (∀ (w : World) (fuel : Nat), w.program = p → p.lineNumbers.length ≤ fuel →
      listLoop fuel p.getFirstLineNumber w =
        ({ w with output := w.output ++ p.lineNumbers.map (fun n => p.getSourceLine n ++ "\n") },
          Outcome.normal)) := by
  have hne : ∀ k ∈ p.lineNumbers, k ≠ -1 := by
    intro k hk hk1
    have := hnn k ((hasLine_iff p k).mpr hk)
    omega
  refine ⟨?_, fun n => (hasLine_iff p n).symm, hs, ?_, ?_⟩
  · intro fuel hfuel
    rw [getFirstLineNumber_eq_head]
    exact traverse_suffix p hs hne p.lineNumbers [] fuel rfl hfuel
  · exact List.Pairwise.imp (fun h => ne_of_lt h) hs
  · intro w fuel hw hfuel
    rw [getFirstLineNumber_eq_head]
    exact listLoop_suffix p hs hne p.lineNumbers [] fuel w rfl hw hfuel

/-- C19 at a concrete store: the sample store, whose lines were entered as 20, 10,
30, is traversed as 10, 20, 30. -/
theorem C19_traversal_visits_all_once_witness :
    traverse sampleStore 3 sampleStore.getFirstLineNumber = some [10, 20, 30] ∧
      (listLoop 3 sampleStore.getFirstLineNumber (World.ofProgram sampleStore)).1.output =
        ["10 LET X = 1\n", "20 PRINT X\n", "30 END\n"] := by
  have h := C19_traversal_visits_all_once sampleStore (by decide)
    (by
      intro k hk
      rw [hasLine_iff] at hk
      have : k ∈ [10, 20, 30] := hk
      simp at this
      omega)
  refine ⟨h.1 3 (by decide), ?_⟩
  rw [h.2.2.2.2 (World.ofProgram sampleStore) 3 rfl (by decide)]
  decide

/-! ## The current line of the driver -/

theorem jumpTo_program_cases (w : World) (t : Int) :
    (jumpTo w t).1.program = w.program ∨
      (w.program.hasLine t = true ∧ (jumpTo w t).1.program = w.program.requestJump t) := by
  unfold jumpTo
  cases h : w.program.hasLine t with
  | false => exact Or.inl rfl
  | true => exact Or.inr ⟨rfl, rfl⟩

/-- A statement leaves the store as it was, or sets the stop flag, or sets the
pending jump to a stored line. -/
theorem execute_program_cases (L : Lib) (s : Statement) (w : World) :
    (execute L s w).1.program = w.program ∨
      (execute L s w).1.program = w.program.requestStop ∨
      ∃ t, w.program.hasLine t = true ∧ (execute L s w).1.program = w.program.requestJump t := by
  cases s with
  | rem c => exact Or.inl rfl
  | letStmt e =>
    simp only [execute]
    split <;> exact Or.inl rfl
  | print e =>
    simp only [execute]
    split <;> exact Or.inl rfl
  | input v => exact Or.inl rfl
  | endStmt => exact Or.inr (Or.inl rfl)
  | goto t =>
    rcases jumpTo_program_cases w t with h | h
    · exact Or.inl h
    · exact Or.inr (Or.inr ⟨t, h⟩)
  | ifStmt l r op t =>
    simp only [execute]
    split
    · exact Or.inl rfl
    · split
      · exact Or.inl rfl
      · split
        · exact Or.inl rfl
        · split
          · exact Or.inl rfl
          · split
            · rename_i st2 _ _ _
              rcases jumpTo_program_cases { w with state := st2 } t with h | h
              · exact Or.inl h
              · exact Or.inr (Or.inr ⟨t, h⟩)
            · exact Or.inl rfl

/-- A jump that is pending after a statement, and was not before, points to a
stored line. -/
theorem execute_pending_target_stored (L : Lib) (s : Statement) (w : World)
    (h0 : w.program.hasPendingJump = false)
    (h1 : (execute L s w).1.program.hasPendingJump = true) :
    (execute L s w).1.program.hasLine (execute L s w).1.program.getPendingJump = true := by
  rcases execute_program_cases L s w with h | h | ⟨t, ht, h⟩
  · rw [h] at h1
    rw [h0] at h1
    cases h1
  · rw [h] at h1
    have : w.program.requestStop.hasPendingJump = w.program.hasPendingJump := rfl
    rw [this, h0] at h1
    cases h1
  · rw [h]
    exact ht

theorem getNextLineNumber_stored (p : Program) (c : Int) :
    p.getNextLineNumber c = -1 ∨ p.hasLine (p.getNextLineNumber c) = true := by
  unfold Program.getNextLineNumber
  cases hu : IntMap.upperBound p.sourceLinesByNumber c with
  | none => exact Or.inl rfl
  | some e => exact Or.inr ((hasLine_iff p _).mpr (IntMap.upperBound_mem _ _ _ hu).1)

theorem getFirstLineNumber_stored (p : Program) :
    p.getFirstLineNumber = -1 ∨ p.hasLine p.getFirstLineNumber = true := by
  unfold Program.getFirstLineNumber
  cases hl : p.sourceLinesByNumber with
  | nil => exact Or.inl rfl
  | cons e rest =>
    right
    rw [hasLine_iff]
    simp [Program.lineNumbers, IntMap.keys, hl]

theorem hasLine_congr (p q : Program) (h : q.sourceLinesByNumber = p.sourceLinesByNumber)
    (n : Int) : q.hasLine n = p.hasLine n := by
  unfold Program.hasLine
  rw [h]

/-- One round keeps the driver on a stored line or the sentinel, with no jump
pending at the top of the loop. -/
theorem driverStep_next_stored (L : Lib) (c c1 : Int) (w w1 : World)
    (h0 : w.program.hasPendingJump = false)
    (h : driverStep L c w = StepResult.next c1 w1) :
    c1 = -1 ∨ w1.program.hasLine c1 = true := by
  unfold driverStep at h
  cases hp : w.program.getParsedStatement c with
  | none => simp [hp] at h
  | some stmt =>
    have ht := execute_pending_target_stored L stmt w h0
    rw [hp] at h
    simp only at h
    cases he : execute L stmt w with
    | mk w2 o =>
      rw [he] at h ht
      simp only at ht
      cases o with
      | normal =>
        simp only at h
        by_cases hstop : w2.program.shouldStop = true
        · simp [hstop] at h
        · by_cases hjump : w2.program.hasPendingJump = true
          · simp only [hstop, hjump, if_true, Bool.false_eq_true, if_false] at h
            injection h with h1 h2
            subst h1 h2
            right
            exact ht hjump
          · simp only [hstop, hjump, Bool.false_eq_true, if_false] at h
            injection h with h1 h2
            subst h1 h2
            exact getNextLineNumber_stored _ c
      | error m => simp at h
      | quit => simp at h
      | outOfFuel => simp at h

theorem reaches_stored (L : Lib) (c c1 : Int) (w w1 : World) (h : Reaches L c w c1 w1)
    (hc : c = -1 ∨ w.program.hasLine c = true) (hj : w.program.hasPendingJump = false) :
    (c1 = -1 ∨ w1.program.hasLine c1 = true) ∧ w1.program.hasPendingJump = false := by
  induction h with
  | refl c w => exact ⟨hc, hj⟩
  | step _ hstep _ ih =>
    exact ih (driverStep_next_stored L _ _ _ _ hj hstep)
      (driverStep_next_flags L _ _ _ _ hstep).1

/-- C20: wherever a run comes to the top of its loop, the current line is a
stored line or the sentinel `-1` and no jump is pending; and when the statement
executed there leaves a jump pending, the target the driver consumes is a line
stored at that moment. -/
theorem C20_current_line_is_stored (L : Lib) (w0 w : World) (c : Int)
    (hreach : Reaches L w0.program.getFirstLineNumber
      { w0 with program := (w0.program.clearPendingJump).clearStop } c w) :
    (c = -1 ∨ w.program.hasLine c = true) ∧
    w.program.hasPendingJump = false ∧
    (∀ stmt w1, w.program.getParsedStatement c = some stmt →
      execute L stmt w = (w1, Outcome.normal) → w1.program.hasPendingJump = true →
      w1.program.hasLine w1.program.getPendingJump = true ∧
      (w1.program.shouldStop = false →
        driverStep L c w =
          StepResult.next w1.program.getPendingJump
            { w1 with program := w1.program.clearPendingJump })) := by
  have hstart : w0.program.getFirstLineNumber = -1 ∨
      ((w0.program.clearPendingJump).clearStop).hasLine w0.program.getFirstLineNumber = true :=
    getFirstLineNumber_stored w0.program
  obtain ⟨h1, h2⟩ := reaches_stored L _ _ _ _ hreach hstart rfl
  refine ⟨h1, h2, ?_⟩
  intro stmt w1 hstmt hexec hjump
  have ht := execute_pending_target_stored L stmt w h2
  rw [hexec] at ht
  refine ⟨ht hjump, ?_⟩
  intro hstop
  simp [driverStep, hstmt, hexec, hstop, hjump]

/-- C20 at a concrete run: with `GOTO 30` at line 10 the driver comes to line 30,
which is stored. -/
theorem C20_current_line_is_stored_witness :
    (World.ofProgram jumpingProgram).program.hasLine 30 = true ∧
      (World.ofProgram jumpingProgram).program.hasPendingJump = false :=
  ⟨((C20_current_line_is_stored specLib (World.ofProgram jumpingProgram)
      (World.ofProgram jumpingProgram) 30
      (@Reaches.step specLib 10 30 30 _ _ _ (by decide) (by decide) (Reaches.refl _ _))).1).resolve_left
      (by decide),
    (C20_current_line_is_stored specLib (World.ofProgram jumpingProgram)
      (World.ofProgram jumpingProgram) 30
      (@Reaches.step specLib 10 30 30 _ _ _ (by decide) (by decide) (Reaches.refl _ _))).2.1⟩

/-! ## Construction of the conditional jump -/

theorem collectLhs_eq_scanTo (toks : List String) (d : Int) (buf : String) :
    collectLhs toks d buf = scanTo IsRelational toks d buf := by
  induction toks generalizing d buf with
  | nil => rfl
  | cons tok rest ih =>
    simp only [collectLhs, scanTo, IsRelational, ih]

theorem collectRhs_eq_scanTo (L : Lib) (toks : List String) (d : Int) (buf : String) :
    collectRhs L toks d buf =
      (scanTo (IsThen L) toks d buf).map (fun r => (r.1, r.2.2)) := by
  induction toks generalizing d buf with
  | nil => rfl
  | cons tok rest ih =>
    simp only [collectRhs, scanTo, IsThen, ih]
    generalize (if tok = ")" then (if tok = "(" then d + 1 else d) - 1
      else if tok = "(" then d + 1 else d) = d2
    by_cases h : d2 = 0 ∧ L.toUpperCase tok = "THEN"
    · simp [h]
    · simp only [h, if_false]

theorem depth_step (tok : String) (d : Int) :
    (if tok = ")" then (if tok = "(" then d + 1 else d) - 1 else (if tok = "(" then d + 1 else d))
      = d + parenDelta tok := by
  unfold parenDelta
  by_cases h1 : tok = "("
  · have h2 : ¬ tok = ")" := by rw [h1]; decide
    simp [h1]
  · by_cases h2 : tok = ")"
    · simp [h2]
      omega
    · simp [h1, h2]

theorem parenDepth_singleton (tok : String) : parenDepth [tok] = parenDelta tok := by
  simp [parenDepth]

theorem parenDepth_cons_append (tok : String) (pre : List String) (d : String) :
    parenDepth (tok :: pre ++ [d]) = parenDelta tok + parenDepth (pre ++ [d]) := rfl

/-- The search loop finds the first delimiter at depth zero, and only that. -/
theorem scanTo_eq_some_iff (isDelim : String → Prop) [DecidablePred isDelim]
    (toks : List String) :
    ∀ (d0 : Int) (buf text dl : String) (post : List String),
      scanTo isDelim toks d0 buf = some (text, dl, post) ↔
        ∃ pre, toks = pre ++ dl :: post ∧ FirstAtDepthZero isDelim d0 pre dl ∧
          text = pre.foldl appendToken buf := by
  induction toks with
  | nil =>
    intro d0 buf text dl post
    simp [scanTo]
  | cons tok rest ih =>
    intro d0 buf text dl post
    simp only [scanTo, depth_step]
    by_cases hd : d0 + parenDelta tok = 0 ∧ isDelim tok
    · rw [if_pos hd]
      constructor
      · intro h
        simp only [Option.some.injEq, Prod.mk.injEq] at h
        obtain ⟨h1, h2, h3⟩ := h
        subst h1 h2 h3
        refine ⟨[], rfl, ⟨hd.2, ?_, ?_⟩, rfl⟩
        · simpa [parenDepth] using hd.1
        · intro pre1 t post1 hp
          simp at hp
      · rintro ⟨pre, hpre, ⟨hdl, hdep, hfirst⟩, htext⟩
        cases pre with
        | nil =>
          simp only [List.nil_append, List.cons.injEq] at hpre
          obtain ⟨h1, h2⟩ := hpre
          subst h1 h2
          simp [htext]
        | cons t pre1 =>
          simp only [List.cons_append, List.cons.injEq] at hpre
          obtain ⟨h1, h2⟩ := hpre
          subst h1
          exfalso
          apply hfirst [] tok pre1 rfl
          refine ⟨hd.2, ?_⟩
          simpa [parenDepth] using hd.1
    · rw [if_neg hd]
      rw [ih]
      constructor
      · rintro ⟨pre, hpre, ⟨hdl, hdep, hfirst⟩, htext⟩
        refine ⟨tok :: pre, by simp [hpre], ⟨hdl, ?_, ?_⟩, by simpa using htext⟩
        · rw [parenDepth_cons_append]
          omega
        · intro pre1 t post1 hp
          cases pre1 with
          | nil =>
            simp only [List.nil_append, List.cons.injEq] at hp
            obtain ⟨h1, _⟩ := hp
            subst h1
            intro hc
            apply hd
            refine ⟨?_, hc.1⟩
            simpa [parenDepth] using hc.2
          | cons t1 pre2 =>
            simp only [List.cons_append, List.cons.injEq] at hp
            obtain ⟨h1, h2⟩ := hp
            subst h1
            intro hc
            apply hfirst pre2 t post1 h2
            refine ⟨hc.1, ?_⟩
            have := hc.2
            rw [parenDepth_cons_append] at this
            omega
      · rintro ⟨pre, hpre, ⟨hdl, hdep, hfirst⟩, htext⟩
        cases pre with
        | nil =>
          simp only [List.nil_append, List.cons.injEq] at hpre
          obtain ⟨h1, h2⟩ := hpre
          subst h1
          exfalso
          apply hd
          refine ⟨?_, hdl⟩
          simpa [parenDepth] using hdep
        | cons t pre1 =>
          simp only [List.cons_append, List.cons.injEq] at hpre
          obtain ⟨h1, h2⟩ := hpre
          subst h1
          refine ⟨pre1, h2, ⟨hdl, ?_, ?_⟩, by simpa using htext⟩
          · rw [parenDepth_cons_append] at hdep
            omega
          · intro pre2 t2 post2 hp hc
            apply hfirst (tok :: pre2) t2 post2 (by simp [hp])
            refine ⟨hc.1, ?_⟩
            rw [parenDepth_cons_append]
            have := hc.2
            omega

theorem foldl_appendToken_go (toks : List String) (acc : String) (hacc : acc.length > 0)
    (hne : ∀ t ∈ toks, t ≠ "") :
    toks.foldl appendToken acc = String.intercalate.go acc " " toks := by
  induction toks generalizing acc with
  | nil => rfl
  | cons t ts ih =>
    have h1 : appendToken acc t = acc ++ " " ++ t := by
      simp [appendToken, hacc]
    simp only [List.foldl_cons, String.intercalate.go, h1]
    apply ih
    · simp only [String.length_append]
      omega
    · intro u hu
      exact hne u (List.mem_cons_of_mem _ hu)

theorem string_length_pos (t : String) (h : t ≠ "") : t.length > 0 := by
  rcases Nat.eq_zero_or_pos t.length with h0 | h0
  · exfalso
    apply h
    cases t with
    | mk data =>
      have : data = [] := List.length_eq_zero.mp h0
      subst this
      rfl
  · exact h0

/-- The text the loops collect is the tokens joined by single blanks. -/
theorem foldl_appendToken_eq_join (toks : List String) (hne : ∀ t ∈ toks, t ≠ "") :
    toks.foldl appendToken "" = joinTokens toks := by
  cases toks with
  | nil => rfl
  | cons t ts =>
    have ht : t.length > 0 := string_length_pos t (hne t (List.mem_cons_self _ _))
    have h1 : appendToken "" t = t := by
      simp [appendToken]
    simp only [List.foldl_cons, h1, joinTokens, String.intercalate]
    exact foldl_appendToken_go ts t ht (fun u hu => hne u (List.mem_cons_of_mem _ hu))

theorem readTarget_eq_ok_iff (L : Lib) (rest : List String) (v : Int)
    (heof : L.getTokenType "" ≠ TokenType.number) :
    readTarget L rest = Except.ok v ↔
      ∃ tgt, rest = [tgt] ∧ L.getTokenType tgt = TokenType.number ∧
        L.stringToInteger tgt = Except.ok v := by
  cases rest with
  | nil => simp [readTarget, heof]
  | cons tgt more =>
    simp only [readTarget, List.headD_cons, List.tail_cons]
    by_cases hk : L.getTokenType tgt = TokenType.number
    · simp only [hk, ne_eq, not_true_eq_false, if_false]
      cases hi : L.stringToInteger tgt with
      | error m => simp [hi]
      | ok u =>
        cases more with
        | nil => simp [hk, hi]
        | cons x xs => simp
    · simp [hk]

theorem readTarget_error (L : Lib) (rest : List String) (m : String)
    (h : readTarget L rest = Except.error m) :
    m = "SYNTAX ERROR" ∨
      ∃ tgt, L.getTokenType tgt = TokenType.number ∧ L.stringToInteger tgt = Except.error m := by
  unfold readTarget at h
  simp only at h
  split at h
  · injection h with h
    exact Or.inl h.symm
  · rename_i hk
    split at h
    · rename_i m1 hi
      injection h with h
      subst h
      exact Or.inr ⟨_, by simpa using hk, hi⟩
    · split at h
      · injection h with h
        exact Or.inl h.symm
      · cases h

theorem collectRhs_eq_some_iff (L : Lib) (toks : List String) (text : String)
    (post : List String) :
    collectRhs L toks 0 "" = some (text, post) ↔
      ∃ mid th, toks = mid ++ th :: post ∧ FirstAtDepthZero (IsThen L) 0 mid th ∧
        text = mid.foldl appendToken "" := by
  rw [collectRhs_eq_scanTo]
  constructor
  · intro h
    cases hs : scanTo (IsThen L) toks 0 "" with
    | none => simp [hs] at h
    | some r =>
      obtain ⟨t1, th, p1⟩ := r
      rw [hs] at h
      simp only [Option.map_some', Option.some.injEq, Prod.mk.injEq] at h
      obtain ⟨h1, h2⟩ := h
      subst h1 h2
      obtain ⟨mid, hm, hf, ht⟩ := (scanTo_eq_some_iff (IsThen L) toks 0 "" t1 th p1).mp hs
      exact ⟨mid, th, hm, hf, ht⟩
  · rintro ⟨mid, th, hm, hf, ht⟩
    have := (scanTo_eq_some_iff (IsThen L) toks 0 "" text th post).mpr ⟨mid, hm, hf, ht⟩
    simp [this]

/-- C18: for a stream of non-empty tokens (and a scanner that does not class the
empty token as a number), construction of a conditional jump succeeds exactly
when the stream is `pre`, `op`, `mid`, `th`, `tgt` where `op` is the first
relational token at parenthesis depth zero, `th` is the first token equal to
`THEN` (after upper-casing) at depth zero counted afresh after `op`, and `tgt`
is the one token after it, a number token that `stringToInteger` converts. The
statement built then has `op` as operator, `pre` and `mid` joined by single
blanks as operand texts and the converted integer as target. Every failure is a
SYNTAX ERROR, a number token refused by `stringToInteger` failing with the error
`stringToInteger` throws (SYNTAX ERROR when that is what it throws). -/
theorem C18_if_construction (L : Lib) (scanner : List String)
    (hne : ∀ t ∈ scanner, t ≠ "") (heof : L.getTokenType "" ≠ TokenType.number) :
    (∀ s, mkIf L scanner = Except.ok s ↔
      ∃ pre op mid th tgt v, scanner = pre ++ op :: (mid ++ [th, tgt]) ∧
        FirstAtDepthZero IsRelational 0 pre op ∧ FirstAtDepthZero (IsThen L) 0 mid th ∧
        L.getTokenType tgt = TokenType.number ∧ L.stringToInteger tgt = Except.ok v ∧
        s = Statement.ifStmt (joinTokens pre) (joinTokens mid) op v) ∧
    (∀ m, mkIf L scanner = Except.error m →
      m = "SYNTAX ERROR" ∨
        ∃ tgt, L.getTokenType tgt = TokenType.number ∧
          L.stringToInteger tgt = Except.error m) ∧
    ((∀ tok m, L.stringToInteger tok = Except.error m → m = "SYNTAX ERROR") →
      ∀ m, mkIf L scanner = Except.error m → m = "SYNTAX ERROR") := by
  have herr : ∀ m, mkIf L scanner = Except.error m →
      m = "SYNTAX ERROR" ∨
        ∃ tgt, L.getTokenType tgt = TokenType.number ∧
          L.stringToInteger tgt = Except.error m := ?_
  refine ⟨?_, herr, ?_⟩
  · intro s
    constructor
    · intro h
      unfold mkIf at h
      cases hl : collectLhs scanner 0 "" with
      | none => simp [hl] at h
      | some r1 =>
        obtain ⟨lhs, op, rest1⟩ := r1
        rw [hl] at h
        simp only at h
        cases hr : collectRhs L rest1 0 "" with
        | none => simp [hr] at h
        | some r2 =>
          obtain ⟨rhs, rest2⟩ := r2
          rw [hr] at h
          simp only at h
          cases ht : readTarget L rest2 with
          | error m => simp [ht] at h
          | ok v =>
            rw [ht] at h
            simp only [Except.ok.injEq] at h
            rw [collectLhs_eq_scanTo] at hl
            obtain ⟨pre, hpre, hf1, hlhs⟩ :=
              (scanTo_eq_some_iff IsRelational scanner 0 "" lhs op rest1).mp hl
            obtain ⟨mid, th, hmid, hf2, hrhs⟩ := (collectRhs_eq_some_iff L rest1 rhs rest2).mp hr
            obtain ⟨tgt, htgt, hk, hi⟩ := (readTarget_eq_ok_iff L rest2 v heof).mp ht
            have hne1 : ∀ t ∈ pre, t ≠ "" := by
              intro t ht1
              apply hne
              rw [hpre]
              simp [ht1]
            have hne2 : ∀ t ∈ mid, t ≠ "" := by
              intro t ht1
              apply hne
              rw [hpre, hmid]
              simp [ht1]
            refine ⟨pre, op, mid, th, tgt, v, ?_, hf1, hf2, hk, hi, ?_⟩
            · rw [hpre, hmid, htgt]
            · rw [← h, hlhs, hrhs, foldl_appendToken_eq_join pre hne1,
                foldl_appendToken_eq_join mid hne2]
    · rintro ⟨pre, op, mid, th, tgt, v, hsc, hf1, hf2, hk, hi, hs⟩
      have hne1 : ∀ t ∈ pre, t ≠ "" := by
        intro t ht1
        apply hne
        rw [hsc]
        simp [ht1]
      have hne2 : ∀ t ∈ mid, t ≠ "" := by
        intro t ht1
        apply hne
        rw [hsc]
        simp [ht1]
      have hl : collectLhs scanner 0 "" = some (joinTokens pre, op, mid ++ [th, tgt]) := by
        rw [collectLhs_eq_scanTo]
        exact (scanTo_eq_some_iff IsRelational scanner 0 "" _ op _).mpr
          ⟨pre, hsc, hf1, (foldl_appendToken_eq_join pre hne1).symm⟩
      have hr : collectRhs L (mid ++ [th, tgt]) 0 "" = some (joinTokens mid, [tgt]) :=
        (collectRhs_eq_some_iff L _ _ _).mpr
          ⟨mid, th, rfl, hf2, (foldl_appendToken_eq_join mid hne2).symm⟩
      have ht : readTarget L [tgt] = Except.ok v :=
        (readTarget_eq_ok_iff L [tgt] v heof).mpr ⟨tgt, rfl, hk, hi⟩
      simp [mkIf, hl, hr, ht, hs]
  · intro hint m h
    rcases herr m h with h1 | ⟨tgt, _, h2⟩
    · exact h1
    · exact hint tgt m h2
  · intro m h
    unfold mkIf at h
    cases hl : collectLhs scanner 0 "" with
    | none =>
      rw [hl] at h
      simp only at h
      injection h with h
      exact Or.inl h.symm
    | some r1 =>
      obtain ⟨lhs, op, rest1⟩ := r1
      rw [hl] at h
      simp only at h
      cases hr : collectRhs L rest1 0 "" with
      | none =>
        rw [hr] at h
        simp only at h
        injection h with h
        exact Or.inl h.symm
      | some r2 =>
        obtain ⟨rhs, rest2⟩ := r2
        rw [hr] at h
        simp only at h
        cases ht : readTarget L rest2 with
        | error m1 =>
          rw [ht] at h
          simp only at h
          injection h with h
          subst h
          exact readTarget_error L rest2 m1 ht
        | ok v =>
          rw [ht] at h
          cases h

/-- C18 at a concrete stream: in `( A < B ) = 1 THEN 20` the `<` inside the
parentheses is passed over and `=` is the operator. -/
theorem C18_if_construction_witness :
    ∃ pre op mid th tgt v,
      ["(", "A", "<", "B", ")", "=", "1", "then", "20"] = pre ++ op :: (mid ++ [th, tgt]) ∧
        FirstAtDepthZero IsRelational 0 pre op ∧ FirstAtDepthZero (IsThen specLib) 0 mid th ∧
        specLib.getTokenType tgt = TokenType.number ∧
        specLib.stringToInteger tgt = Except.ok v ∧
        Statement.ifStmt "( A < B )" "1" "=" 20 =
          Statement.ifStmt (joinTokens pre) (joinTokens mid) op v :=
  ((C18_if_construction specLib ["(", "A", "<", "B", ")", "=", "1", "then", "20"]
    (by decide) (by decide)).1 (Statement.ifStmt "( A < B )" "1" "=" 20)).mp (by decide)

/-! ## The range of `tryParseInt` -/

theorem parseDigitsTraced_fst (cs : List Char) (acc : Int) :
    (parseDigitsTraced cs acc).1 = parseDigits cs acc := by
  induction cs generalizing acc with
  | nil => rfl
  | cons c cs ih =>
    simp only [parseDigitsTraced, parseDigits]
    split
    · rfl
    · split
      · rfl
      · exact ih _

/-- Every value the accumulator takes lies between 0 and 21474836489, far inside
the 64-bit range. -/
theorem parseDigitsTraced_bound (cs : List Char) (acc : Int) (h0 : 0 ≤ acc)
    (h1 : acc ≤ 2147483648) :
    ∀ x ∈ (parseDigitsTraced cs acc).2, 0 ≤ x ∧ x ≤ 21474836489 ∧ wrap64 x = x := by
  induction cs generalizing acc with
  | nil =>
    intro x hx
    simp [parseDigitsTraced] at hx
  | cons c cs ih =>
    intro x hx
    simp only [parseDigitsTraced] at hx
    by_cases hd : c.toNat < 48 ∨ c.toNat > 57
    · simp [hd] at hx
    · have hb : 0 ≤ ((c.toNat : Int) - 48) ∧ ((c.toNat : Int) - 48) ≤ 9 := by omega
      have hw : wrap64 (acc * 10 + ((c.toNat : Int) - 48)) = acc * 10 + ((c.toNat : Int) - 48) :=
        wrap64_eq _ (by omega) (by omega)
      rw [if_neg hd, hw] at hx
      by_cases hbig : acc * 10 + ((c.toNat : Int) - 48) > 2147483648
      · rw [if_pos hbig] at hx
        simp only [List.mem_singleton] at hx
        subst hx
        exact ⟨by omega, by omega, hw⟩
      · rw [if_neg hbig] at hx
        simp only [List.mem_cons] at hx
        rcases hx with hx | hx
        · subst hx
          exact ⟨by omega, by omega, hw⟩
        · exact ih _ (by omega) (by omega) x hx

theorem digitsValue_zeros (k : Nat) (ds : List Char) :
    digitsValue (List.replicate k '0' ++ ds) = digitsValue ds := by
  unfold digitsValue
  rw [List.foldl_append]
  congr 1
  induction k with
  | zero => rfl
  | succ k ih =>
    simp only [List.replicate_succ, List.foldl_cons]
    have : (0 : Int) * 10 + ((('0' : Char).toNat : Int) - 48) = 0 := by decide
    rw [this]
    exact ih

theorem all_digits_zeros (k : Nat) (ds : List Char) (h : ds.all isDecimalDigit = true) :
    (List.replicate k '0' ++ ds).all isDecimalDigit = true := by
  simp only [List.all_append, Bool.and_eq_true]
  refine ⟨?_, h⟩
  simp only [List.all_eq_true]
  intro c hc
  have : c = '0' := (List.mem_replicate.mp hc).2
  subst this
  decide

/-- A digit string keeps what it denotes when zeros are put in front of it,
after a sign as well. -/
theorem denotedInt_zeros (k : Nat) (ds : List Char) (hne : ds ≠ [])
    (hall : ds.all isDecimalDigit = true) :
    denotedInt (List.replicate k '0' ++ ds) = denotedInt ds ∧
    denotedInt ('-' :: (List.replicate k '0' ++ ds)) = denotedInt ('-' :: ds) ∧
    denotedInt ('+' :: (List.replicate k '0' ++ ds)) = denotedInt ('+' :: ds) := by
  have hall2 := all_digits_zeros k ds hall
  have hne2 : List.replicate k '0' ++ ds ≠ [] := by simp [hne]
  have hsign : ∀ cs : List Char, cs ≠ [] → cs.all isDecimalDigit = true →
      splitSign cs = (false, cs) := by
    intro cs h1 h2
    cases cs with
    | nil => exact absurd rfl h1
    | cons c rest =>
      simp only [List.all_cons, Bool.and_eq_true] at h2
      have hp : c ≠ '+' := by
        intro hc
        rw [hc] at h2
        exact absurd h2.1 (by decide)
      have hm : c ≠ '-' := by
        intro hc
        rw [hc] at h2
        exact absurd h2.1 (by decide)
      simp [splitSign, hp, hm]
  have hminus : ∀ cs : List Char, splitSign ('-' :: cs) = (true, cs) := by
    intro cs
    have : ¬ ('-' : Char) = '+' := by decide
    simp [splitSign, this]
  have hplus : ∀ cs : List Char, splitSign ('+' :: cs) = (false, cs) := by
    intro cs
    simp [splitSign]
  refine ⟨?_, ?_, ?_⟩
  · unfold denotedInt
    rw [hsign _ hne2 hall2, hsign _ hne hall]
    simp only [hne, hne2, hall, hall2, digitsValue_zeros, ne_eq, not_false_eq_true, and_self,
      if_true]
  · unfold denotedInt
    rw [hminus, hminus]
    simp only [hne, hne2, hall, hall2, digitsValue_zeros, ne_eq, not_false_eq_true, and_self,
      if_true]
  · unfold denotedInt
    rw [hplus, hplus]
    simp only [hne, hne2, hall, hall2, digitsValue_zeros, ne_eq, not_false_eq_true, and_self,
      if_true]

/-- C21: `tryParseInt s` returns true only when `s` is a sign-and-digits text
whose integer lies in the 32-bit range from -2147483648 to 2147483647, and the
output is then that integer; a sign-and-digits text with a value outside the
range, such as `2147483648` or `-2147483649`, is rejected, and one with a value
inside it, such as `-2147483648`, is accepted with that value, zeros in front of
the digits changing nothing. The accumulator of the digit loop never leaves the
64-bit range, whatever the length of the input: every value it takes lies
between 0 and 21474836489, the loop being left as soon as 2147483648 is
exceeded, and the negation at the end stays in range too. -/
theorem C21_tryParseInt_range (s : String) :
    (∀ v, tryParseInt s = some v →
      denotedInt s.toList = some v ∧ -2147483648 ≤ v ∧ v ≤ 2147483647) ∧
    (∀ v, denotedInt s.toList = some v → (v < -2147483648 ∨ 2147483647 < v) →
      tryParseInt s = none) ∧
    (∀ v, denotedInt s.toList = some v → -2147483648 ≤ v → v ≤ 2147483647 →
      tryParseInt s = some v) ∧
    (tryParseInt "2147483648" = none ∧ tryParseInt "-2147483649" = none ∧
      tryParseInt "-2147483648" = some (-2147483648) ∧
      tryParseInt "2147483647" = some 2147483647 ∧
      tryParseInt "99999999999999999999999999" = none) ∧
    (∀ (k : Nat) (ds : List Char), ds ≠ [] → ds.all isDecimalDigit = true →
      tryParseInt (String.mk (List.replicate k '0' ++ ds)) = tryParseInt (String.mk ds) ∧
      tryParseInt (String.mk ('-' :: (List.replicate k '0' ++ ds))) =
        tryParseInt (String.mk ('-' :: ds)) ∧
      tryParseInt (String.mk ('+' :: (List.replicate k '0' ++ ds))) =
        tryParseInt (String.mk ('+' :: ds))) ∧
    (∀ cs : List Char,
      (parseDigitsTraced cs 0).1 = parseDigits cs 0 ∧
      (∀ x ∈ (parseDigitsTraced cs 0).2,
        0 ≤ x ∧ x ≤ 21474836489 ∧ x < 2 ^ 63 ∧ wrap64 x = x) ∧
      (∀ val, parseDigits cs 0 = some val →
        0 ≤ val ∧ val ≤ 2147483648 ∧ wrap64 (-val) = -val)) := by
  refine ⟨?_, ?_, ?_, by decide, ?_, ?_⟩
  · intro v h
    rw [tryParseInt_eq] at h
    cases hd : denotedInt s.toList with
    | none =>
      rw [hd] at h
      cases h
    | some u =>
      rw [hd] at h
      simp only at h
      by_cases hr : -2147483648 ≤ u ∧ u ≤ 2147483647
      · rw [if_pos hr] at h
        injection h with h
        subst h
        exact ⟨rfl, hr.1, hr.2⟩
      · rw [if_neg hr] at h
        cases h
  · intro v hd hout
    rw [tryParseInt_eq, hd]
    simp only
    rw [if_neg]
    omega
  · intro v hd h1 h2
    rw [tryParseInt_eq, hd]
    simp only
    rw [if_pos ⟨h1, h2⟩]
  · intro k ds hne hall
    obtain ⟨h1, h2, h3⟩ := denotedInt_zeros k ds hne hall
    refine ⟨?_, ?_, ?_⟩
    · rw [tryParseInt_eq, tryParseInt_eq]
      show (match denotedInt (List.replicate k '0' ++ ds) with
        | some v => if -2147483648 ≤ v ∧ v ≤ 2147483647 then some v else none
        | none => none) = _
      rw [h1]
      rfl
    · rw [tryParseInt_eq, tryParseInt_eq]
      show (match denotedInt ('-' :: (List.replicate k '0' ++ ds)) with
        | some v => if -2147483648 ≤ v ∧ v ≤ 2147483647 then some v else none
        | none => none) = _
      rw [h2]
      rfl
    · rw [tryParseInt_eq, tryParseInt_eq]
      show (match denotedInt ('+' :: (List.replicate k '0' ++ ds)) with
        | some v => if -2147483648 ≤ v ∧ v ≤ 2147483647 then some v else none
        | none => none) = _
      rw [h3]
      rfl
  · intro cs
    refine ⟨parseDigitsTraced_fst cs 0, ?_, ?_⟩
    · intro x hx
      obtain ⟨h1, h2, h3⟩ := parseDigitsTraced_bound cs 0 (le_refl 0) (by norm_num) x hx
      refine ⟨h1, h2, ?_, h3⟩
      have : (2 : Int) ^ 63 = 9223372036854775808 := by norm_num
      omega
    · intro val hval
      rw [parseDigits_eq cs 0 (le_refl 0) (by norm_num)] at hval
      split at hval
      · rename_i hc
        injection hval with hval
        have hnn := foldl_digits_ge cs 0 (le_refl 0) hc.1
        rw [hval] at hc hnn
        exact ⟨hnn, hc.2, wrap64_eq _ (by omega) (by omega)⟩
      · cases hval

/-- C21 at concrete texts: `0002147483647` is read by value, a run of forty
digits is rejected, and on it the accumulator stops after eleven rounds. -/
theorem C21_tryParseInt_range_witness :
    tryParseInt "0002147483647" = some 2147483647 ∧
      tryParseInt "1234567890123456789012345678901234567890" = none ∧
      (parseDigitsTraced "1234567890123456789012345678901234567890".toList 0).2 =
        [1, 12, 123, 1234, 12345, 123456, 1234567, 12345678, 123456789, 1234567890,
          12345678901] :=
  ⟨(C21_tryParseInt_range "0002147483647").2.2.1 2147483647 (by decide) (by decide)
      (by decide),
    (C21_tryParseInt_range "1234567890123456789012345678901234567890").2.1
      1234567890123456789012345678901234567890 (by decide) (by decide),
    by decide⟩

end Basic
